import Mathlib

/-!
# cloudevents: decoding and encoding of event envelopes

A shallow embedding of `cloudevents.go` (`FromHTTPRequest`, `Event.Marshal`,
`Event.ToHTTPHeaders`, `AddHeader`) together with the parts of the Go standard
library the code calls: `strings`, the header keys of `net/textproto`,
`encoding/base64` and `encoding/json`.

* A Go `string` or `[]byte` is a sequence of bytes; both are embedded as lists
  of natural numbers, one number below 256 per byte.  A nil slice is `none`, an
  empty one is `some []`.
* A Go map is embedded as an association list; the order of the list is the
  order in which `range` visits the map, so a statement about every list is a
  statement about every order of iteration.
* A function that returns an `error` returns an `Except` or an optional error;
  a run-time panic (an index out of range) is the result `none`.
* `strings.ToLower` is embedded with the Unicode case mappings of the package
  `unicode`: outside ASCII a string is decoded as UTF-8, every code point is
  mapped to its lower case, and a byte that is not valid UTF-8 becomes U+FFFD.
* `encoding/json` is embedded for the three targets the code uses:
  `map[string][]byte`, `string` and `[]byte` for `json.Unmarshal`, and a
  `map[string]interface{}` of strings, raw messages and byte slices for
  `json.MarshalIndent`.  For a target of type `[]byte` the package reads a JSON
  string as base64 and writes a byte slice as base64.
-/

namespace CloudEvents

/-! ## Bytes and strings -/

/-- A Go `string` or `[]byte`: a sequence of bytes. -/
abbrev Bytes := List Nat

/-- UTF-8 encoding of one code point (`utf8.EncodeRune`); surrogates and values
past U+10FFFF are written as U+FFFD. -/
def encodeRune (r : Nat) : Bytes :=
  if r < 0x80 then [r]
  else if r < 0x800 then [0xC0 + r / 64, 0x80 + r % 64]
  else if (0xD800 ≤ r ∧ r ≤ 0xDFFF) ∨ 0x10FFFF < r then [0xEF, 0xBF, 0xBD]
  else if r < 0x10000 then [0xE0 + r / 4096, 0x80 + r / 64 % 64, 0x80 + r % 64]
  else [0xF0 + r / 262144, 0x80 + r / 4096 % 64, 0x80 + r / 64 % 64, 0x80 + r % 64]

/-- The bytes of a Go string literal (UTF-8). -/
def str (s : String) : Bytes :=
  s.data.flatMap (fun c => encodeRune c.toNat)

/-- Go `strings.HasPrefix`. -/
def HasPrefix : Bytes → Bytes → Bool
  | _, [] => true
  | [], _ :: _ => false
  | a :: s, b :: p => a == b && HasPrefix s p

/-- A continuation byte of UTF-8. -/
def isCont (c : Nat) : Bool :=
  0x80 ≤ c && c ≤ 0xBF

/-- Go `utf8.DecodeRune` on a non-empty string: the first code point and its
width; a byte that starts no valid encoding gives U+FFFD and width 1. -/
def decodeRune : Bytes → Nat × Nat
  | [] => (0xFFFD, 0)
  | [a] => if a < 0x80 then (a, 1) else (0xFFFD, 1)
  | a :: b :: rest =>
    if a < 0x80 then (a, 1)
    else if 0xC2 ≤ a ∧ a ≤ 0xDF then
      if isCont b then ((a - 0xC0) * 64 + (b - 0x80), 2) else (0xFFFD, 1)
    else if 0xE0 ≤ a ∧ a ≤ 0xEF then
      match rest with
      | c :: _ =>
        if (if a = 0xE0 then 0xA0 ≤ b ∧ b ≤ 0xBF else if a = 0xED then 0x80 ≤ b ∧ b ≤ 0x9F
            else isCont b = true) ∧ isCont c = true
        then ((a - 0xE0) * 4096 + (b - 0x80) * 64 + (c - 0x80), 3) else (0xFFFD, 1)
      | [] => (0xFFFD, 1)
    else if 0xF0 ≤ a ∧ a ≤ 0xF4 then
      match rest with
      | c :: d :: _ =>
        if (if a = 0xF0 then 0x90 ≤ b ∧ b ≤ 0xBF else if a = 0xF4 then 0x80 ≤ b ∧ b ≤ 0x8F
            else isCont b = true) ∧ isCont c = true ∧ isCont d = true
        then ((a - 0xF0) * 262144 + (b - 0x80) * 4096 + (c - 0x80) * 64 + (d - 0x80), 4)
        else (0xFFFD, 1)
      | _ => (0xFFFD, 1)
    else (0xFFFD, 1)

/-- Lower-casing of one byte: `A`..`Z` go to `a`..`z`. -/
def lowerByte (b : Nat) : Nat :=
  if 65 ≤ b ∧ b ≤ 90 then b + 32 else b

/-- The lower-case mappings of the table `unicode.CaseRanges` outside ASCII:
the simple lower-case mappings of the Unicode Character Database, version
15.0.0 (the tables of Go 1.21).  An entry `(lo, hi, to, stride)` maps the code
points `lo`, `lo + stride`, ... up to `hi`; `lo` goes to `to` and the others
keep their distance from `lo`. -/
def lowerRanges : List (Nat × Nat × Nat × Nat) :=
  [(0x00C0, 0x00D6, 0x00E0, 1), (0x00D8, 0x00DE, 0x00F8, 1), (0x0100, 0x012E, 0x0101, 2),
   (0x0130, 0x0130, 0x0069, 1), (0x0132, 0x0136, 0x0133, 2), (0x0139, 0x0147, 0x013A, 2),
   (0x014A, 0x0176, 0x014B, 2), (0x0178, 0x0178, 0x00FF, 1), (0x0179, 0x017D, 0x017A, 2),
   (0x0181, 0x0181, 0x0253, 1), (0x0182, 0x0184, 0x0183, 2), (0x0186, 0x0186, 0x0254, 1),
   (0x0187, 0x0187, 0x0188, 1), (0x0189, 0x018A, 0x0256, 1), (0x018B, 0x018B, 0x018C, 1),
   (0x018E, 0x018E, 0x01DD, 1), (0x018F, 0x018F, 0x0259, 1), (0x0190, 0x0190, 0x025B, 1),
   (0x0191, 0x0191, 0x0192, 1), (0x0193, 0x0193, 0x0260, 1), (0x0194, 0x0194, 0x0263, 1),
   (0x0196, 0x0196, 0x0269, 1), (0x0197, 0x0197, 0x0268, 1), (0x0198, 0x0198, 0x0199, 1),
   (0x019C, 0x019C, 0x026F, 1), (0x019D, 0x019D, 0x0272, 1), (0x019F, 0x019F, 0x0275, 1),
   (0x01A0, 0x01A4, 0x01A1, 2), (0x01A6, 0x01A6, 0x0280, 1), (0x01A7, 0x01A7, 0x01A8, 1),
   (0x01A9, 0x01A9, 0x0283, 1), (0x01AC, 0x01AC, 0x01AD, 1), (0x01AE, 0x01AE, 0x0288, 1),
   (0x01AF, 0x01AF, 0x01B0, 1), (0x01B1, 0x01B2, 0x028A, 1), (0x01B3, 0x01B5, 0x01B4, 2),
   (0x01B7, 0x01B7, 0x0292, 1), (0x01B8, 0x01B8, 0x01B9, 1), (0x01BC, 0x01BC, 0x01BD, 1),
   (0x01C4, 0x01C4, 0x01C6, 1), (0x01C5, 0x01C5, 0x01C6, 1), (0x01C7, 0x01C7, 0x01C9, 1),
   (0x01C8, 0x01C8, 0x01C9, 1), (0x01CA, 0x01CA, 0x01CC, 1), (0x01CB, 0x01DB, 0x01CC, 2),
   (0x01DE, 0x01EE, 0x01DF, 2), (0x01F1, 0x01F1, 0x01F3, 1), (0x01F2, 0x01F4, 0x01F3, 2),
   (0x01F6, 0x01F6, 0x0195, 1), (0x01F7, 0x01F7, 0x01BF, 1), (0x01F8, 0x021E, 0x01F9, 2),
   (0x0220, 0x0220, 0x019E, 1), (0x0222, 0x0232, 0x0223, 2), (0x023A, 0x023A, 0x2C65, 1),
   (0x023B, 0x023B, 0x023C, 1), (0x023D, 0x023D, 0x019A, 1), (0x023E, 0x023E, 0x2C66, 1),
   (0x0241, 0x0241, 0x0242, 1), (0x0243, 0x0243, 0x0180, 1), (0x0244, 0x0244, 0x0289, 1),
   (0x0245, 0x0245, 0x028C, 1), (0x0246, 0x024E, 0x0247, 2), (0x0370, 0x0372, 0x0371, 2),
   (0x0376, 0x0376, 0x0377, 1), (0x037F, 0x037F, 0x03F3, 1), (0x0386, 0x0386, 0x03AC, 1),
   (0x0388, 0x038A, 0x03AD, 1), (0x038C, 0x038C, 0x03CC, 1), (0x038E, 0x038F, 0x03CD, 1),
   (0x0391, 0x03A1, 0x03B1, 1), (0x03A3, 0x03AB, 0x03C3, 1), (0x03CF, 0x03CF, 0x03D7, 1),
   (0x03D8, 0x03EE, 0x03D9, 2), (0x03F4, 0x03F4, 0x03B8, 1), (0x03F7, 0x03F7, 0x03F8, 1),
   (0x03F9, 0x03F9, 0x03F2, 1), (0x03FA, 0x03FA, 0x03FB, 1), (0x03FD, 0x03FF, 0x037B, 1),
   (0x0400, 0x040F, 0x0450, 1), (0x0410, 0x042F, 0x0430, 1), (0x0460, 0x0480, 0x0461, 2),
   (0x048A, 0x04BE, 0x048B, 2), (0x04C0, 0x04C0, 0x04CF, 1), (0x04C1, 0x04CD, 0x04C2, 2),
   (0x04D0, 0x052E, 0x04D1, 2), (0x0531, 0x0556, 0x0561, 1), (0x10A0, 0x10C5, 0x2D00, 1),
   (0x10C7, 0x10C7, 0x2D27, 1), (0x10CD, 0x10CD, 0x2D2D, 1), (0x13A0, 0x13EF, 0xAB70, 1),
   (0x13F0, 0x13F5, 0x13F8, 1), (0x1C90, 0x1CBA, 0x10D0, 1), (0x1CBD, 0x1CBF, 0x10FD, 1),
   (0x1E00, 0x1E94, 0x1E01, 2), (0x1E9E, 0x1E9E, 0x00DF, 1), (0x1EA0, 0x1EFE, 0x1EA1, 2),
   (0x1F08, 0x1F0F, 0x1F00, 1), (0x1F18, 0x1F1D, 0x1F10, 1), (0x1F28, 0x1F2F, 0x1F20, 1),
   (0x1F38, 0x1F3F, 0x1F30, 1), (0x1F48, 0x1F4D, 0x1F40, 1), (0x1F59, 0x1F5F, 0x1F51, 2),
   (0x1F68, 0x1F6F, 0x1F60, 1), (0x1F88, 0x1F8F, 0x1F80, 1), (0x1F98, 0x1F9F, 0x1F90, 1),
   (0x1FA8, 0x1FAF, 0x1FA0, 1), (0x1FB8, 0x1FB9, 0x1FB0, 1), (0x1FBA, 0x1FBB, 0x1F70, 1),
   (0x1FBC, 0x1FBC, 0x1FB3, 1), (0x1FC8, 0x1FCB, 0x1F72, 1), (0x1FCC, 0x1FCC, 0x1FC3, 1),
   (0x1FD8, 0x1FD9, 0x1FD0, 1), (0x1FDA, 0x1FDB, 0x1F76, 1), (0x1FE8, 0x1FE9, 0x1FE0, 1),
   (0x1FEA, 0x1FEB, 0x1F7A, 1), (0x1FEC, 0x1FEC, 0x1FE5, 1), (0x1FF8, 0x1FF9, 0x1F78, 1),
   (0x1FFA, 0x1FFB, 0x1F7C, 1), (0x1FFC, 0x1FFC, 0x1FF3, 1), (0x2126, 0x2126, 0x03C9, 1),
   (0x212A, 0x212A, 0x006B, 1), (0x212B, 0x212B, 0x00E5, 1), (0x2132, 0x2132, 0x214E, 1),
   (0x2160, 0x216F, 0x2170, 1), (0x2183, 0x2183, 0x2184, 1), (0x24B6, 0x24CF, 0x24D0, 1),
   (0x2C00, 0x2C2F, 0x2C30, 1), (0x2C60, 0x2C60, 0x2C61, 1), (0x2C62, 0x2C62, 0x026B, 1),
   (0x2C63, 0x2C63, 0x1D7D, 1), (0x2C64, 0x2C64, 0x027D, 1), (0x2C67, 0x2C6B, 0x2C68, 2),
   (0x2C6D, 0x2C6D, 0x0251, 1), (0x2C6E, 0x2C6E, 0x0271, 1), (0x2C6F, 0x2C6F, 0x0250, 1),
   (0x2C70, 0x2C70, 0x0252, 1), (0x2C72, 0x2C72, 0x2C73, 1), (0x2C75, 0x2C75, 0x2C76, 1),
   (0x2C7E, 0x2C7F, 0x023F, 1), (0x2C80, 0x2CE2, 0x2C81, 2), (0x2CEB, 0x2CED, 0x2CEC, 2),
   (0x2CF2, 0x2CF2, 0x2CF3, 1), (0xA640, 0xA66C, 0xA641, 2), (0xA680, 0xA69A, 0xA681, 2),
   (0xA722, 0xA72E, 0xA723, 2), (0xA732, 0xA76E, 0xA733, 2), (0xA779, 0xA77B, 0xA77A, 2),
   (0xA77D, 0xA77D, 0x1D79, 1), (0xA77E, 0xA786, 0xA77F, 2), (0xA78B, 0xA78B, 0xA78C, 1),
   (0xA78D, 0xA78D, 0x0265, 1), (0xA790, 0xA792, 0xA791, 2), (0xA796, 0xA7A8, 0xA797, 2),
   (0xA7AA, 0xA7AA, 0x0266, 1), (0xA7AB, 0xA7AB, 0x025C, 1), (0xA7AC, 0xA7AC, 0x0261, 1),
   (0xA7AD, 0xA7AD, 0x026C, 1), (0xA7AE, 0xA7AE, 0x026A, 1), (0xA7B0, 0xA7B0, 0x029E, 1),
   (0xA7B1, 0xA7B1, 0x0287, 1), (0xA7B2, 0xA7B2, 0x029D, 1), (0xA7B3, 0xA7B3, 0xAB53, 1),
   (0xA7B4, 0xA7C2, 0xA7B5, 2), (0xA7C4, 0xA7C4, 0xA794, 1), (0xA7C5, 0xA7C5, 0x0282, 1),
   (0xA7C6, 0xA7C6, 0x1D8E, 1), (0xA7C7, 0xA7C9, 0xA7C8, 2), (0xA7D0, 0xA7D0, 0xA7D1, 1),
   (0xA7D6, 0xA7D8, 0xA7D7, 2), (0xA7F5, 0xA7F5, 0xA7F6, 1), (0xFF21, 0xFF3A, 0xFF41, 1),
   (0x10400, 0x10427, 0x10428, 1), (0x104B0, 0x104D3, 0x104D8, 1),
   (0x10570, 0x1057A, 0x10597, 1), (0x1057C, 0x1058A, 0x105A3, 1),
   (0x1058C, 0x10592, 0x105B3, 1), (0x10594, 0x10595, 0x105BB, 1),
   (0x10C80, 0x10CB2, 0x10CC0, 1), (0x118A0, 0x118BF, 0x118C0, 1),
   (0x16E40, 0x16E5F, 0x16E60, 1), (0x1E900, 0x1E921, 0x1E922, 1)]

/-- Whether an entry of the table maps the code point `r`. -/
def inLowerRange (r : Nat) (e : Nat × Nat × Nat × Nat) : Bool :=
  e.1 ≤ r && r ≤ e.2.1 && (r - e.1) % e.2.2.2 == 0

/-- Go `unicode.ToLower`: an ASCII letter is mapped directly, every other code
point through the table (`unicode.To(unicode.LowerCase, r)`). -/
def unicodeToLower (r : Nat) : Nat :=
  if r < 0x80 then lowerByte r
  else match lowerRanges.find? (inLowerRange r) with
    | some e => e.2.2.1 + (r - e.1)
    | none => r

/-- Go `strings.Map(unicode.ToLower, s)`: every code point is replaced by its
lower case, and a byte that is not valid UTF-8 by U+FFFD.  The first argument
bounds the number of steps. -/
def mapToLower : Nat → Bytes → Bytes
  | 0, _ => []
  | _, [] => []
  | fuel + 1, c :: rest =>
    let rw := decodeRune (c :: rest)
    encodeRune (unicodeToLower rw.1) ++ mapToLower fuel ((c :: rest).drop rw.2)

/-- Go `strings.ToLower`: a string of ASCII bytes is lower-cased byte by byte,
every other string code point by code point. -/
def ToLower (s : Bytes) : Bytes :=
  if s.all (fun c => c < 0x80) then s.map lowerByte else mapToLower s.length s

/-- The UTF-8 encodings of the code points with the Unicode White_Space
property, the set `unicode.IsSpace` accepts. -/
def spaceEncodings : List Bytes :=
  [[0x09], [0x0A], [0x0B], [0x0C], [0x0D], [0x20], [0xC2, 0x85], [0xC2, 0xA0],
   [0xE1, 0x9A, 0x80],
   [0xE2, 0x80, 0x80], [0xE2, 0x80, 0x81], [0xE2, 0x80, 0x82], [0xE2, 0x80, 0x83],
   [0xE2, 0x80, 0x84], [0xE2, 0x80, 0x85], [0xE2, 0x80, 0x86], [0xE2, 0x80, 0x87],
   [0xE2, 0x80, 0x88], [0xE2, 0x80, 0x89], [0xE2, 0x80, 0x8A],
   [0xE2, 0x80, 0xA8], [0xE2, 0x80, 0xA9], [0xE2, 0x80, 0xAF],
   [0xE2, 0x81, 0x9F], [0xE3, 0x80, 0x80]]

/-- Width in bytes of the white-space rune the string starts with, 0 if it
starts with none. -/
def leadingSpace (s : Bytes) : Nat :=
  match spaceEncodings.find? (fun e => HasPrefix s e) with
  | some e => e.length
  | none => 0

/-- Removes leading white space (`strings.TrimLeftFunc` with `unicode.IsSpace`);
the first argument bounds the number of runes removed. -/
def trimLeft : Nat → Bytes → Bytes
  | 0, s => s
  | n + 1, s =>
    match leadingSpace s with
    | 0 => s
    | w => trimLeft n (s.drop w)

/-- Removes trailing white space from a string given back to front
(`strings.TrimRightFunc` with `unicode.IsSpace`): a rune at the back is white
space when the string ends with its encoding. -/
def trimRightRev : Nat → Bytes → Bytes
  | 0, s => s
  | n + 1, s =>
    match spaceEncodings.find? (fun e => HasPrefix s e.reverse) with
    | some e => trimRightRev n (s.drop e.length)
    | none => s

/-- Go `strings.TrimSpace`: white space is removed from the front, then from the
back. -/
def TrimSpace (s : Bytes) : Bytes :=
  let l := trimLeft s.length s
  (trimRightRev l.length l.reverse).reverse

/-! ## Maps and HTTP headers -/

/-- Assignment `m[k] = v` on a Go map: the entry for `k` is replaced when there
is one and added otherwise. -/
def mapSet {β : Type} (m : List (Bytes × β)) (k : Bytes) (v : β) : List (Bytes × β) :=
  match m with
  | [] => [(k, v)]
  | (k1, v1) :: rest => if k1 = k then (k, v) :: rest else (k1, v1) :: mapSet rest k v

/-- Go `http.Header`: a map from field name to the list of its values. -/
abbrev Header := List (Bytes × List Bytes)

/-- The bytes allowed in a header field name (`validHeaderFieldByte`): the
token characters of RFC 7230. -/
def validHeaderFieldByte (c : Nat) : Bool :=
  (48 ≤ c && c ≤ 57) || (65 ≤ c && c ≤ 90) || (97 ≤ c && c ≤ 122) ||
  [33, 35, 36, 37, 38, 39, 42, 43, 45, 46, 94, 95, 96, 124, 126].contains c

/-- The canonical form of a valid field name: the first letter and every letter
after a hyphen in upper case, the others in lower case.  The flag says whether
the next byte starts a word. -/
def canonicalMIMEHeaderKey : Bool → Bytes → Bytes
  | _, [] => []
  | upper, c :: rest =>
    let c1 := if upper && (97 ≤ c && c ≤ 122) then c - 32
              else if !upper && (65 ≤ c && c ≤ 90) then c + 32 else c
    c1 :: canonicalMIMEHeaderKey (c1 == 45) rest

/-- Go `textproto.CanonicalMIMEHeaderKey`: a name holding a byte that is not
allowed in a field name is returned unchanged. -/
def CanonicalMIMEHeaderKey (s : Bytes) : Bytes :=
  if s.all validHeaderFieldByte then canonicalMIMEHeaderKey true s else s

/-- Go `Header.Get`: the first value stored under the canonical form of the
key, the empty string when there is none. -/
def Header.Get (h : Header) (key : Bytes) : Bytes :=
  match h.lookup (CanonicalMIMEHeaderKey key) with
  | some (v :: _) => v
  | _ => []

/-- Appends a value to the values stored under `k`, which is taken as it is. -/
def Header.append (h : Header) (k : Bytes) (value : Bytes) : Header :=
  match h with
  | [] => [(k, [value])]
  | (k1, vs) :: rest =>
    if k1 = k then (k1, vs ++ [value]) :: rest else (k1, vs) :: Header.append rest k value

/-- Go `Header.Add`: appends the value to the values stored under the canonical
form of the key. -/
def Header.Add (h : Header) (key : Bytes) (value : Bytes) : Header :=
  Header.append h (CanonicalMIMEHeaderKey key) value

/-! ## Errors, events and requests -/

/-- The errors the code can return. -/
inductive GoError
  | readFailed
  | jsonInvalid
  | jsonUnmarshalType
  | base64Corrupt
  | jsonMarshaler
  | jsonUnsupported
  deriving DecidableEq, Repr

/-- A non-nil value held in `DataObject`, given by what `json.Marshal` returns
on it: its JSON text, or an error for a value that JSON cannot represent. -/
inductive DataValue
  | encodes (json : Bytes)
  | unsupported (err : GoError)
  deriving DecidableEq, Repr

/-- The struct `Event` (the field `Type` is written `Type_`).  `Data` is `none` for a nil slice, `DataObject` is
`none` for a nil interface, `Extensions` is empty for a nil map. -/
structure Event where
  SpecVersion : Bytes := []
  Type_ : Bytes := []
  Source : Bytes := []
  Subject : Bytes := []
  ID : Bytes := []
  Time : Bytes := []
  SchemaURL : Bytes := []
  DataContentType : Bytes := []
  Extensions : List (Bytes × Bytes) := []
  Data : Option Bytes := none
  DataObject : Option DataValue := none
  deriving DecidableEq, Repr

/-- The body of a request: what `ioutil.ReadAll` returns on it. -/
inductive ReadCloser
  | reads (data : Bytes)
  | fails (err : GoError)
  deriving DecidableEq, Repr

/-- The part of `http.Request` the decoder reads.  `Body` is `none` for a nil
body. -/
structure Request where
  Header : Header
  Body : Option ReadCloser
  deriving DecidableEq, Repr

/-- The three results of `FromHTTPRequest`. -/
structure Decoded where
  event : Option Event
  isBinary : Bool
  err : Option GoError
  deriving DecidableEq, Repr

/-! ## encoding/base64 (the standard encoding, with padding) -/

/-- The value of a character of the standard base64 alphabet. -/
def base64Value (c : Nat) : Option Nat :=
  if 65 ≤ c ∧ c ≤ 90 then some (c - 65)
  else if 97 ≤ c ∧ c ≤ 122 then some (c - 71)
  else if 48 ≤ c ∧ c ≤ 57 then some (c + 4)
  else if c = 43 then some 62
  else if c = 47 then some 63
  else none

/-- Decodes groups of four characters; the last group may end in one or two
padding characters `=`, and nothing may follow it. -/
def base64DecodeQuanta : Bytes → Option Bytes
  | [] => some []
  | [a, b, 61, 61] =>
    match base64Value a, base64Value b with
    | some x, some y => some [x * 4 + y / 16]
    | _, _ => none
  | [a, b, c, 61] =>
    match base64Value a, base64Value b, base64Value c with
    | some x, some y, some z => some [x * 4 + y / 16, y % 16 * 16 + z / 4]
    | _, _, _ => none
  | a :: b :: c :: d :: rest =>
    match base64Value a, base64Value b, base64Value c, base64Value d,
      base64DecodeQuanta rest with
    | some x, some y, some z, some w, some out =>
      some ([x * 4 + y / 16, y % 16 * 16 + z / 4, z % 4 * 64 + w] ++ out)
    | _, _, _, _, _ => none
  | _ => none

/-- Go `base64.StdEncoding.Decode`: carriage returns and line feeds are
skipped; `none` stands for `CorruptInputError`. -/
def base64Decode (s : Bytes) : Option Bytes :=
  base64DecodeQuanta (s.filter (fun c => c != 10 && c != 13))

/-- The character of the standard base64 alphabet for a value below 64. -/
def base64Char (n : Nat) : Nat :=
  if n < 26 then n + 65
  else if n < 52 then n + 71
  else if n < 62 then n - 4
  else if n = 62 then 43
  else 47

/-- Go `base64.StdEncoding.EncodeToString`. -/
def base64Encode : Bytes → Bytes
  | [] => []
  | [a] => [base64Char (a / 4), base64Char (a % 4 * 16), 61, 61]
  | [a, b] =>
    [base64Char (a / 4), base64Char (a % 4 * 16 + b / 16), base64Char (b % 16 * 4), 61]
  | a :: b :: c :: rest =>
    [base64Char (a / 4), base64Char (a % 4 * 16 + b / 16),
      base64Char (b % 16 * 4 + c / 64), base64Char (c % 64)] ++ base64Encode rest

/-! ## encoding/json: the scanner -/

/-- JSON white space: space, tab, carriage return, line feed. -/
def isSpace (c : Nat) : Bool :=
  c == 32 || c == 9 || c == 13 || c == 10

/-- A decimal digit. -/
def isDigit (c : Nat) : Bool :=
  48 ≤ c && c ≤ 57

/-- A hexadecimal digit. -/
def isHex (c : Nat) : Bool :=
  isDigit c || (97 ≤ c && c ≤ 102) || (65 ≤ c && c ≤ 70)

/-- Drops leading JSON white space. -/
def skipSpace : Bytes → Bytes
  | [] => []
  | c :: rest => if isSpace c then skipSpace rest else c :: rest

/-- Drops leading decimal digits. -/
def skipDigits : Bytes → Bytes
  | [] => []
  | c :: rest => if isDigit c then skipDigits rest else c :: rest

/-- Scans a string literal from the byte after its opening quote; the result is
what follows the closing quote.  Control characters and unknown escapes are
rejected; bytes from 0x80 on are accepted as they are. -/
def scanString : Bytes → Option Bytes
  | [] => none
  | 34 :: rest => some rest
  | 92 :: 117 :: a :: b :: c :: d :: rest =>
    if isHex a && isHex b && isHex c && isHex d then scanString rest else none
  | 92 :: c :: rest =>
    if [34, 92, 47, 98, 102, 110, 114, 116].contains c then scanString rest else none
  | c :: rest => if c < 32 then none else scanString rest

/-- Scans the exponent of a number, if there is one. -/
def scanExp : Bytes → Option Bytes
  | [] => some []
  | e :: rest =>
    if e = 101 ∨ e = 69 then
      let rest1 := match rest with
        | 43 :: r => r
        | 45 :: r => r
        | r => r
      match rest1 with
      | d :: r => if isDigit d then some (skipDigits r) else none
      | [] => none
    else some (e :: rest)

/-- Scans the fraction and the exponent of a number, if there are any. -/
def scanFrac : Bytes → Option Bytes
  | 46 :: d :: rest => if isDigit d then scanExp (skipDigits rest) else none
  | [46] => none
  | rest => scanExp rest

/-- Scans a number: an optional minus sign, `0` or a digit from 1 to 9 followed
by digits, then an optional fraction and exponent. -/
def scanNumber (bs : Bytes) : Option Bytes :=
  let bs1 := match bs with
    | 45 :: r => r
    | r => r
  match bs1 with
  | [] => none
  | c :: rest =>
    if c = 48 then scanFrac rest
    else if 49 ≤ c ∧ c ≤ 57 then scanFrac (skipDigits rest)
    else none

/-- The nesting depth past which the scanner gives up. -/
def maxNestingDepth : Nat := 10000

mutual
/-- Scans one JSON value after optional white space; the result is what follows
it.  The first argument bounds the number of nested calls, the second is the
number of objects and arrays currently open. -/
def scanValue : Nat → Nat → Bytes → Option Bytes
  | 0, _, _ => none
  | fuel + 1, depth, bs =>
    match skipSpace bs with
    | [] => none
    | 34 :: r => scanString r
    | 123 :: r =>
      if maxNestingDepth ≤ depth then none
      else match skipSpace r with
        | 125 :: r1 => some r1
        | r1 => scanMembers fuel (depth + 1) r1
    | 91 :: r =>
      if maxNestingDepth ≤ depth then none
      else match skipSpace r with
        | 93 :: r1 => some r1
        | r1 => scanElements fuel (depth + 1) r1
    | 116 :: 114 :: 117 :: 101 :: r => some r
    | 102 :: 97 :: 108 :: 115 :: 101 :: r => some r
    | 110 :: 117 :: 108 :: 108 :: r => some r
    | c :: r => if c = 45 ∨ isDigit c then scanNumber (c :: r) else none
/-- Scans the members of an object from the start of a member up to the closing
brace. -/
def scanMembers : Nat → Nat → Bytes → Option Bytes
  | 0, _, _ => none
  | fuel + 1, depth, bs =>
    match skipSpace bs with
    | 34 :: r =>
      match scanString r with
      | none => none
      | some r1 =>
        match skipSpace r1 with
        | 58 :: r2 =>
          match scanValue fuel depth r2 with
          | none => none
          | some r3 =>
            match skipSpace r3 with
            | 44 :: r4 => scanMembers fuel depth r4
            | 125 :: r4 => some r4
            | _ => none
        | _ => none
    | _ => none
/-- Scans the elements of an array from the start of an element up to the
closing bracket. -/
def scanElements : Nat → Nat → Bytes → Option Bytes
  | 0, _, _ => none
  | fuel + 1, depth, bs =>
    match scanValue fuel depth bs with
    | none => none
    | some r1 =>
      match skipSpace r1 with
      | 44 :: r2 => scanElements fuel depth r2
      | 93 :: r2 => some r2
      | _ => none
end

/-- Go `json.Valid` (`checkValid`): the text is one JSON value with optional
white space around it.  Every nested call of the scanner consumes a byte, so the
length of the text bounds their number. -/
def checkValid (data : Bytes) : Bool :=
  match scanValue (data.length + 1) 0 data with
  | some rest => skipSpace rest == []
  | none => false

/-! ## encoding/json: decoding -/

/-- The value of a hexadecimal digit. -/
def hexValue (c : Nat) : Nat :=
  if isDigit c then c - 48 else if 97 ≤ c then c - 87 else c - 55

/-- The value of four hexadecimal digits. -/
def hex4 (a b c d : Nat) : Nat :=
  hexValue a * 4096 + hexValue b * 256 + hexValue c * 16 + hexValue d

/-- The character a one-letter escape stands for. -/
def unescape (c : Nat) : Nat :=
  if c = 98 then 8 else if c = 102 then 12 else if c = 110 then 10
  else if c = 114 then 13 else if c = 116 then 9 else c

/-- Go `unquote` on a literal the scanner accepted, from the byte after the
opening quote up to the closing quote: escapes are replaced, a pair of
surrogate escapes gives one code point, a lone surrogate and every byte that is
not valid UTF-8 give U+FFFD.  The first argument bounds the number of steps. -/
def unquote : Nat → Bytes → Bytes
  | 0, _ => []
  | _, [] => []
  | _ + 1, 34 :: _ => []
  | fuel + 1, 92 :: 117 :: a :: b :: c :: d :: rest =>
    let rr := hex4 a b c d
    if 0xD800 ≤ rr ∧ rr ≤ 0xDFFF then
      match rest with
      | 92 :: 117 :: e :: f :: g :: h :: rest2 =>
        let rr1 := hex4 e f g h
        if rr < 0xDC00 ∧ isHex e ∧ isHex f ∧ isHex g ∧ isHex h ∧ 0xDC00 ≤ rr1 ∧ rr1 ≤ 0xDFFF
        then encodeRune (0x10000 + (rr - 0xD800) * 1024 + (rr1 - 0xDC00)) ++ unquote fuel rest2
        else encodeRune 0xFFFD ++ unquote fuel rest
      | _ => encodeRune 0xFFFD ++ unquote fuel rest
    else encodeRune rr ++ unquote fuel rest
  | fuel + 1, 92 :: c :: rest => unescape c :: unquote fuel rest
  | fuel + 1, c :: rest =>
    if c < 0x80 then c :: unquote fuel rest
    else
      let rw := decodeRune (c :: rest)
      encodeRune rw.1 ++ unquote fuel ((c :: rest).drop rw.2)

/-- The string a literal stands for, from the byte after its opening quote. -/
def unquoteLiteral (r : Bytes) : Bytes :=
  unquote r.length r

/-- The text of the value `bs` starts with, given what follows the value. -/
def valueText (bs rest : Bytes) : Bytes :=
  (skipSpace bs).take ((skipSpace bs).length - rest.length)

/-- The members of an object of a valid text, from the byte after the opening
brace: each key unquoted, each value as its text. -/
def objectMembers : Nat → Bytes → List (Bytes × Bytes)
  | 0, _ => []
  | fuel + 1, bs =>
    match skipSpace bs with
    | 34 :: r =>
      match scanString r with
      | none => []
      | some r1 =>
        match skipSpace r1 with
        | 58 :: r2 =>
          match scanValue (r2.length + 1) 0 r2 with
          | none => []
          | some r3 =>
            match skipSpace r3 with
            | 44 :: r4 => (unquoteLiteral r, valueText r2 r3) :: objectMembers fuel r4
            | _ => [(unquoteLiteral r, valueText r2 r3)]
        | _ => []
    | _ => []

/-- The texts of the elements of an array of a valid text, from the byte after
the opening bracket. -/
def arrayElements : Nat → Bytes → List Bytes
  | 0, _ => []
  | fuel + 1, bs =>
    match scanValue (bs.length + 1) 0 bs with
    | none => []
    | some r1 =>
      match skipSpace r1 with
      | 44 :: r2 => valueText bs r1 :: arrayElements fuel r2
      | _ => [valueText bs r1]

/-- The number a string of decimal digits stands for. -/
def parseDigits (s : Bytes) : Nat :=
  s.foldl (fun n c => 10 * n + (c - 48)) 0

/-- Decoding of the text of one value into a fresh `uint8`: `null` leaves the
zero, a number must be written with digits only and be at most 255, every other
value is an `UnmarshalTypeError`. -/
def decodeUint8 (text : Bytes) : Nat × Option GoError :=
  match text with
  | 110 :: _ => (0, none)
  | c :: rest =>
    if (c :: rest).all isDigit ∧ parseDigits (c :: rest) ≤ 255
    then (parseDigits (c :: rest), none)
    else (0, some GoError.jsonUnmarshalType)
  | [] => (0, some GoError.jsonUnmarshalType)

/-- Decoding of the text of one value into a `[]byte` that holds `init` (a nil
or empty slice): a string is decoded as base64, `null` gives the nil slice, an
array is decoded element by element, every other value is an
`UnmarshalTypeError` and leaves the slice as it is.  The result is the slice
and the first error met. -/
def decodeByteSlice (init : Option Bytes) (text : Bytes) : Option Bytes × Option GoError :=
  match text with
  | 34 :: r =>
    match base64Decode (unquoteLiteral r) with
    | some b => (some b, none)
    | none => (init, some GoError.base64Corrupt)
  | 110 :: _ => (none, none)
  | 91 :: r =>
    match skipSpace r with
    | 93 :: _ => (some [], none)
    | r1 =>
      let elems := (arrayElements (r1.length + 1) r1).map decodeUint8
      (some (elems.map Prod.fst), (elems.filterMap Prod.snd).head?)
  | _ => (init, some GoError.jsonUnmarshalType)

/-- Go `json.Unmarshal(data, &m)` for an empty `m` of type `map[string][]byte`:
the map, or the first error.  A member of a slice type that holds bytes is read
as base64 when it is a string. -/
def unmarshalByteMap (data : Bytes) : Except GoError (List (Bytes × Option Bytes)) :=
  if checkValid data then
    match skipSpace data with
    | 123 :: r =>
      let members := (objectMembers (r.length + 1) r).map
        (fun kv => (kv.1, decodeByteSlice none kv.2))
      match (members.filterMap (fun kv => kv.2.2)).head? with
      | some e => Except.error e
      | none => Except.ok (members.foldl (fun m kv => mapSet m kv.1 kv.2.1) [])
    | 110 :: _ => Except.ok []
    | _ => Except.error GoError.jsonUnmarshalType
  else Except.error GoError.jsonInvalid

/-- Go `json.Unmarshal(data, &value)` for an empty string `value`: the value
afterwards and the error. -/
def unmarshalString (data : Bytes) : Bytes × Option GoError :=
  if checkValid data then
    match skipSpace data with
    | 34 :: r => (unquoteLiteral r, none)
    | 110 :: _ => ([], none)
    | _ => ([], some GoError.jsonUnmarshalType)
  else ([], some GoError.jsonInvalid)

/-- Go `json.Unmarshal(data, &value)` for an empty non-nil `value` of type
`[]byte`: the value afterwards and the error. -/
def unmarshalBytes (data : Bytes) : Option Bytes × Option GoError :=
  if checkValid data then decodeByteSlice (some []) (skipSpace data)
  else (some [], some GoError.jsonInvalid)

/-! ## encoding/json: encoding -/

/-- The lower-case hexadecimal digit for a value below 16. -/
def hexDigit (n : Nat) : Nat :=
  if n < 10 then 48 + n else 87 + n

/-- The escape `\u00XX` of a byte. -/
def escapeByte (c : Nat) : Bytes :=
  [92, 117, 48, 48, hexDigit (c / 16), hexDigit (c % 16)]

/-- The inside of the JSON string for a Go string, with the escaping of HTML
characters that `json.Marshal` applies: quote and backslash are escaped, control
characters and `<`, `>`, `&` are written as `\u00XX` (backspace, form feed, line
feed, carriage return and tab by their letter), U+2028 and U+2029 are escaped,
and a byte that is not valid UTF-8 is written as `\ufffd`.  The first argument
bounds the number of steps. -/
def encodeString : Nat → Bytes → Bytes
  | 0, _ => []
  | _, [] => []
  | fuel + 1, c :: rest =>
    if c < 0x80 then
      (if c = 92 ∨ c = 34 then [92, c]
       else if c = 8 then [92, 98]
       else if c = 12 then [92, 102]
       else if c = 10 then [92, 110]
       else if c = 13 then [92, 114]
       else if c = 9 then [92, 116]
       else if c < 32 ∨ c = 60 ∨ c = 62 ∨ c = 38 then escapeByte c
       else [c]) ++ encodeString fuel rest
    else
      let rw := decodeRune (c :: rest)
      if rw.2 ≤ 1 then str "\\ufffd" ++ encodeString fuel rest
      else if rw.1 = 0x2028 ∨ rw.1 = 0x2029 then
        str "\\u202" ++ [hexDigit (rw.1 % 16)] ++ encodeString fuel ((c :: rest).drop rw.2)
      else (c :: rest).take rw.2 ++ encodeString fuel ((c :: rest).drop rw.2)

/-- The JSON string literal for a Go string. -/
def quote (s : Bytes) : Bytes :=
  [34] ++ encodeString s.length s ++ [34]

/-- Go `compact` with HTML escaping on a valid text: white space outside strings
is dropped; `<`, `>`, `&`, U+2028 and U+2029 are escaped.  The flags say whether
the scanner is inside a string and right after a backslash. -/
def compact : Bool → Bool → Bytes → Bytes
  | _, _, [] => []
  | inStr, _, 0xE2 :: 0x80 :: 0xA8 :: rest => str "\\u2028" ++ compact inStr false rest
  | inStr, _, 0xE2 :: 0x80 :: 0xA9 :: rest => str "\\u2029" ++ compact inStr false rest
  | inStr, esc, c :: rest =>
    if c = 60 ∨ c = 62 ∨ c = 38 then escapeByte c ++ compact inStr false rest
    else if inStr then
      if esc then c :: compact true false rest
      else if c = 92 then c :: compact true true rest
      else if c = 34 then c :: compact false false rest
      else c :: compact true false rest
    else if isSpace c then compact false false rest
    else c :: compact (c == 34) false rest

/-- A line feed followed by the indentation of the given depth, two spaces for
each level. -/
def newline (depth : Nat) : Bytes :=
  10 :: List.replicate (2 * depth) 32

/-- Go `Indent` with an empty prefix and an indentation of two spaces, on a
valid text.  The flags say whether the scanner is inside a string, right after
a backslash, and whether an object or array was just opened; the number is the
current depth. -/
def indent : Bool → Bool → Bool → Nat → Bytes → Bytes
  | _, _, _, _, [] => []
  | true, esc, _, depth, c :: rest =>
    if esc then c :: indent true false false depth rest
    else if c = 92 then c :: indent true true false depth rest
    else if c = 34 then c :: indent false false false depth rest
    else c :: indent true false false depth rest
  | false, _, needIndent, depth, c :: rest =>
    if isSpace c then indent false false needIndent depth rest
    else if c = 125 ∨ c = 93 then
      if needIndent then c :: indent false false false depth rest
      else newline (depth - 1) ++ c :: indent false false false (depth - 1) rest
    else
      let depth1 := if needIndent then depth + 1 else depth
      (if needIndent then newline depth1 else []) ++
        (if c = 123 ∨ c = 91 then c :: indent false false true depth1 rest
         else if c = 44 then c :: newline depth1 ++ indent false false false depth1 rest
         else if c = 58 then c :: 32 :: indent false false false depth1 rest
         else c :: indent (c == 34) false false depth1 rest)

/-- A value stored in the map that `Marshal` builds: a Go string, a
`json.RawMessage`, or a byte slice. -/
inductive JSONValue
  | string (s : Bytes)
  | rawMessage (m : Bytes)
  | byteSlice (b : Bytes)
  deriving DecidableEq, Repr

/-- The JSON text of a value: a string is quoted, a raw message is checked and
compacted (a `MarshalerError` when it is not valid JSON), a byte slice is
written as a base64 string. -/
def encodeValue : JSONValue → Except GoError Bytes
  | JSONValue.string s => Except.ok (quote s)
  | JSONValue.rawMessage m =>
    if checkValid m then Except.ok (compact false false m)
    else Except.error GoError.jsonMarshaler
  | JSONValue.byteSlice b => Except.ok ([34] ++ base64Encode b ++ [34])

/-- Byte-wise lexical order on strings, the order of Go `<`. -/
def bytesLt : Bytes → Bytes → Bool
  | _, [] => false
  | [], _ :: _ => true
  | a :: s, b :: t => a < b || (a == b && bytesLt s t)

/-- Inserts an entry into a list of entries sorted by key. -/
def insertSorted (kv : Bytes × JSONValue) : List (Bytes × JSONValue) → List (Bytes × JSONValue)
  | [] => [kv]
  | e :: rest => if bytesLt kv.1 e.1 then kv :: e :: rest else e :: insertSorted kv rest

/-- The entries of a map sorted by key. -/
def sortedEntries (m : List (Bytes × JSONValue)) : List (Bytes × JSONValue) :=
  m.foldr insertSorted []

/-- The members of an object, from the second on: a comma before each. -/
def encodeMembers : List (Bytes × JSONValue) → Except GoError Bytes
  | [] => Except.ok []
  | kv :: rest =>
    match encodeValue kv.2, encodeMembers rest with
    | Except.ok v, Except.ok out => Except.ok ([44] ++ quote kv.1 ++ [58] ++ v ++ out)
    | Except.error e, _ => Except.error e
    | _, Except.error e => Except.error e

/-- Go `json.Marshal` on a non-nil `map[string]interface{}`: an object with the
members in the order of their keys. -/
def jsonMarshal (m : List (Bytes × JSONValue)) : Except GoError Bytes :=
  match encodeMembers (sortedEntries m) with
  | Except.ok out => Except.ok ([123] ++ out.drop 1 ++ [125])
  | Except.error e => Except.error e

/-- Go `json.MarshalIndent(m, "", "  ")`: the text that `json.Marshal` returns is
run through the scanner again while it is indented, and the call fails with the
scanner's error when the text is rejected, as it is when it nests deeper than
`maxNestingDepth`. -/
def MarshalIndent (m : List (Bytes × JSONValue)) : Except GoError Bytes :=
  match jsonMarshal m with
  | Except.ok out =>
    if checkValid out then Except.ok (indent false false false 0 out)
    else Except.error GoError.jsonInvalid
  | Except.error e => Except.error e

/-! ## cloudevents.go

The calls of `Debug` write to standard error and have no effect on the results;
they are left out of the functions below.  `Debug` itself is embedded after
them. -/

/-- The body of the loop over `ceMap` in `FromHTTPRequest` (structured mode):
`kv.1` is the key `k`, `kv.2` the value `v` (`none` for a nil slice). -/
def structuredStep (event : Event) (kv : Bytes × Option Bytes) : Event :=
  let k := kv.1
  let v := kv.2
  let value := (unmarshalString (v.getD [])).1
  if k = str "specversion" then { event with SpecVersion := value }
  else if k = str "datacontenttype" then { event with DataContentType := value }
  else if k = str "type" then { event with Type_ := value }
  else if k = str "source" then { event with Source := value }
  else if k = str "subject" then { event with Subject := value }
  else if k = str "id" then { event with ID := value }
  else if k = str "time" then { event with Time := value }
  else if k = str "schemaurl" then { event with SchemaURL := value }
  else if k = str "data" then { event with Data := v }
  else { event with Extensions := mapSet event.Extensions k (v.getD []) }

/-- The switch in the loop over `r.Header` in `FromHTTPRequest` (binary mode),
for the key `k` without its prefix and the first value `v0`. -/
def binaryAssign (event : Event) (k : Bytes) (v0 : Bytes) : Event :=
  if k = str "datacontenttype" then { event with DataContentType := v0 }
  else if k = str "specversion" then { event with SpecVersion := v0 }
  else if k = str "type" then { event with Type_ := v0 }
  else if k = str "source" then { event with Source := v0 }
  else if k = str "subject" then { event with Subject := v0 }
  else if k = str "id" then { event with ID := v0 }
  else if k = str "time" then { event with Time := v0 }
  else if k = str "schemaurl" then { event with SchemaURL := v0 }
  else { event with Extensions := mapSet event.Extensions k v0 }

/-- The body of the loop over `r.Header` in `FromHTTPRequest` (binary mode).
Every branch of the switch reads `v[0]`; `none` is the run-time panic of an
index out of range. -/
def binaryStep (event : Event) (kv : Bytes × List Bytes) : Option Event :=
  let k := ToLower kv.1
  if HasPrefix k (str "ce-") then
    match kv.2 with
    | [] => none
    | v0 :: _ => some (binaryAssign event (k.drop 3) v0)
  else some event

/-- What `ioutil.ReadAll` gives for the body of a request; a nil body leaves the
empty slice. -/
def readBody (body : Option ReadCloser) : Except GoError Bytes :=
  match body with
  | none => Except.ok []
  | some (ReadCloser.reads data) => Except.ok data
  | some (ReadCloser.fails err) => Except.error err

/-- The function `FromHTTPRequest`; `none` is a run-time panic. -/
def FromHTTPRequest (r : Request) : Option Decoded :=
  match readBody r.Body with
  | Except.error err => some { event := none, isBinary := false, err := some err }
  | Except.ok body =>
    let ct := r.Header.Get (str "Content-Type")
    if HasPrefix ct (str "application/cloudevents+json") then
      match unmarshalByteMap body with
      | Except.error err => some { event := none, isBinary := false, err := some err }
      | Except.ok ceMap =>
        some { event := some (ceMap.foldl structuredStep {}), isBinary := false, err := none }
    else
      match r.Header.foldlM binaryStep {} with
      | none => none
      | some event =>
        some { event := some { event with Data := some body }, isBinary := true, err := none }

/-- The statement `if value != "" { resMap[key] = value }` of `Marshal`. -/
def setNonEmpty (resMap : List (Bytes × JSONValue)) (key : Bytes) (value : Bytes) :
    List (Bytes × JSONValue) :=
  if value ≠ [] then mapSet resMap key (JSONValue.string value) else resMap

/-- The map `resMap` that `Marshal` builds, or the error of serializing
`DataObject`. -/
def Event.resMap (event : Event) : Except GoError (List (Bytes × JSONValue)) :=
  let m : List (Bytes × JSONValue) := []
  let m := setNonEmpty m (str "specversion") event.SpecVersion
  let m := setNonEmpty m (str "type") event.Type_
  let m := setNonEmpty m (str "source") event.Source
  let m := setNonEmpty m (str "subject") event.Subject
  let m := setNonEmpty m (str "id") event.ID
  let m := setNonEmpty m (str "time") event.Time
  let m := setNonEmpty m (str "schemaurl") event.SchemaURL
  let m := setNonEmpty m (str "datacontenttype") event.DataContentType
  let withData : Except GoError (List (Bytes × JSONValue)) :=
    match event.Data, event.DataObject with
    | some data, _ => Except.ok (mapSet m (str "data") (JSONValue.rawMessage data))
    | none, some (DataValue.encodes dataStr) =>
      Except.ok (mapSet m (str "data") (JSONValue.byteSlice dataStr))
    | none, some (DataValue.unsupported err) => Except.error err
    | none, none => Except.ok m
  match withData with
  | Except.error err => Except.error err
  | Except.ok m1 =>
    Except.ok (event.Extensions.foldl
      (fun acc kv => mapSet acc (ToLower kv.1) (JSONValue.string kv.2)) m1)

/-- The method `Marshal`. -/
def Event.Marshal (event : Event) : Except GoError Bytes :=
  match event.resMap with
  | Except.error err => Except.error err
  | Except.ok resMap => MarshalIndent resMap

/-- The function `AddHeader`, on a header map that is not nil. -/
def AddHeader (header : Header) (key : Bytes) (value : Bytes) : Header :=
  let key1 := TrimSpace key
  let value1 := TrimSpace value
  if value1 = [] then header else header.Add key1 value1

/-- The method `ToHTTPHeaders`, on a header map that is not nil; the result is
the map after the call. -/
def Event.ToHTTPHeaders (event : Event) (header : Header) : Header :=
  let h := AddHeader header (str "ce-specversion") event.SpecVersion
  let h := AddHeader h (str "ce-type") event.Type_
  let h := AddHeader h (str "ce-source") event.Source
  let h := AddHeader h (str "ce-subject") event.Subject
  let h := AddHeader h (str "ce-id") event.ID
  let h := AddHeader h (str "ce-time") event.Time
  let h := AddHeader h (str "ce-datacontenttype") event.DataContentType
  let h := AddHeader h (str "ce-schemaurl") event.SchemaURL
  let h := event.Extensions.foldl
    (fun acc kv => AddHeader acc (str "ce-" ++ kv.1) ((unmarshalBytes kv.2).1.getD [])) h
  AddHeader h (str "Content-Type") event.DataContentType

/-- The variable `verbose`. -/
def verbose : Int := 2

/-- The function `Debug` for a given value of `verbose`, where `t` is the time
stamp that `time.Now().Format` returns: the format string handed to
`fmt.Fprintf`, or `none` when nothing is printed. -/
def Debug (verbose : Int) (t : Bytes) (level : Int) (format : Bytes) : Option Bytes :=
  if verbose ≥ level then
    some (if verbose > 0 then t ++ str ": " ++ format ++ str "\n" else format)
  else none

/-! ## Notions used to state the properties -/

/-- What an event holds under an attribute name: the field for the 8 named
attributes, the entry of `Extensions` for every other name. -/
def Event.attribute (event : Event) (k : Bytes) : Option Bytes :=
  if k = str "datacontenttype" then some event.DataContentType
  else if k = str "specversion" then some event.SpecVersion
  else if k = str "type" then some event.Type_
  else if k = str "source" then some event.Source
  else if k = str "subject" then some event.Subject
  else if k = str "id" then some event.ID
  else if k = str "time" then some event.Time
  else if k = str "schemaurl" then some event.SchemaURL
  else event.Extensions.lookup k

/-- The 8 named attributes of an event: each name with the value of its
field. -/
def Event.named (event : Event) : List (Bytes × Bytes) :=
  [(str "specversion", event.SpecVersion), (str "type", event.Type_),
   (str "source", event.Source), (str "subject", event.Subject),
   (str "id", event.ID), (str "time", event.Time),
   (str "schemaurl", event.SchemaURL), (str "datacontenttype", event.DataContentType)]

/-- The headers of binary mode: those whose lower-cased name starts with
`ce-`. -/
def isCeHeader (kv : Bytes × List Bytes) : Bool :=
  HasPrefix (ToLower kv.1) (str "ce-")

/-- The lower-cased names of the `ce-` headers, in the order of the map. -/
def ceNames (h : Header) : List Bytes :=
  (h.filter isCeHeader).map (fun kv => ToLower kv.1)

/-- The names of the 8 named attributes. -/
def attributeNames : List Bytes :=
  [str "specversion", str "type", str "source", str "subject", str "id", str "time",
   str "schemaurl", str "datacontenttype"]

/-- The header names that `ToHTTPHeaders` writes for the named attributes, and
`Content-Type`. -/
def writtenKeys : List Bytes :=
  [str "Ce-Specversion", str "Ce-Type", str "Ce-Source", str "Ce-Subject", str "Ce-Id",
   str "Ce-Time", str "Ce-Datacontenttype", str "Ce-Schemaurl", str "Content-Type"]

/-- Every raw message stored in the map is the `Data` of the event. -/
def rawFromData (event : Event) (m : List (Bytes × JSONValue)) : Prop :=
  ∀ kv ∈ m, ∀ d, kv.2 = JSONValue.rawMessage d → event.Data = some d

/-- What an event holds under a key of a structured-mode body: the field for the
8 named attributes, `Data` for `data`, the entry of `Extensions` for every other
key. -/
def Event.member (event : Event) (k : Bytes) : Option Bytes :=
  if k = str "specversion" then some event.SpecVersion
  else if k = str "datacontenttype" then some event.DataContentType
  else if k = str "type" then some event.Type_
  else if k = str "source" then some event.Source
  else if k = str "subject" then some event.Subject
  else if k = str "id" then some event.ID
  else if k = str "time" then some event.Time
  else if k = str "schemaurl" then some event.SchemaURL
  else if k = str "data" then event.Data
  else event.Extensions.lookup k

/-- What the loop of structured mode stores under the key `k` for the value
`v`. -/
def memberValue (k : Bytes) (v : Option Bytes) : Option Bytes :=
  if k = str "specversion" then some (unmarshalString (v.getD [])).1
  else if k = str "datacontenttype" then some (unmarshalString (v.getD [])).1
  else if k = str "type" then some (unmarshalString (v.getD [])).1
  else if k = str "source" then some (unmarshalString (v.getD [])).1
  else if k = str "subject" then some (unmarshalString (v.getD [])).1
  else if k = str "id" then some (unmarshalString (v.getD [])).1
  else if k = str "time" then some (unmarshalString (v.getD [])).1
  else if k = str "schemaurl" then some (unmarshalString (v.getD [])).1
  else if k = str "data" then v
  else some (v.getD [])

/-- Two events are the same Go value: the same fields, and `Extensions` maps
with the same entries (the order of an association list is not part of the
map). -/
def Event.same (a b : Event) : Prop :=
  a.named = b.named ∧ a.Data = b.Data ∧ a.DataObject = b.DataObject ∧
    ∀ k, a.Extensions.lookup k = b.Extensions.lookup k

/-- Two runs of `FromHTTPRequest` end the same way: both panic, or both return
the same flag, the same error and the same event. -/
def sameResult : Option Decoded → Option Decoded → Prop
  | none, none => True
  | some a, some b =>
    a.isBinary = b.isBinary ∧ a.err = b.err ∧
      (match a.event, b.event with
       | none, none => True
       | some x, some y => x.same y
       | _, _ => False)
  | _, _ => False

/-- No code point that the table maps to is itself mapped by the table or an
upper-case ASCII letter: checked entry by entry. -/
def lowerRangesClosed : Bool :=
  lowerRanges.all (fun e =>
    (decide (e.2.2.1 + (e.2.1 - e.1) < 65) || decide (90 < e.2.2.1)) &&
    lowerRanges.all (fun f =>
      decide (e.2.2.1 + (e.2.1 - e.1) < f.1) || decide (f.2.1 < e.2.2.1) ||
        (f.2.2.2 == 2 && (e.2.2.2 == 2 || e.1 == e.2.1) && (e.2.2.1 + f.1) % 2 == 1)))

/-- The code point that `utf8.EncodeRune` writes: U+FFFD for a surrogate and for
a value past U+10FFFF. -/
def validRune (q : Nat) : Nat :=
  if (0xD800 ≤ q ∧ q ≤ 0xDFFF) ∨ 0x10FFFF < q then 0xFFFD else q

/-- The text of the members of an object as `json.Marshal` writes them: a comma,
the quoted name, a colon and the text of the value, for each member in turn. -/
def membersText : List (Bytes × Bytes) → Bytes
  | [] => []
  | kv :: rest => [44] ++ quote kv.1 ++ [58] ++ kv.2 ++ membersText rest

/-- The text that `json.MarshalIndent` writes for the object with the given
members, each a name and the compact JSON text of its value, in this order. -/
def objectText (members : List (Bytes × Bytes)) : Bytes :=
  indent false false false 0 ([123] ++ (membersText members).drop 1 ++ [125])

/-! ## Requests and events of the examples -/

/-- The structured-mode request with the given body. -/
def structuredRequest (body : Bytes) : Request :=
  { Header := [(str "Content-Type", [str "application/cloudevents+json"])],
    Body := some (ReadCloser.reads body) }

/-- The structured-mode request with the truncated body. -/
def truncatedRequest : Request :=
  { Header := [(str "Content-Type", [str "application/cloudevents+json"])],
    Body := some (ReadCloser.reads (str "\x7b\"type\":")) }

/-- The binary-mode request of the specification's example. -/
def binaryExample : Request :=
  { Header := [(str "Content-Type", [str "application/json"]),
               (str "ce-specversion", [str "1.0"]),
               (str "ce-type", [str "com.example.test"]),
               (str "ce-source", [str "/test"])],
    Body := some (ReadCloser.reads (str "\x7b\"x\":1\x7d")) }

/-- An event with all 8 named attributes set, whose content type is the one of
structured mode. -/
def structuredTypedEvent : Event :=
  { SpecVersion := str "1.0", Type_ := str "t", Source := str "s", Subject := str "j",
    ID := str "i", Time := str "m", SchemaURL := str "u",
    DataContentType := str "application/cloudevents+json" }

/-- An event with all 8 named attributes set, whose content type is
`application/json`. -/
def jsonTypedEvent : Event :=
  { SpecVersion := str "1.0", Type_ := str "t", Source := str "s", Subject := str "j",
    ID := str "i", Time := str "m", SchemaURL := str "u",
    DataContentType := str "application/json" }

/-- The body of the specification's structured-mode example:
`{"specversion":"1.0","type":"com.example.test","source":"/test","data":{"x":1}}`. -/
def structuredExampleBody : Bytes :=
  str ("\x7b\"specversion\":\"1.0\",\"type\":\"com.example.test\"," ++
    "\"source\":\"/test\",\"data\":\x7b\"x\":1\x7d\x7d")

/-- The example with every value replaced by the base64 text of its JSON
fragment:
`{"specversion":"IjEuMCI=","type":"ImNvbS5leGFtcGxlLnRlc3Qi","source":"Ii90ZXN0Ig==","data":"eyJ4IjoxfQ=="}`. -/
def structuredExampleBase64 : Bytes :=
  str ("\x7b\"specversion\":\"IjEuMCI=\",\"type\":\"ImNvbS5leGFtcGxlLnRlc3Qi\"," ++
    "\"source\":\"Ii90ZXN0Ig==\",\"data\":\"eyJ4IjoxfQ==\"\x7d")

/-! ## Lemmas: maps and the loop of binary mode -/

theorem binaryFold_none (h : Header) :
    ∀ event : Event, h.foldlM binaryStep event = none →
      ∃ kv ∈ h, HasPrefix (ToLower kv.1) (str "ce-") = true ∧ kv.2 = [] := by
  induction h with
  | nil => intro event hn; simp at hn
  | cons kv rest ih =>
    intro event hn
    rw [List.foldlM_cons] at hn
    cases hstep : binaryStep event kv with
    | none =>
      refine ⟨kv, List.mem_cons_self _ _, ?_⟩
      unfold binaryStep at hstep
      by_cases hp : HasPrefix (ToLower kv.1) (str "ce-") = true
      · cases hv : kv.2 with
        | nil => exact ⟨hp, rfl⟩
        | cons v0 vs => simp [hp, hv] at hstep
      · simp [hp] at hstep
    | some ev1 =>
      rw [hstep] at hn
      obtain ⟨kv1, hmem, hce⟩ := ih ev1 hn
      exact ⟨kv1, List.mem_cons_of_mem _ hmem, hce⟩

theorem lookup_mapSet {β : Type} (m : List (Bytes × β)) (k n : Bytes) (v : β) :
    (mapSet m k v).lookup n = if n = k then some v else m.lookup n := by
  induction m with
  | nil =>
    by_cases h : n = k
    · simp [mapSet, List.lookup, h]
    · have : (n == k) = false := by simpa using h
      simp [mapSet, List.lookup, h, this]
  | cons e rest ih =>
    obtain ⟨k1, v1⟩ := e
    by_cases h1 : k1 = k
    · by_cases h : n = k
      · simp [mapSet, List.lookup, h1, h]
      · have : (n == k) = false := by simpa using h
        simp [mapSet, List.lookup, h1, h, this]
    · by_cases h : n = k
      · subst h
        have : (n == k1) = false := by simpa using fun e => h1 e.symm
        simp [mapSet, List.lookup, h1, this, ih]
      · by_cases h2 : n = k1
        · simp [mapSet, List.lookup, h1, h, h2]
        · have : (n == k1) = false := by simpa using h2
          simp [mapSet, List.lookup, h1, h, this, ih]

theorem mem_mapSet {β : Type} (m : List (Bytes × β)) (k : Bytes) (v : β) (e : Bytes × β)
    (he : e ∈ mapSet m k v) : e ∈ m ∨ e = (k, v) := by
  induction m with
  | nil => simpa [mapSet] using he
  | cons e1 rest ih =>
    obtain ⟨k1, v1⟩ := e1
    by_cases h1 : k1 = k
    · simp [mapSet, h1] at he
      rcases he with he | he
      · exact Or.inr he
      · exact Or.inl (List.mem_cons_of_mem _ he)
    · simp [mapSet, h1] at he
      rcases he with he | he
      · exact Or.inl (by simp [he])
      · rcases ih he with h | h
        · exact Or.inl (List.mem_cons_of_mem _ h)
        · exact Or.inr h

theorem attribute_setDataContentType_ne (event : Event) (n v : Bytes) (h : n ≠ str "datacontenttype") :
    ({ event with DataContentType := v } : Event).attribute n = event.attribute n := by
  unfold Event.attribute
  rw [if_neg h, if_neg h]

theorem attribute_setSpecVersion_ne (event : Event) (n v : Bytes) (h : n ≠ str "specversion") :
    ({ event with SpecVersion := v } : Event).attribute n = event.attribute n := by
  unfold Event.attribute
  rw [if_neg h, if_neg h]

theorem attribute_setType_ne (event : Event) (n v : Bytes) (h : n ≠ str "type") :
    ({ event with Type_ := v } : Event).attribute n = event.attribute n := by
  unfold Event.attribute
  rw [if_neg h, if_neg h]

theorem attribute_setSource_ne (event : Event) (n v : Bytes) (h : n ≠ str "source") :
    ({ event with Source := v } : Event).attribute n = event.attribute n := by
  unfold Event.attribute
  rw [if_neg h, if_neg h]

theorem attribute_setSubject_ne (event : Event) (n v : Bytes) (h : n ≠ str "subject") :
    ({ event with Subject := v } : Event).attribute n = event.attribute n := by
  unfold Event.attribute
  rw [if_neg h, if_neg h]

theorem attribute_setID_ne (event : Event) (n v : Bytes) (h : n ≠ str "id") :
    ({ event with ID := v } : Event).attribute n = event.attribute n := by
  unfold Event.attribute
  rw [if_neg h, if_neg h]

theorem attribute_setTime_ne (event : Event) (n v : Bytes) (h : n ≠ str "time") :
    ({ event with Time := v } : Event).attribute n = event.attribute n := by
  unfold Event.attribute
  rw [if_neg h, if_neg h]

theorem attribute_setSchemaURL_ne (event : Event) (n v : Bytes) (h : n ≠ str "schemaurl") :
    ({ event with SchemaURL := v } : Event).attribute n = event.attribute n := by
  unfold Event.attribute
  rw [if_neg h, if_neg h]

theorem attribute_setExtensions_ne (event : Event) (k n v : Bytes) (h : n ≠ k) :
    ({ event with Extensions := mapSet event.Extensions k v } : Event).attribute n =
      event.attribute n := by
  unfold Event.attribute
  have e : (mapSet event.Extensions k v).lookup n = event.Extensions.lookup n := by
    rw [lookup_mapSet, if_neg h]
  show (if n = str "datacontenttype" then some event.DataContentType
    else if n = str "specversion" then some event.SpecVersion
    else if n = str "type" then some event.Type_
    else if n = str "source" then some event.Source
    else if n = str "subject" then some event.Subject
    else if n = str "id" then some event.ID
    else if n = str "time" then some event.Time
    else if n = str "schemaurl" then some event.SchemaURL
    else (mapSet event.Extensions k v).lookup n) = _
  rw [e]

theorem attribute_binaryAssign_ne (event : Event) (k n v : Bytes) (h : n ≠ k) :
    (binaryAssign event k v).attribute n = event.attribute n := by
  unfold binaryAssign
  by_cases k1 : k = str "datacontenttype"
  · rw [if_pos k1]
    exact attribute_setDataContentType_ne event n v (fun e => h (e.trans k1.symm))
  rw [if_neg k1]
  by_cases k2 : k = str "specversion"
  · rw [if_pos k2]
    exact attribute_setSpecVersion_ne event n v (fun e => h (e.trans k2.symm))
  rw [if_neg k2]
  by_cases k3 : k = str "type"
  · rw [if_pos k3]
    exact attribute_setType_ne event n v (fun e => h (e.trans k3.symm))
  rw [if_neg k3]
  by_cases k4 : k = str "source"
  · rw [if_pos k4]
    exact attribute_setSource_ne event n v (fun e => h (e.trans k4.symm))
  rw [if_neg k4]
  by_cases k5 : k = str "subject"
  · rw [if_pos k5]
    exact attribute_setSubject_ne event n v (fun e => h (e.trans k5.symm))
  rw [if_neg k5]
  by_cases k6 : k = str "id"
  · rw [if_pos k6]
    exact attribute_setID_ne event n v (fun e => h (e.trans k6.symm))
  rw [if_neg k6]
  by_cases k7 : k = str "time"
  · rw [if_pos k7]
    exact attribute_setTime_ne event n v (fun e => h (e.trans k7.symm))
  rw [if_neg k7]
  by_cases k8 : k = str "schemaurl"
  · rw [if_pos k8]
    exact attribute_setSchemaURL_ne event n v (fun e => h (e.trans k8.symm))
  rw [if_neg k8]
  exact attribute_setExtensions_ne event k n v h

theorem attribute_binaryAssign_self (event : Event) (k v : Bytes) :
    (binaryAssign event k v).attribute k = some v := by
  unfold binaryAssign
  by_cases k1 : k = str "datacontenttype"
  · rw [if_pos k1]
    unfold Event.attribute
    rw [if_pos k1]
  rw [if_neg k1]
  by_cases k2 : k = str "specversion"
  · rw [if_pos k2]
    unfold Event.attribute
    rw [if_neg k1, if_pos k2]
  rw [if_neg k2]
  by_cases k3 : k = str "type"
  · rw [if_pos k3]
    unfold Event.attribute
    rw [if_neg k1, if_neg k2, if_pos k3]
  rw [if_neg k3]
  by_cases k4 : k = str "source"
  · rw [if_pos k4]
    unfold Event.attribute
    rw [if_neg k1, if_neg k2, if_neg k3, if_pos k4]
  rw [if_neg k4]
  by_cases k5 : k = str "subject"
  · rw [if_pos k5]
    unfold Event.attribute
    rw [if_neg k1, if_neg k2, if_neg k3, if_neg k4, if_pos k5]
  rw [if_neg k5]
  by_cases k6 : k = str "id"
  · rw [if_pos k6]
    unfold Event.attribute
    rw [if_neg k1, if_neg k2, if_neg k3, if_neg k4, if_neg k5, if_pos k6]
  rw [if_neg k6]
  by_cases k7 : k = str "time"
  · rw [if_pos k7]
    unfold Event.attribute
    rw [if_neg k1, if_neg k2, if_neg k3, if_neg k4, if_neg k5, if_neg k6, if_pos k7]
  rw [if_neg k7]
  by_cases k8 : k = str "schemaurl"
  · rw [if_pos k8]
    unfold Event.attribute
    rw [if_neg k1, if_neg k2, if_neg k3, if_neg k4, if_neg k5, if_neg k6, if_neg k7, if_pos k8]
  rw [if_neg k8]
  unfold Event.attribute
  rw [if_neg k1, if_neg k2, if_neg k3, if_neg k4, if_neg k5, if_neg k6, if_neg k7, if_neg k8]
  show (mapSet event.Extensions k v).lookup k = some v
  rw [lookup_mapSet, if_pos rfl]

theorem HasPrefix_eq_append (s p : Bytes) (h : HasPrefix s p = true) :
    s = p ++ s.drop p.length := by
  induction p generalizing s with
  | nil => simp
  | cons b p ih =>
    cases s with
    | nil => simp [HasPrefix] at h
    | cons a s =>
      simp [HasPrefix] at h
      obtain ⟨h1, h2⟩ := h
      subst h1
      simpa using ih s h2

theorem binaryAssign_Data (event : Event) (k v : Bytes) :
    (binaryAssign event k v).Data = event.Data ∧
      (binaryAssign event k v).DataObject = event.DataObject := by
  unfold binaryAssign
  split_ifs <;> exact ⟨rfl, rfl⟩

theorem drop_ce_injective (s t : Bytes) (hs : HasPrefix s (str "ce-") = true)
    (ht : HasPrefix t (str "ce-") = true) (h : s.drop 3 = t.drop 3) : s = t := by
  have e1 := HasPrefix_eq_append s _ hs
  have e2 := HasPrefix_eq_append t _ ht
  have hl : (str "ce-").length = 3 := by decide
  rw [hl] at e1 e2
  rw [e1, e2, h]

theorem binaryFold_attribute (h : Header)
    (hne : ∀ kv ∈ h, isCeHeader kv = true → kv.2 ≠ [])
    (hnd : (ceNames h).Nodup) :
    ∀ event : Event, ∃ ev1 : Event, h.foldlM binaryStep event = some ev1 ∧
      (∀ k v vs, (k, v :: vs) ∈ h → isCeHeader (k, v :: vs) = true →
        ev1.attribute ((ToLower k).drop 3) = some v) ∧
      (∀ n, (∀ kv ∈ h, isCeHeader kv = true → (ToLower kv.1).drop 3 ≠ n) →
        ev1.attribute n = event.attribute n) ∧
      ev1.Data = event.Data ∧ ev1.DataObject = event.DataObject := by
  induction h with
  | nil =>
    intro event
    exact ⟨event, rfl, by simp, fun _ _ => rfl, rfl, rfl⟩
  | cons kv rest ih =>
    intro event
    have hne1 : ∀ kv1 ∈ rest, isCeHeader kv1 = true → kv1.2 ≠ [] :=
      fun kv1 hm => hne kv1 (List.mem_cons_of_mem _ hm)
    by_cases hce : isCeHeader kv = true
    · have hnd1 : (ceNames rest).Nodup := by
        unfold ceNames at hnd ⊢
        rw [List.filter_cons_of_pos hce, List.map_cons, List.nodup_cons] at hnd
        exact hnd.2
      have hfresh : ∀ kv1 ∈ rest, isCeHeader kv1 = true →
          (ToLower kv1.1).drop 3 ≠ (ToLower kv.1).drop 3 := by
        intro kv1 hm hce1 heq
        unfold ceNames at hnd
        rw [List.filter_cons_of_pos hce, List.map_cons, List.nodup_cons] at hnd
        apply hnd.1
        have : ToLower kv1.1 = ToLower kv.1 := drop_ce_injective _ _ hce1 hce heq
        rw [← this]
        exact List.mem_map.mpr ⟨kv1, List.mem_filter.mpr ⟨hm, hce1⟩, rfl⟩
      obtain ⟨k0, vs0⟩ := kv
      cases vs0 with
      | nil => exact absurd rfl (hne (k0, []) (List.mem_cons_self _ _) hce)
      | cons v0 vs =>
        have hstep : binaryStep event (k0, v0 :: vs) =
            some (binaryAssign event ((ToLower k0).drop 3) v0) := by
          unfold binaryStep
          unfold isCeHeader at hce
          simp only [hce, if_true]
        obtain ⟨ev1, hf, hset, hframe, hd, hdo⟩ :=
          ih hne1 hnd1 (binaryAssign event ((ToLower k0).drop 3) v0)
        refine ⟨ev1, ?_, ?_, ?_, ?_, ?_⟩
        · rw [List.foldlM_cons, hstep]; exact hf
        · intro k v vs1 hm hce1
          rcases List.mem_cons.mp hm with heq | hm1
          · injection heq with e1 e2
            injection e2 with e3 e4
            subst e1; subst e3
            rw [hframe _ hfresh]
            exact attribute_binaryAssign_self _ _ _
          · exact hset k v vs1 hm1 hce1
        · intro n hn
          rw [hframe n (fun kv1 hm hc => hn kv1 (List.mem_cons_of_mem _ hm) hc)]
          exact attribute_binaryAssign_ne _ _ _ _
            (fun e => hn (k0, v0 :: vs) (List.mem_cons_self _ _) hce e.symm)
        · rw [hd]; exact (binaryAssign_Data _ _ _).1
        · rw [hdo]; exact (binaryAssign_Data _ _ _).2
    · have hnd1 : (ceNames rest).Nodup := by
        unfold ceNames at hnd ⊢
        rw [List.filter_cons_of_neg hce] at hnd
        exact hnd
      have hstep : binaryStep event kv = some event := by
        unfold binaryStep
        unfold isCeHeader at hce
        simp only [hce]
        rfl
      obtain ⟨ev1, hf, hset, hframe, hd, hdo⟩ := ih hne1 hnd1 event
      refine ⟨ev1, ?_, ?_, ?_, hd, hdo⟩
      · rw [List.foldlM_cons, hstep]; exact hf
      · intro k v vs1 hm hce1
        rcases List.mem_cons.mp hm with heq | hm1
        · rw [← heq] at hce; exact absurd hce1 hce
        · exact hset k v vs1 hm1 hce1
      · intro n hn
        exact hframe n (fun kv1 hm hc => hn kv1 (List.mem_cons_of_mem _ hm) hc)

theorem attribute_named (event : Event) :
    event.attribute (str "datacontenttype") = some event.DataContentType ∧
    event.attribute (str "specversion") = some event.SpecVersion ∧
    event.attribute (str "type") = some event.Type_ ∧
    event.attribute (str "source") = some event.Source ∧
    event.attribute (str "subject") = some event.Subject ∧
    event.attribute (str "id") = some event.ID ∧
    event.attribute (str "time") = some event.Time ∧
    event.attribute (str "schemaurl") = some event.SchemaURL := by
  refine ⟨?_, ?_, ?_, ?_, ?_, ?_, ?_, ?_⟩ <;> unfold Event.attribute
  · rw [if_pos rfl]
  · rw [if_neg (by decide), if_pos rfl]
  · rw [if_neg (by decide), if_neg (by decide), if_pos rfl]
  · rw [if_neg (by decide), if_neg (by decide), if_neg (by decide), if_pos rfl]
  · rw [if_neg (by decide), if_neg (by decide), if_neg (by decide), if_neg (by decide),
      if_pos rfl]
  · rw [if_neg (by decide), if_neg (by decide), if_neg (by decide), if_neg (by decide),
      if_neg (by decide), if_pos rfl]
  · rw [if_neg (by decide), if_neg (by decide), if_neg (by decide), if_neg (by decide),
      if_neg (by decide), if_neg (by decide), if_pos rfl]
  · rw [if_neg (by decide), if_neg (by decide), if_neg (by decide), if_neg (by decide),
      if_neg (by decide), if_neg (by decide), if_neg (by decide), if_pos rfl]

theorem attribute_extension (event : Event) (n : Bytes) (h : n ∉ attributeNames) :
    event.attribute n = event.Extensions.lookup n := by
  unfold attributeNames at h
  simp only [List.mem_cons, List.mem_singleton, List.not_mem_nil, not_or, or_false] at h
  obtain ⟨h1, h2, h3, h4, h5, h6, h7, h8⟩ := h
  unfold Event.attribute
  rw [if_neg h8, if_neg h1, if_neg h2, if_neg h3, if_neg h4, if_neg h5, if_neg h6, if_neg h7]

/-! ## Lemmas: the headers written by `ToHTTPHeaders` -/

theorem binaryDecode_attribute (h : Header) (body : Option Bytes)
    (hct : HasPrefix (h.Get (str "Content-Type")) (str "application/cloudevents+json") = false)
    (hne : ∀ kv ∈ h, isCeHeader kv = true → kv.2 ≠ [])
    (hnd : (ceNames h).Nodup) :
    ∃ event : Event,
      FromHTTPRequest { Header := h, Body := body.map ReadCloser.reads } =
        some { event := some event, isBinary := true, err := none } ∧
      event.Data = some (body.getD []) ∧
      ∀ k v vs, (k, v :: vs) ∈ h → isCeHeader (k, v :: vs) = true →
        event.attribute ((ToLower k).drop 3) = some v := by
  obtain ⟨ev1, hf, hset, -, -, -⟩ := binaryFold_attribute h hne hnd {}
  refine ⟨{ ev1 with Data := some (body.getD []) }, ?_, rfl, ?_⟩
  · have hb : readBody (body.map ReadCloser.reads) = Except.ok (body.getD []) := by
      cases body <;> rfl
    unfold FromHTTPRequest
    simp only [hb, hct, hf]
    rfl
  · intro k v vs hm hce
    exact hset k v vs hm hce

theorem append_of_not_mem (h : Header) (k v : Bytes) (hk : k ∉ h.map Prod.fst) :
    Header.append h k v = h ++ [(k, [v])] := by
  induction h with
  | nil => rfl
  | cons e rest ih =>
    obtain ⟨k1, vs⟩ := e
    simp only [List.map_cons, List.mem_cons, not_or] at hk
    unfold Header.append
    rw [if_neg (fun e => hk.1 e.symm), ih hk.2]
    rfl

theorem lookup_of_mem_nodup {β : Type} (l : List (Bytes × β)) (k : Bytes) (v : β)
    (hnd : (l.map Prod.fst).Nodup) (hm : (k, v) ∈ l) : l.lookup k = some v := by
  induction l with
  | nil => cases hm
  | cons e rest ih =>
    obtain ⟨k1, v1⟩ := e
    rw [List.map_cons, List.nodup_cons] at hnd
    rcases List.mem_cons.mp hm with heq | hm1
    · injection heq with e1 e2
      subst e1; subst e2
      simp [List.lookup]
    · have hne : k ≠ k1 := by
        intro e
        apply hnd.1
        rw [← e]
        exact List.mem_map.mpr ⟨(k, v), hm1, rfl⟩
      have hb : (k == k1) = false := by simpa using hne
      simp only [List.lookup, hb]
      exact ih hnd.2 hm1

theorem AddHeader_trimmed (h : Header) (key v : Bytes) (hv : v ≠ []) (ht : TrimSpace v = v) :
    AddHeader h key v = Header.append h (CanonicalMIMEHeaderKey (TrimSpace key)) v := by
  unfold AddHeader Header.Add
  simp only [ht, hv, if_false]

theorem ceNames_eq (h : Header) :
    ceNames h = ((h.map Prod.fst).filter (fun k => HasPrefix (ToLower k) (str "ce-"))).map
      ToLower := by
  unfold ceNames
  rw [List.filter_map, List.map_map]
  rfl

theorem ToHTTPHeaders_trimmed (event : Event) (hext : event.Extensions = [])
    (hnamed : ∀ nv ∈ event.named, nv.2 ≠ [] ∧ TrimSpace nv.2 = nv.2) :
    event.ToHTTPHeaders [] =
      [(str "Ce-Specversion", [event.SpecVersion]), (str "Ce-Type", [event.Type_]),
       (str "Ce-Source", [event.Source]), (str "Ce-Subject", [event.Subject]),
       (str "Ce-Id", [event.ID]), (str "Ce-Time", [event.Time]),
       (str "Ce-Datacontenttype", [event.DataContentType]),
       (str "Ce-Schemaurl", [event.SchemaURL]),
       (str "Content-Type", [event.DataContentType])] := by
  have h1 := hnamed (str "specversion", event.SpecVersion) (by simp [Event.named])
  have h2 := hnamed (str "type", event.Type_) (by simp [Event.named])
  have h3 := hnamed (str "source", event.Source) (by simp [Event.named])
  have h4 := hnamed (str "subject", event.Subject) (by simp [Event.named])
  have h5 := hnamed (str "id", event.ID) (by simp [Event.named])
  have h6 := hnamed (str "time", event.Time) (by simp [Event.named])
  have h7 := hnamed (str "schemaurl", event.SchemaURL) (by simp [Event.named])
  have h8 := hnamed (str "datacontenttype", event.DataContentType) (by simp [Event.named])
  unfold Event.ToHTTPHeaders
  rw [hext]
  simp only [List.foldl_nil]
  rw [AddHeader_trimmed _ _ _ h1.1 h1.2, AddHeader_trimmed _ _ _ h2.1 h2.2,
    AddHeader_trimmed _ _ _ h3.1 h3.2, AddHeader_trimmed _ _ _ h4.1 h4.2,
    AddHeader_trimmed _ _ _ h5.1 h5.2, AddHeader_trimmed _ _ _ h6.1 h6.2,
    AddHeader_trimmed _ _ _ h8.1 h8.2, AddHeader_trimmed _ _ _ h7.1 h7.2,
    AddHeader_trimmed _ _ _ h8.1 h8.2]
  have k1 : CanonicalMIMEHeaderKey (TrimSpace (str "ce-specversion")) = str "Ce-Specversion" := by
    decide
  have k2 : CanonicalMIMEHeaderKey (TrimSpace (str "ce-type")) = str "Ce-Type" := by decide
  have k3 : CanonicalMIMEHeaderKey (TrimSpace (str "ce-source")) = str "Ce-Source" := by decide
  have k4 : CanonicalMIMEHeaderKey (TrimSpace (str "ce-subject")) = str "Ce-Subject" := by decide
  have k5 : CanonicalMIMEHeaderKey (TrimSpace (str "ce-id")) = str "Ce-Id" := by decide
  have k6 : CanonicalMIMEHeaderKey (TrimSpace (str "ce-time")) = str "Ce-Time" := by decide
  have k7 : CanonicalMIMEHeaderKey (TrimSpace (str "ce-datacontenttype")) =
      str "Ce-Datacontenttype" := by decide
  have k8 : CanonicalMIMEHeaderKey (TrimSpace (str "ce-schemaurl")) = str "Ce-Schemaurl" := by
    decide
  have k9 : CanonicalMIMEHeaderKey (TrimSpace (str "Content-Type")) = str "Content-Type" := by
    decide
  rw [k1, k2, k3, k4, k5, k6, k7, k8, k9]
  have e1 : Header.append [] (str "Ce-Specversion") event.SpecVersion =
      [(str "Ce-Specversion", [event.SpecVersion])] := by
    rw [append_of_not_mem _ _ _ (by simp only [List.map_cons, List.map_nil]; decide)]
    rfl
  have e2 : Header.append [(str "Ce-Specversion", [event.SpecVersion])] (str "Ce-Type") event.Type_ =
      [(str "Ce-Specversion", [event.SpecVersion]), (str "Ce-Type", [event.Type_])] := by
    rw [append_of_not_mem _ _ _ (by simp only [List.map_cons, List.map_nil]; decide)]
    rfl
  have e3 : Header.append [(str "Ce-Specversion", [event.SpecVersion]), (str "Ce-Type", [event.Type_])] (str "Ce-Source") event.Source =
      [(str "Ce-Specversion", [event.SpecVersion]), (str "Ce-Type", [event.Type_]), (str "Ce-Source", [event.Source])] := by
    rw [append_of_not_mem _ _ _ (by simp only [List.map_cons, List.map_nil]; decide)]
    rfl
  have e4 : Header.append [(str "Ce-Specversion", [event.SpecVersion]), (str "Ce-Type", [event.Type_]), (str "Ce-Source", [event.Source])] (str "Ce-Subject") event.Subject =
      [(str "Ce-Specversion", [event.SpecVersion]), (str "Ce-Type", [event.Type_]), (str "Ce-Source", [event.Source]), (str "Ce-Subject", [event.Subject])] := by
    rw [append_of_not_mem _ _ _ (by simp only [List.map_cons, List.map_nil]; decide)]
    rfl
  have e5 : Header.append [(str "Ce-Specversion", [event.SpecVersion]), (str "Ce-Type", [event.Type_]), (str "Ce-Source", [event.Source]), (str "Ce-Subject", [event.Subject])] (str "Ce-Id") event.ID =
      [(str "Ce-Specversion", [event.SpecVersion]), (str "Ce-Type", [event.Type_]), (str "Ce-Source", [event.Source]), (str "Ce-Subject", [event.Subject]), (str "Ce-Id", [event.ID])] := by
    rw [append_of_not_mem _ _ _ (by simp only [List.map_cons, List.map_nil]; decide)]
    rfl
  have e6 : Header.append [(str "Ce-Specversion", [event.SpecVersion]), (str "Ce-Type", [event.Type_]), (str "Ce-Source", [event.Source]), (str "Ce-Subject", [event.Subject]), (str "Ce-Id", [event.ID])] (str "Ce-Time") event.Time =
      [(str "Ce-Specversion", [event.SpecVersion]), (str "Ce-Type", [event.Type_]), (str "Ce-Source", [event.Source]), (str "Ce-Subject", [event.Subject]), (str "Ce-Id", [event.ID]), (str "Ce-Time", [event.Time])] := by
    rw [append_of_not_mem _ _ _ (by simp only [List.map_cons, List.map_nil]; decide)]
    rfl
  have e7 : Header.append [(str "Ce-Specversion", [event.SpecVersion]), (str "Ce-Type", [event.Type_]), (str "Ce-Source", [event.Source]), (str "Ce-Subject", [event.Subject]), (str "Ce-Id", [event.ID]), (str "Ce-Time", [event.Time])] (str "Ce-Datacontenttype") event.DataContentType =
      [(str "Ce-Specversion", [event.SpecVersion]), (str "Ce-Type", [event.Type_]), (str "Ce-Source", [event.Source]), (str "Ce-Subject", [event.Subject]), (str "Ce-Id", [event.ID]), (str "Ce-Time", [event.Time]), (str "Ce-Datacontenttype", [event.DataContentType])] := by
    rw [append_of_not_mem _ _ _ (by simp only [List.map_cons, List.map_nil]; decide)]
    rfl
  have e8 : Header.append [(str "Ce-Specversion", [event.SpecVersion]), (str "Ce-Type", [event.Type_]), (str "Ce-Source", [event.Source]), (str "Ce-Subject", [event.Subject]), (str "Ce-Id", [event.ID]), (str "Ce-Time", [event.Time]), (str "Ce-Datacontenttype", [event.DataContentType])] (str "Ce-Schemaurl") event.SchemaURL =
      [(str "Ce-Specversion", [event.SpecVersion]), (str "Ce-Type", [event.Type_]), (str "Ce-Source", [event.Source]), (str "Ce-Subject", [event.Subject]), (str "Ce-Id", [event.ID]), (str "Ce-Time", [event.Time]), (str "Ce-Datacontenttype", [event.DataContentType]), (str "Ce-Schemaurl", [event.SchemaURL])] := by
    rw [append_of_not_mem _ _ _ (by simp only [List.map_cons, List.map_nil]; decide)]
    rfl
  have e9 : Header.append [(str "Ce-Specversion", [event.SpecVersion]), (str "Ce-Type", [event.Type_]), (str "Ce-Source", [event.Source]), (str "Ce-Subject", [event.Subject]), (str "Ce-Id", [event.ID]), (str "Ce-Time", [event.Time]), (str "Ce-Datacontenttype", [event.DataContentType]), (str "Ce-Schemaurl", [event.SchemaURL])] (str "Content-Type") event.DataContentType =
      [(str "Ce-Specversion", [event.SpecVersion]), (str "Ce-Type", [event.Type_]), (str "Ce-Source", [event.Source]), (str "Ce-Subject", [event.Subject]), (str "Ce-Id", [event.ID]), (str "Ce-Time", [event.Time]), (str "Ce-Datacontenttype", [event.DataContentType]), (str "Ce-Schemaurl", [event.SchemaURL]), (str "Content-Type", [event.DataContentType])] := by
    rw [append_of_not_mem _ _ _ (by simp only [List.map_cons, List.map_nil]; decide)]
    rfl
  rw [e1, e2, e3, e4, e5, e6, e7, e8, e9]

/-! ## Lemmas: lower-case keys -/

theorem lowerRangesClosed_true : lowerRangesClosed = true := by
  decide!

theorem unicodeToLower_idem (r : Nat) : unicodeToLower (unicodeToLower r) = unicodeToLower r := by
  by_cases h : r < 0x80
  · have e : unicodeToLower r = lowerByte r := by unfold unicodeToLower; rw [if_pos h]
    rw [e]
    unfold lowerByte
    by_cases h1 : 65 ≤ r ∧ r ≤ 90
    · rw [if_pos h1]
      unfold unicodeToLower lowerByte
      rw [if_pos (by omega), if_neg (by omega)]
    · rw [if_neg h1, e]
      unfold lowerByte
      rw [if_neg h1]
  · cases hf : lowerRanges.find? (inLowerRange r) with
    | none =>
      have e : unicodeToLower r = r := by unfold unicodeToLower; rw [if_neg h, hf]
      rw [e, e]
    | some e =>
      have e1 : unicodeToLower r = e.2.2.1 + (r - e.1) := by
        unfold unicodeToLower; rw [if_neg h, hf]
      have hin := List.find?_some hf
      have hmem := List.mem_of_find?_eq_some hf
      have hc := lowerRangesClosed_true
      unfold lowerRangesClosed at hc
      rw [List.all_eq_true] at hc
      have hc1 := hc e hmem
      rw [Bool.and_eq_true, List.all_eq_true] at hc1
      obtain ⟨ha, hc1⟩ := hc1
      unfold inLowerRange at hin
      simp only [Bool.and_eq_true, Bool.or_eq_true, decide_eq_true_eq, beq_iff_eq] at hin ha
      rw [e1]
      by_cases h2 : e.2.2.1 + (r - e.1) < 0x80
      · unfold unicodeToLower lowerByte
        rw [if_pos h2, if_neg (by omega)]
      · cases hg : lowerRanges.find? (inLowerRange (e.2.2.1 + (r - e.1))) with
        | none => unfold unicodeToLower; rw [if_neg h2, hg]
        | some f =>
          exfalso
          have hin2 := List.find?_some hg
          have hmem2 := List.mem_of_find?_eq_some hg
          have hc2 := hc1 f hmem2
          unfold inLowerRange at hin2
          simp only [Bool.and_eq_true, Bool.or_eq_true, decide_eq_true_eq, beq_iff_eq] at hin2 hc2
          rcases hc2 with (hc2 | hc2) | ⟨⟨hs2, hs1⟩, hpar⟩
          · omega
          · omega
          · rw [hs2] at hin2
            rcases hs1 with hs1 | hs1
            · rw [hs1] at hin
              omega
            · omega

theorem decodeRune_encodeRune (q : Nat) (rest : Bytes) :
    decodeRune (encodeRune q ++ rest) = (validRune q, (encodeRune q).length) := by
  unfold encodeRune validRune
  by_cases h1 : q < 0x80
  · rw [if_pos h1, if_neg (by omega)]
    cases rest with
    | nil => simp only [List.append_nil, decodeRune, if_pos h1, List.length_singleton]
    | cons b rest => simp only [List.singleton_append, decodeRune, if_pos h1, List.length_singleton]
  · rw [if_neg h1]
    by_cases h2 : q < 0x800
    · rw [if_pos h2, if_neg (by omega)]
      have hb : isCont (0x80 + q % 64) = true := by
        unfold isCont
        simp only [Bool.and_eq_true, decide_eq_true_eq]
        omega
      simp only [List.cons_append, List.nil_append, decodeRune, hb, if_true]
      rw [if_neg (by omega), if_pos (by omega)]
      simp only [List.length_cons, List.length_nil, Prod.mk.injEq, and_true]
      omega
    · rw [if_neg h2]
      by_cases h3 : (0xD800 ≤ q ∧ q ≤ 0xDFFF) ∨ 0x10FFFF < q
      · rw [if_pos h3, if_pos h3]
        rfl
      · rw [if_neg h3, if_neg h3]
        by_cases h4 : q < 0x10000
        · rw [if_pos h4]
          have hc : isCont (0x80 + q % 64) = true := by
            unfold isCont
            simp only [Bool.and_eq_true, decide_eq_true_eq]
            omega
          simp only [List.cons_append, List.nil_append, decodeRune, hc]
          rw [if_neg (by omega), if_neg (by omega), if_pos (by omega)]
          have hcond : (if 0xE0 + q / 4096 = 0xE0 then
                0xA0 ≤ 0x80 + q / 64 % 64 ∧ 0x80 + q / 64 % 64 ≤ 0xBF
              else if 0xE0 + q / 4096 = 0xED then
                0x80 ≤ 0x80 + q / 64 % 64 ∧ 0x80 + q / 64 % 64 ≤ 0x9F
              else isCont (0x80 + q / 64 % 64) = true) ∧ True := by
            refine ⟨?_, trivial⟩
            by_cases c1 : 0xE0 + q / 4096 = 0xE0
            · rw [if_pos c1]; omega
            · rw [if_neg c1]
              by_cases c2 : 0xE0 + q / 4096 = 0xED
              · rw [if_pos c2]; omega
              · rw [if_neg c2]
                unfold isCont
                simp only [Bool.and_eq_true, decide_eq_true_eq]
                omega
          rw [if_pos hcond]
          simp only [List.length_cons, List.length_nil, Prod.mk.injEq, and_true]
          omega
        · rw [if_neg h4]
          have hc : isCont (0x80 + q / 64 % 64) = true := by
            unfold isCont
            simp only [Bool.and_eq_true, decide_eq_true_eq]
            omega
          have hd : isCont (0x80 + q % 64) = true := by
            unfold isCont
            simp only [Bool.and_eq_true, decide_eq_true_eq]
            omega
          simp only [List.cons_append, List.nil_append, decodeRune, hc, hd]
          rw [if_neg (by omega), if_neg (by omega), if_neg (by omega), if_pos (by omega)]
          have hcond : (if 0xF0 + q / 262144 = 0xF0 then
                0x90 ≤ 0x80 + q / 4096 % 64 ∧ 0x80 + q / 4096 % 64 ≤ 0xBF
              else if 0xF0 + q / 262144 = 0xF4 then
                0x80 ≤ 0x80 + q / 4096 % 64 ∧ 0x80 + q / 4096 % 64 ≤ 0x8F
              else isCont (0x80 + q / 4096 % 64) = true) ∧ True ∧ True := by
            refine ⟨?_, trivial, trivial⟩
            by_cases c1 : 0xF0 + q / 262144 = 0xF0
            · rw [if_pos c1]; omega
            · rw [if_neg c1]
              by_cases c2 : 0xF0 + q / 262144 = 0xF4
              · rw [if_pos c2]; omega
              · rw [if_neg c2]
                unfold isCont
                simp only [Bool.and_eq_true, decide_eq_true_eq]
                omega
          rw [if_pos hcond]
          simp only [List.length_cons, List.length_nil, Prod.mk.injEq, and_true]
          omega

theorem encodeRune_ne_nil (q : Nat) : encodeRune q ≠ [] := by
  unfold encodeRune
  split_ifs <;> simp

theorem decodeRune_width_pos (c : Nat) (rest : Bytes) : 1 ≤ (decodeRune (c :: rest)).2 := by
  cases rest with
  | nil => simp only [decodeRune]; split_ifs <;> simp
  | cons b rest =>
    cases rest with
    | nil => simp only [decodeRune]; split_ifs <;> simp
    | cons c1 rest =>
      cases rest with
      | nil => simp only [decodeRune]; split_ifs <;> simp
      | cons d rest => simp only [decodeRune]; split_ifs <;> simp

theorem mapToLower_fuel (n : Nat) :
    ∀ (s : Bytes) (m : Nat), s.length ≤ n → n ≤ m → mapToLower m s = mapToLower s.length s := by
  induction n using Nat.strong_induction_on with
  | _ n ih =>
    intro s m hs hm
    cases s with
    | nil => cases m <;> rfl
    | cons c rest =>
      cases m with
      | zero => simp at hs; omega
      | succ m =>
        have hw := decodeRune_width_pos c rest
        have hl : ((c :: rest).drop (decodeRune (c :: rest)).2).length ≤ rest.length := by
          rw [List.length_drop, List.length_cons]; omega
        simp only [List.length_cons] at hs
        show encodeRune _ ++ mapToLower m _ = encodeRune _ ++ mapToLower rest.length _
        rw [ih rest.length (by omega) _ m hl (by omega),
          ih rest.length (by omega) _ rest.length hl (le_refl _)]

theorem mapToLower_encodeRune (q : Nat) (t : Bytes) :
    mapToLower (encodeRune q ++ t).length (encodeRune q ++ t) =
      encodeRune (unicodeToLower (validRune q)) ++ mapToLower t.length t := by
  have hd := decodeRune_encodeRune q t
  cases he : encodeRune q ++ t with
  | nil =>
    exfalso
    exact encodeRune_ne_nil q (List.append_eq_nil.mp he).1
  | cons c rest =>
    rw [he] at hd
    show encodeRune (unicodeToLower (decodeRune (c :: rest)).1) ++
      mapToLower rest.length ((c :: rest).drop (decodeRune (c :: rest)).2) = _
    rw [hd]
    simp only
    rw [← he, List.drop_left]
    have hl : t.length ≤ rest.length := by
      have := congrArg List.length he
      rw [List.length_append, List.length_cons] at this
      have := List.length_pos.mpr (encodeRune_ne_nil q)
      omega
    rw [mapToLower_fuel rest.length t rest.length hl (le_refl _)]

theorem encodeRune_lower_valid (r : Nat) :
    encodeRune (unicodeToLower (validRune (unicodeToLower r))) = encodeRune (unicodeToLower r) := by
  unfold validRune
  by_cases h : (0xD800 ≤ unicodeToLower r ∧ unicodeToLower r ≤ 0xDFFF) ∨ 0x10FFFF < unicodeToLower r
  · rw [if_pos h]
    have e : unicodeToLower 0xFFFD = 0xFFFD := by decide
    have b : ∀ q, ((0xD800 ≤ q ∧ q ≤ 0xDFFF) ∨ 0x10FFFF < q) →
        encodeRune q = [0xEF, 0xBF, 0xBD] := by
      intro q hq
      unfold encodeRune
      rw [if_neg (by omega), if_neg (by omega), if_pos hq]
    rw [e, b _ h]
    decide
  · rw [if_neg h, unicodeToLower_idem]

theorem mapToLower_idem (n : Nat) :
    ∀ s : Bytes, s.length ≤ n →
      mapToLower (mapToLower s.length s).length (mapToLower s.length s) =
        mapToLower s.length s := by
  induction n using Nat.strong_induction_on with
  | _ n ih =>
    intro s hs
    cases s with
    | nil => rfl
    | cons c rest =>
      have hw := decodeRune_width_pos c rest
      have hl : ((c :: rest).drop (decodeRune (c :: rest)).2).length ≤ rest.length := by
        rw [List.length_drop, List.length_cons]; omega
      simp only [List.length_cons] at hs
      have e : mapToLower (c :: rest).length (c :: rest) =
          encodeRune (unicodeToLower (decodeRune (c :: rest)).1) ++
            mapToLower ((c :: rest).drop (decodeRune (c :: rest)).2).length
              ((c :: rest).drop (decodeRune (c :: rest)).2) := by
        show encodeRune _ ++ mapToLower rest.length _ = _
        rw [mapToLower_fuel rest.length _ rest.length hl (le_refl _)]
      rw [e, mapToLower_encodeRune, encodeRune_lower_valid,
        ih rest.length (by omega) _ hl]

theorem ToLower_eq_mapToLower (s : Bytes) : ToLower s = mapToLower s.length s := by
  unfold ToLower
  by_cases h : s.all (fun c => decide (c < 0x80)) = true
  · rw [if_pos h]
    induction s with
    | nil => rfl
    | cons c rest ih =>
      simp only [List.all_cons, Bool.and_eq_true, decide_eq_true_eq] at h
      have hd : decodeRune (c :: rest) = (c, 1) := by
        cases rest with
        | nil => simp only [decodeRune, if_pos h.1]
        | cons b rest => simp only [decodeRune, if_pos h.1]
      show _ = encodeRune (unicodeToLower (decodeRune (c :: rest)).1) ++
        mapToLower rest.length ((c :: rest).drop (decodeRune (c :: rest)).2)
      rw [hd]
      simp only [List.drop_succ_cons, List.drop_zero, List.map_cons]
      rw [← ih h.2]
      have e1 : unicodeToLower c = lowerByte c := by unfold unicodeToLower; rw [if_pos h.1]
      have e2 : encodeRune (lowerByte c) = [lowerByte c] := by
        unfold encodeRune lowerByte
        split_ifs <;> first | rfl | omega
      rw [e1, e2]
      rfl
  · rw [if_neg h]

theorem ToLower_idem (s : Bytes) : ToLower (ToLower s) = ToLower s := by
  rw [ToLower_eq_mapToLower (ToLower s), ToLower_eq_mapToLower s]
  exact mapToLower_idem s.length s (le_refl _)

theorem ToLower_cons_ascii (a : Nat) (t : Bytes) (h : a < 0x80) :
    ToLower (a :: t) = lowerByte a :: ToLower t := by
  rw [ToLower_eq_mapToLower (a :: t), ToLower_eq_mapToLower t]
  have hd : decodeRune (a :: t) = (a, 1) := by
    cases t with
    | nil => simp only [decodeRune, if_pos h]
    | cons b rest => simp only [decodeRune, if_pos h]
  show encodeRune (unicodeToLower (decodeRune (a :: t)).1) ++
    mapToLower t.length ((a :: t).drop (decodeRune (a :: t)).2) = _
  rw [hd]
  have e1 : unicodeToLower a = lowerByte a := by unfold unicodeToLower; rw [if_pos h]
  have e2 : encodeRune (lowerByte a) = [lowerByte a] := by
    unfold encodeRune lowerByte
    split_ifs <;> first | rfl | omega
  simp only [List.drop_succ_cons, List.drop_zero]
  rw [e1, e2]
  rfl

theorem ToLower_drop_ce (s : Bytes) (h : HasPrefix (ToLower s) (str "ce-") = true) :
    ToLower ((ToLower s).drop 3) = (ToLower s).drop 3 := by
  have e := HasPrefix_eq_append (ToLower s) (str "ce-") h
  have hl : (str "ce-").length = 3 := by decide
  rw [hl] at e
  have hs : str "ce-" = [99, 101, 45] := by decide
  rw [hs] at e
  have hi := ToLower_idem s
  rw [e] at hi
  simp only [List.cons_append, List.nil_append] at hi
  rw [ToLower_cons_ascii _ _ (by omega), ToLower_cons_ascii _ _ (by omega),
    ToLower_cons_ascii _ _ (by omega)] at hi
  exact (List.cons_eq_cons.mp (List.cons_eq_cons.mp (List.cons_eq_cons.mp hi).2).2).2

theorem binaryAssign_Extensions (event : Event) (k v : Bytes) (e : Bytes × Bytes)
    (he : e ∈ (binaryAssign event k v).Extensions) : e ∈ event.Extensions ∨ e.1 = k := by
  unfold binaryAssign at he
  split_ifs at he
  all_goals first
    | exact Or.inl he
    | (rcases mem_mapSet _ _ _ _ he with h | h
       · exact Or.inl h
       · exact Or.inr (by rw [h]))

theorem binaryFold_keys_lower (h : Header) :
    ∀ event ev1 : Event, (∀ e ∈ event.Extensions, ToLower e.1 = e.1) →
      h.foldlM binaryStep event = some ev1 → ∀ e ∈ ev1.Extensions, ToLower e.1 = e.1 := by
  induction h with
  | nil =>
    intro event ev1 hinv hf
    have : event = ev1 := by simpa using hf
    rw [← this]; exact hinv
  | cons kv rest ih =>
    intro event ev1 hinv hf
    rw [List.foldlM_cons] at hf
    cases hstep : binaryStep event kv with
    | none => rw [hstep] at hf; cases hf
    | some ev2 =>
      rw [hstep] at hf
      refine ih ev2 ev1 ?_ hf
      unfold binaryStep at hstep
      by_cases hp : HasPrefix (ToLower kv.1) (str "ce-") = true
      · cases hv : kv.2 with
        | nil => simp [hp, hv] at hstep
        | cons v0 vs =>
          simp only [hp, hv, if_true, Option.some.injEq] at hstep
          intro e he
          rw [← hstep] at he
          rcases binaryAssign_Extensions _ _ _ _ he with h1 | h1
          · exact hinv e h1
          · rw [h1]; exact ToLower_drop_ce _ hp
      · simp only [hp, Bool.false_eq_true, if_false, Option.some.injEq] at hstep
        rw [← hstep]; exact hinv

/-! ## Lemmas: `Marshal` -/

theorem encodeValue_error (v : JSONValue) (e : GoError) (h : encodeValue v = Except.error e) :
    ∃ m, v = JSONValue.rawMessage m ∧ checkValid m = false ∧ e = GoError.jsonMarshaler := by
  cases v with
  | string s => cases h
  | byteSlice b => cases h
  | rawMessage m =>
    refine ⟨m, rfl, ?_⟩
    simp only [encodeValue] at h
    by_cases hv : checkValid m = true
    · rw [if_pos hv] at h; cases h
    · rw [if_neg hv] at h
      injection h with h1
      exact ⟨by simpa using hv, h1.symm⟩

theorem encodeMembers_error (l : List (Bytes × JSONValue)) (e : GoError)
    (h : encodeMembers l = Except.error e) :
    ∃ kv ∈ l, encodeValue kv.2 = Except.error e := by
  induction l with
  | nil => cases h
  | cons kv rest ih =>
    unfold encodeMembers at h
    cases hv : encodeValue kv.2 with
    | error e1 =>
      rw [hv] at h
      simp only at h
      injection h with h1
      exact ⟨kv, List.mem_cons_self _ _, by rw [hv, h1]⟩
    | ok v =>
      cases hr : encodeMembers rest with
      | error e2 =>
        rw [hv, hr] at h
        simp only at h
        injection h with h1
        obtain ⟨kv1, hm, he⟩ := ih (by rw [hr, h1])
        exact ⟨kv1, List.mem_cons_of_mem _ hm, he⟩
      | ok out => rw [hv, hr] at h; cases h

theorem mem_insertSorted (kv e : Bytes × JSONValue) (l : List (Bytes × JSONValue))
    (h : e ∈ insertSorted kv l) : e = kv ∨ e ∈ l := by
  induction l with
  | nil => simpa [insertSorted] using h
  | cons x rest ih =>
    unfold insertSorted at h
    split_ifs at h
    · simpa using h
    · rcases List.mem_cons.mp h with h1 | h1
      · exact Or.inr (by rw [h1]; exact List.mem_cons_self _ _)
      · rcases ih h1 with h2 | h2
        · exact Or.inl h2
        · exact Or.inr (List.mem_cons_of_mem _ h2)

theorem mem_sortedEntries (m : List (Bytes × JSONValue)) (e : Bytes × JSONValue)
    (h : e ∈ sortedEntries m) : e ∈ m := by
  induction m with
  | nil => simp [sortedEntries] at h
  | cons x rest ih =>
    unfold sortedEntries at h ih
    rw [List.foldr_cons] at h
    rcases mem_insertSorted _ _ _ h with h1 | h1
    · rw [h1]; exact List.mem_cons_self _ _
    · exact List.mem_cons_of_mem _ (ih h1)

theorem jsonMarshal_error (m : List (Bytes × JSONValue)) (e : GoError)
    (h : jsonMarshal m = Except.error e) :
    ∃ k d, (k, JSONValue.rawMessage d) ∈ m ∧ checkValid d = false ∧ e = GoError.jsonMarshaler := by
  unfold jsonMarshal at h
  cases hm : encodeMembers (sortedEntries m) with
  | ok out => rw [hm] at h; cases h
  | error e1 =>
    rw [hm] at h
    simp only at h
    injection h with h1
    obtain ⟨kv, hmem, hv⟩ := encodeMembers_error _ _ hm
    obtain ⟨d, hd, hc, he⟩ := encodeValue_error _ _ hv
    refine ⟨kv.1, d, ?_, hc, by rw [← h1, he]⟩
    rw [← hd]
    exact mem_sortedEntries _ _ hmem

theorem rawFromData_mapSet (event : Event) (m : List (Bytes × JSONValue)) (k : Bytes)
    (v : JSONValue) (hm : rawFromData event m)
    (hv : ∀ d, v = JSONValue.rawMessage d → event.Data = some d) :
    rawFromData event (mapSet m k v) := by
  intro kv hkv d hd
  rcases mem_mapSet _ _ _ _ hkv with h | h
  · exact hm kv h d hd
  · rw [h] at hd; exact hv d hd

theorem rawFromData_setNonEmpty (event : Event) (m : List (Bytes × JSONValue))
    (k s : Bytes) (hm : rawFromData event m) : rawFromData event (setNonEmpty m k s) := by
  unfold setNonEmpty
  split_ifs
  · exact rawFromData_mapSet _ _ _ _ hm (fun d hd => by cases hd)
  · exact hm

theorem rawFromData_extensions (event : Event) (exts : List (Bytes × Bytes)) :
    ∀ m, rawFromData event m →
      rawFromData event
        (exts.foldl (fun acc kv => mapSet acc (ToLower kv.1) (JSONValue.string kv.2)) m) := by
  induction exts with
  | nil => intro m hm; exact hm
  | cons x rest ih =>
    intro m hm
    rw [List.foldl_cons]
    exact ih _ (rawFromData_mapSet _ _ _ _ hm (fun d hd => by cases hd))

theorem resMap_rawFromData (event : Event) (m : List (Bytes × JSONValue))
    (h : event.resMap = Except.ok m) : rawFromData event m := by
  unfold Event.resMap at h
  have h8 := rawFromData_setNonEmpty event _ (str "datacontenttype") event.DataContentType
    (rawFromData_setNonEmpty event _ (str "schemaurl") event.SchemaURL
    (rawFromData_setNonEmpty event _ (str "time") event.Time
    (rawFromData_setNonEmpty event _ (str "id") event.ID
    (rawFromData_setNonEmpty event _ (str "subject") event.Subject
    (rawFromData_setNonEmpty event _ (str "source") event.Source
    (rawFromData_setNonEmpty event _ (str "type") event.Type_
    (rawFromData_setNonEmpty event [] (str "specversion") event.SpecVersion
      (fun kv hkv => by cases hkv))))))))
  cases hD : event.Data with
  | some d =>
    simp only [hD] at h
    injection h with h1
    rw [← h1]
    exact rawFromData_extensions _ _ _ (rawFromData_mapSet _ _ _ _ h8
      (fun d1 hd1 => by injection hd1 with e; rw [hD, e]))
  | none =>
    cases hO : event.DataObject with
    | none =>
      simp only [hD, hO] at h
      injection h with h1
      rw [← h1]
      exact rawFromData_extensions _ _ _ h8
    | some dv =>
      cases dv with
      | encodes j =>
        simp only [hD, hO] at h
        injection h with h1
        rw [← h1]
        exact rawFromData_extensions _ _ _ (rawFromData_mapSet _ _ _ _ h8
          (fun d1 hd1 => by cases hd1))
      | unsupported e =>
        simp only [hD, hO] at h
        cases h

theorem resMap_error (event : Event) (e : GoError) (h : event.resMap = Except.error e) :
    event.Data = none ∧ event.DataObject = some (DataValue.unsupported e) := by
  unfold Event.resMap at h
  cases hD : event.Data with
  | some d => simp only [hD] at h; cases h
  | none =>
    cases hO : event.DataObject with
    | none => simp only [hD, hO] at h; cases h
    | some dv =>
      cases dv with
      | encodes j => simp only [hD, hO] at h; cases h
      | unsupported e1 =>
        simp only [hD, hO] at h
        injection h with h1
        rw [h1]
        exact ⟨rfl, rfl⟩

theorem lookup_setNonEmpty_ne (m : List (Bytes × JSONValue)) (k s n : Bytes) (h : n ≠ k) :
    (setNonEmpty m k s).lookup n = m.lookup n := by
  unfold setNonEmpty
  split_ifs
  · rw [lookup_mapSet, if_neg h]
  · rfl

theorem lookup_setNonEmpty_self (m : List (Bytes × JSONValue)) (k s : Bytes) :
    (setNonEmpty m k s).lookup k =
      if s = [] then m.lookup k else some (JSONValue.string s) := by
  unfold setNonEmpty
  by_cases hs : s = []
  · rw [if_neg (not_not.mpr hs), if_pos hs]
  · rw [if_pos hs, if_neg hs, lookup_mapSet, if_pos rfl]

theorem lookup_extensions_ne (exts : List (Bytes × Bytes)) (n : Bytes)
    (h : ∀ kv ∈ exts, ToLower kv.1 ≠ n) :
    ∀ m : List (Bytes × JSONValue),
      (exts.foldl (fun acc kv => mapSet acc (ToLower kv.1) (JSONValue.string kv.2)) m).lookup n =
        m.lookup n := by
  induction exts with
  | nil => intro m; rfl
  | cons x rest ih =>
    intro m
    rw [List.foldl_cons, ih (fun kv hkv => h kv (List.mem_cons_of_mem _ hkv)),
      lookup_mapSet, if_neg (fun e => h x (List.mem_cons_self _ _) e.symm)]

theorem lookup_extensions_string (exts : List (Bytes × Bytes)) (n : Bytes) :
    ∀ m : List (Bytes × JSONValue), (∃ v, m.lookup n = some (JSONValue.string v)) →
      ∃ v, (exts.foldl (fun acc kv => mapSet acc (ToLower kv.1) (JSONValue.string kv.2))
        m).lookup n = some (JSONValue.string v) := by
  induction exts with
  | nil => intro m hm; exact hm
  | cons x rest ih =>
    intro m hm
    rw [List.foldl_cons]
    apply ih
    rw [lookup_mapSet]
    split_ifs
    · exact ⟨x.2, rfl⟩
    · exact hm

theorem lookup_extensions_mem (exts : List (Bytes × Bytes)) :
    ∀ m : List (Bytes × JSONValue), ∀ kv ∈ exts,
      ∃ v, (exts.foldl (fun acc kv => mapSet acc (ToLower kv.1) (JSONValue.string kv.2))
        m).lookup (ToLower kv.1) = some (JSONValue.string v) := by
  induction exts with
  | nil => intro m kv hkv; cases hkv
  | cons x rest ih =>
    intro m kv hkv
    rw [List.foldl_cons]
    rcases List.mem_cons.mp hkv with h | h
    · apply lookup_extensions_string
      rw [h, lookup_mapSet, if_pos rfl]
      exact ⟨x.2, rfl⟩
    · exact ih _ kv h

theorem resMap_named (event : Event) (m : List (Bytes × JSONValue))
    (h : event.resMap = Except.ok m) :
    ∃ m1 : List (Bytes × JSONValue),
      m = event.Extensions.foldl
        (fun acc kv => mapSet acc (ToLower kv.1) (JSONValue.string kv.2)) m1 ∧
      ∀ nv ∈ event.named,
        m1.lookup nv.1 = if nv.2 = [] then none else some (JSONValue.string nv.2) := by
  have hnamed : ∀ nv ∈ event.named,
      (setNonEmpty (setNonEmpty (setNonEmpty (setNonEmpty (setNonEmpty (setNonEmpty
        (setNonEmpty (setNonEmpty [] (str "specversion") event.SpecVersion)
        (str "type") event.Type_) (str "source") event.Source) (str "subject") event.Subject)
        (str "id") event.ID) (str "time") event.Time) (str "schemaurl") event.SchemaURL)
        (str "datacontenttype") event.DataContentType).lookup nv.1 =
      if nv.2 = [] then none else some (JSONValue.string nv.2) := by
    intro nv hnv
    unfold Event.named at hnv
    simp only [List.mem_cons, List.mem_singleton, List.not_mem_nil, or_false] at hnv
    rcases hnv with e | e | e | e | e | e | e | e <;> rw [e] <;> dsimp only
    · rw [lookup_setNonEmpty_ne _ _ _ _ (by decide), lookup_setNonEmpty_ne _ _ _ _ (by decide),
        lookup_setNonEmpty_ne _ _ _ _ (by decide), lookup_setNonEmpty_ne _ _ _ _ (by decide),
        lookup_setNonEmpty_ne _ _ _ _ (by decide), lookup_setNonEmpty_ne _ _ _ _ (by decide),
        lookup_setNonEmpty_ne _ _ _ _ (by decide), lookup_setNonEmpty_self]
      rfl
    · rw [lookup_setNonEmpty_ne _ _ _ _ (by decide), lookup_setNonEmpty_ne _ _ _ _ (by decide),
        lookup_setNonEmpty_ne _ _ _ _ (by decide), lookup_setNonEmpty_ne _ _ _ _ (by decide),
        lookup_setNonEmpty_ne _ _ _ _ (by decide), lookup_setNonEmpty_ne _ _ _ _ (by decide),
        lookup_setNonEmpty_self, lookup_setNonEmpty_ne _ _ _ _ (by decide)]
      rfl
    · rw [lookup_setNonEmpty_ne _ _ _ _ (by decide), lookup_setNonEmpty_ne _ _ _ _ (by decide),
        lookup_setNonEmpty_ne _ _ _ _ (by decide), lookup_setNonEmpty_ne _ _ _ _ (by decide),
        lookup_setNonEmpty_ne _ _ _ _ (by decide), lookup_setNonEmpty_self,
        lookup_setNonEmpty_ne _ _ _ _ (by decide), lookup_setNonEmpty_ne _ _ _ _ (by decide)]
      rfl
    · rw [lookup_setNonEmpty_ne _ _ _ _ (by decide), lookup_setNonEmpty_ne _ _ _ _ (by decide),
        lookup_setNonEmpty_ne _ _ _ _ (by decide), lookup_setNonEmpty_ne _ _ _ _ (by decide),
        lookup_setNonEmpty_self, lookup_setNonEmpty_ne _ _ _ _ (by decide),
        lookup_setNonEmpty_ne _ _ _ _ (by decide), lookup_setNonEmpty_ne _ _ _ _ (by decide)]
      rfl
    · rw [lookup_setNonEmpty_ne _ _ _ _ (by decide), lookup_setNonEmpty_ne _ _ _ _ (by decide),
        lookup_setNonEmpty_ne _ _ _ _ (by decide), lookup_setNonEmpty_self,
        lookup_setNonEmpty_ne _ _ _ _ (by decide), lookup_setNonEmpty_ne _ _ _ _ (by decide),
        lookup_setNonEmpty_ne _ _ _ _ (by decide), lookup_setNonEmpty_ne _ _ _ _ (by decide)]
      rfl
    · rw [lookup_setNonEmpty_ne _ _ _ _ (by decide), lookup_setNonEmpty_ne _ _ _ _ (by decide),
        lookup_setNonEmpty_self, lookup_setNonEmpty_ne _ _ _ _ (by decide),
        lookup_setNonEmpty_ne _ _ _ _ (by decide), lookup_setNonEmpty_ne _ _ _ _ (by decide),
        lookup_setNonEmpty_ne _ _ _ _ (by decide), lookup_setNonEmpty_ne _ _ _ _ (by decide)]
      rfl
    · rw [lookup_setNonEmpty_ne _ _ _ _ (by decide), lookup_setNonEmpty_self,
        lookup_setNonEmpty_ne _ _ _ _ (by decide), lookup_setNonEmpty_ne _ _ _ _ (by decide),
        lookup_setNonEmpty_ne _ _ _ _ (by decide), lookup_setNonEmpty_ne _ _ _ _ (by decide),
        lookup_setNonEmpty_ne _ _ _ _ (by decide), lookup_setNonEmpty_ne _ _ _ _ (by decide)]
      rfl
    · rw [lookup_setNonEmpty_self, lookup_setNonEmpty_ne _ _ _ _ (by decide),
        lookup_setNonEmpty_ne _ _ _ _ (by decide), lookup_setNonEmpty_ne _ _ _ _ (by decide),
        lookup_setNonEmpty_ne _ _ _ _ (by decide), lookup_setNonEmpty_ne _ _ _ _ (by decide),
        lookup_setNonEmpty_ne _ _ _ _ (by decide), lookup_setNonEmpty_ne _ _ _ _ (by decide)]
      rfl
  unfold Event.resMap at h
  cases hD : event.Data with
  | some d =>
    simp only [hD] at h
    injection h with h1
    refine ⟨_, h1.symm, ?_⟩
    intro nv hnv
    have hne : nv.1 ≠ str "data" := by
      unfold Event.named at hnv
      simp only [List.mem_cons, List.mem_singleton, List.not_mem_nil, or_false] at hnv
      rcases hnv with e | e | e | e | e | e | e | e <;> rw [e] <;> dsimp only <;> decide
    rw [lookup_mapSet, if_neg hne]
    exact hnamed nv hnv
  | none =>
    cases hO : event.DataObject with
    | none =>
      simp only [hD, hO] at h
      injection h with h1
      exact ⟨_, h1.symm, hnamed⟩
    | some dv =>
      cases dv with
      | encodes j =>
        simp only [hD, hO] at h
        injection h with h1
        refine ⟨_, h1.symm, ?_⟩
        intro nv hnv
        have hne : nv.1 ≠ str "data" := by
          unfold Event.named at hnv
          simp only [List.mem_cons, List.mem_singleton, List.not_mem_nil, or_false] at hnv
          rcases hnv with e | e | e | e | e | e | e | e <;> rw [e] <;> dsimp only <;> decide
        rw [lookup_mapSet, if_neg hne]
        exact hnamed nv hnv
      | unsupported e =>
        simp only [hD, hO] at h
        cases h

/-! ## Lemmas: the values under a header name -/

theorem lookup_append (h : Header) (k n v : Bytes) :
    (Header.append h k v).lookup n =
      if n = k then some ((h.lookup k).getD [] ++ [v]) else h.lookup n := by
  induction h with
  | nil =>
    by_cases hn : n = k
    · simp [Header.append, List.lookup, hn]
    · have hb : (n == k) = false := by simpa using hn
      simp [Header.append, List.lookup, hn, hb]
  | cons e rest ih =>
    obtain ⟨k1, vs⟩ := e
    unfold Header.append
    by_cases h1 : k1 = k
    · rw [if_pos h1]
      subst h1
      by_cases hn : n = k1
      · simp [List.lookup, hn]
      · have hb : (n == k1) = false := by simpa using hn
        simp [List.lookup, hn, hb]
    · rw [if_neg h1]
      have hb1 : (k == k1) = false := by simpa using fun e => h1 e.symm
      by_cases hn : n = k
      · subst hn
        simp [List.lookup, hb1, ih]
      · by_cases hn1 : n = k1
        · subst hn1
          simp [List.lookup, h1]
        · have hb : (n == k1) = false := by simpa using hn1
          simp [List.lookup, hn, hb, ih]

theorem lookup_AddHeader_ne (h : Header) (key v n : Bytes)
    (hn : n ≠ CanonicalMIMEHeaderKey (TrimSpace key)) :
    (AddHeader h key v).lookup n = h.lookup n := by
  unfold AddHeader Header.Add
  by_cases hv : TrimSpace v = []
  · simp only [hv, if_true]
  · simp only [hv, if_false]
    rw [lookup_append, if_neg hn]

theorem lookup_AddHeader_self (h : Header) (key v : Bytes) :
    (AddHeader h key v).lookup (CanonicalMIMEHeaderKey (TrimSpace key)) =
      if TrimSpace v = [] then h.lookup (CanonicalMIMEHeaderKey (TrimSpace key))
      else some ((h.lookup (CanonicalMIMEHeaderKey (TrimSpace key))).getD [] ++
        [TrimSpace v]) := by
  unfold AddHeader Header.Add
  by_cases hv : TrimSpace v = []
  · simp only [hv, if_true]
  · simp only [hv, if_false]
    rw [lookup_append, if_pos rfl]

theorem AddHeader_values_grow (h : Header) (key v n : Bytes) :
    (h.lookup n).getD [] <+: ((AddHeader h key v).lookup n).getD [] := by
  by_cases hn : n = CanonicalMIMEHeaderKey (TrimSpace key)
  · rw [hn, lookup_AddHeader_self]
    by_cases hv : TrimSpace v = []
    · rw [if_pos hv]
    · rw [if_neg hv]
      exact List.prefix_append _ _
  · rw [lookup_AddHeader_ne _ _ _ _ hn]

theorem extensions_values_grow (exts : List (Bytes × Bytes)) (n : Bytes) :
    ∀ h : Header, (h.lookup n).getD [] <+:
      ((exts.foldl (fun acc kv =>
        AddHeader acc (str "ce-" ++ kv.1) ((unmarshalBytes kv.2).1.getD [])) h).lookup n).getD
        [] := by
  induction exts with
  | nil => intro h; exact List.prefix_refl _
  | cons e rest ih =>
    intro h
    rw [List.foldl_cons]
    exact (AddHeader_values_grow h _ _ n).trans (ih _)

theorem AddHeader_empty (h : Header) (key : Bytes) : AddHeader h key [] = h := by
  unfold AddHeader
  have : TrimSpace [] = [] := rfl
  simp only [this, if_true]

theorem unmarshalBytes_error_empty (v : Bytes) (herr : (unmarshalBytes v).2 ≠ none)
    (harr : (skipSpace v).head? ≠ some 91) : (unmarshalBytes v).1 = some [] := by
  unfold unmarshalBytes at herr ⊢
  by_cases hv : checkValid v = true
  · rw [if_pos hv] at herr ⊢
    unfold decodeByteSlice at herr ⊢
    split at herr
    · rename_i r heq
      split at herr
      · exact absurd rfl herr
      · rename_i hb
        simp only [heq, hb]
    · exact absurd rfl herr
    · rename_i r heq
      rw [heq] at harr
      exact absurd rfl harr
    · rfl
  · rw [if_neg hv]

theorem foldl_filter_of_id {α β : Type} (f : β → α → β) (p : α → Bool)
    (hid : ∀ acc a, p a = false → f acc a = acc) (l : List α) :
    ∀ init, l.foldl f init = (l.filter p).foldl f init := by
  induction l with
  | nil => intro init; rfl
  | cons a rest ih =>
    intro init
    cases hp : p a with
    | true => rw [List.filter_cons_of_pos hp, List.foldl_cons, List.foldl_cons, ih]
    | false =>
      rw [List.filter_cons_of_neg (by simp [hp]), List.foldl_cons, hid _ _ hp, ih]

/-! ## Lemmas: the member `data` -/

theorem resMap_data (event : Event) (m : List (Bytes × JSONValue))
    (h : event.resMap = Except.ok m)
    (hext : ∀ kv ∈ event.Extensions, ToLower kv.1 ≠ str "data") :
    (∀ d, event.Data = some d → m.lookup (str "data") = some (JSONValue.rawMessage d)) ∧
    (event.Data = none → event.DataObject = none → m.lookup (str "data") = none) := by
  unfold Event.resMap at h
  cases hD : event.Data with
  | some d =>
    simp only [hD] at h
    injection h with h1
    constructor
    · intro d1 hd1
      injection hd1 with hd2
      rw [← h1, lookup_extensions_ne _ _ hext, lookup_mapSet, if_pos rfl, hd2]
    · intro e
      cases e
  | none =>
    constructor
    · intro d e
      cases e
    intro _ hO
    simp only [hD, hO] at h
    injection h with h1
    rw [← h1, lookup_extensions_ne _ _ hext,
      lookup_setNonEmpty_ne _ _ _ _ (by decide), lookup_setNonEmpty_ne _ _ _ _ (by decide),
      lookup_setNonEmpty_ne _ _ _ _ (by decide), lookup_setNonEmpty_ne _ _ _ _ (by decide),
      lookup_setNonEmpty_ne _ _ _ _ (by decide), lookup_setNonEmpty_ne _ _ _ _ (by decide),
      lookup_setNonEmpty_ne _ _ _ _ (by decide), lookup_setNonEmpty_ne _ _ _ _ (by decide)]
    rfl

/-! ## Lemmas: the headers binary mode reads, and their order -/

theorem binaryStep_not_ce (event : Event) (kv : Bytes × List Bytes)
    (h : isCeHeader kv = false) : binaryStep event kv = some event := by
  unfold binaryStep
  unfold isCeHeader at h
  simp only [h, Bool.false_eq_true, if_false]

theorem binaryFold_filter (h : Header) :
    ∀ event : Event,
      h.foldlM binaryStep event = (h.filter isCeHeader).foldlM binaryStep event := by
  induction h with
  | nil => intro event; rfl
  | cons kv rest ih =>
    intro event
    cases hce : isCeHeader kv with
    | true =>
      rw [List.filter_cons_of_pos hce, List.foldlM_cons, List.foldlM_cons]
      cases binaryStep event kv with
      | none => rfl
      | some ev1 => exact ih ev1
    | false =>
      rw [List.filter_cons_of_neg (by simp [hce]), List.foldlM_cons,
        binaryStep_not_ce event kv hce]
      exact ih event

theorem binaryFold_frame (h : Header) (n : Bytes)
    (hn : ∀ kv ∈ h, isCeHeader kv = true → (ToLower kv.1).drop 3 ≠ n) :
    ∀ event ev1 : Event, h.foldlM binaryStep event = some ev1 →
      ev1.attribute n = event.attribute n := by
  induction h with
  | nil =>
    intro event ev1 hf
    have : event = ev1 := by simpa using hf
    rw [this]
  | cons kv rest ih =>
    intro event ev1 hf
    rw [List.foldlM_cons] at hf
    have hn1 : ∀ kv1 ∈ rest, isCeHeader kv1 = true → (ToLower kv1.1).drop 3 ≠ n :=
      fun kv1 hm => hn kv1 (List.mem_cons_of_mem _ hm)
    cases hce : isCeHeader kv with
    | false =>
      rw [binaryStep_not_ce event kv hce] at hf
      exact ih hn1 event ev1 hf
    | true =>
      have hp : HasPrefix (ToLower kv.1) (str "ce-") = true := hce
      unfold binaryStep at hf
      simp only [hp, if_true] at hf
      cases hv : kv.2 with
      | nil => rw [hv] at hf; cases hf
      | cons v0 vs =>
        rw [hv] at hf
        rw [ih hn1 _ ev1 hf]
        exact attribute_binaryAssign_ne _ _ _ _
          (fun e => hn kv (List.mem_cons_self _ _) hce e.symm)

theorem FromHTTPRequest_binary (r : Request) (body : Bytes)
    (hct : HasPrefix (r.Header.Get (str "Content-Type")) (str "application/cloudevents+json")
      = false)
    (hb : readBody r.Body = Except.ok body) :
    FromHTTPRequest r =
      match r.Header.foldlM binaryStep {} with
      | none => none
      | some event =>
        some { event := some { event with Data := some body }, isBinary := true, err := none } := by
  unfold FromHTTPRequest
  simp only [hb, hct, Bool.false_eq_true, if_false]

theorem lookup_mem {β : Type} (l : List (Bytes × β)) (k : Bytes) (v : β)
    (h : l.lookup k = some v) : (k, v) ∈ l := by
  induction l with
  | nil => cases h
  | cons e rest ih =>
    obtain ⟨k1, v1⟩ := e
    by_cases hk : k = k1
    · subst hk
      simp only [List.lookup, beq_self_eq_true, Option.some.injEq] at h
      rw [h]; exact List.mem_cons_self _ _
    · have hb : (k == k1) = false := by simpa using hk
      simp only [List.lookup, hb] at h
      exact List.mem_cons_of_mem _ (ih h)

theorem lookup_none_of_not_mem {β : Type} (l : List (Bytes × β)) (k : Bytes)
    (h : ∀ e ∈ l, e.1 ≠ k) : l.lookup k = none := by
  induction l with
  | nil => rfl
  | cons e rest ih =>
    obtain ⟨k1, v1⟩ := e
    have hk : k ≠ k1 := fun e => h (k1, v1) (List.mem_cons_self _ _) e.symm
    have hb : (k == k1) = false := by simpa using hk
    simp only [List.lookup, hb]
    exact ih (fun e he => h e (List.mem_cons_of_mem _ he))

theorem lookup_perm {β : Type} (l1 l2 : List (Bytes × β)) (k : Bytes)
    (hnd : (l1.map Prod.fst).Nodup) (hp : l1.Perm l2) : l1.lookup k = l2.lookup k := by
  have hnd2 : (l2.map Prod.fst).Nodup := (hp.map Prod.fst).nodup_iff.mp hnd
  cases h1 : l1.lookup k with
  | some v =>
    exact (lookup_of_mem_nodup l2 k v hnd2 (hp.mem_iff.mp (lookup_mem l1 k v h1))).symm
  | none =>
    cases h2 : l2.lookup k with
    | none => rfl
    | some v =>
      have := lookup_of_mem_nodup l1 k v hnd (hp.mem_iff.mpr (lookup_mem l2 k v h2))
      rw [h1] at this; cases this

theorem binaryFold_panics (h : Header)
    (hbad : ∃ kv ∈ h, isCeHeader kv = true ∧ kv.2 = []) :
    ∀ event : Event, h.foldlM binaryStep event = none := by
  induction h with
  | nil => obtain ⟨kv, hm, -⟩ := hbad; cases hm
  | cons kv rest ih =>
    intro event
    rw [List.foldlM_cons]
    cases hstep : binaryStep event kv with
    | none => rfl
    | some ev1 =>
      obtain ⟨kv1, hm, hce, hv⟩ := hbad
      rcases List.mem_cons.mp hm with heq | hm1
      · subst heq
        have hp : HasPrefix (ToLower kv1.1) (str "ce-") = true := hce
        unfold binaryStep at hstep
        simp only [hp, hv, if_true] at hstep
        cases hstep
      · exact ih ⟨kv1, hm1, hce, hv⟩ ev1

theorem binaryAssign_Extensions_key (event : Event) (k v : Bytes) (e : Bytes × Bytes)
    (he : e ∈ (binaryAssign event k v).Extensions) :
    e ∈ event.Extensions ∨ (e.1 = k ∧ k ∉ attributeNames) := by
  unfold binaryAssign at he
  by_cases k1 : k = str "datacontenttype"
  · rw [if_pos k1] at he; exact Or.inl he
  rw [if_neg k1] at he
  by_cases k2 : k = str "specversion"
  · rw [if_pos k2] at he; exact Or.inl he
  rw [if_neg k2] at he
  by_cases k3 : k = str "type"
  · rw [if_pos k3] at he; exact Or.inl he
  rw [if_neg k3] at he
  by_cases k4 : k = str "source"
  · rw [if_pos k4] at he; exact Or.inl he
  rw [if_neg k4] at he
  by_cases k5 : k = str "subject"
  · rw [if_pos k5] at he; exact Or.inl he
  rw [if_neg k5] at he
  by_cases k6 : k = str "id"
  · rw [if_pos k6] at he; exact Or.inl he
  rw [if_neg k6] at he
  by_cases k7 : k = str "time"
  · rw [if_pos k7] at he; exact Or.inl he
  rw [if_neg k7] at he
  by_cases k8 : k = str "schemaurl"
  · rw [if_pos k8] at he; exact Or.inl he
  rw [if_neg k8] at he
  rcases mem_mapSet _ _ _ _ he with h | h
  · exact Or.inl h
  · refine Or.inr ⟨by rw [h], ?_⟩
    unfold attributeNames
    simp only [List.mem_cons, List.mem_singleton, List.not_mem_nil, or_false, not_or]
    exact ⟨k2, k3, k4, k5, k6, k7, k8, k1⟩

theorem binaryFold_Extensions_keys (h : Header) :
    ∀ event ev1 : Event, (∀ e ∈ event.Extensions, e.1 ∉ attributeNames) →
      h.foldlM binaryStep event = some ev1 → ∀ e ∈ ev1.Extensions, e.1 ∉ attributeNames := by
  induction h with
  | nil =>
    intro event ev1 hinv hf
    have : event = ev1 := by simpa using hf
    rw [← this]; exact hinv
  | cons kv rest ih =>
    intro event ev1 hinv hf
    rw [List.foldlM_cons] at hf
    cases hstep : binaryStep event kv with
    | none => rw [hstep] at hf; cases hf
    | some ev2 =>
      rw [hstep] at hf
      refine ih ev2 ev1 ?_ hf
      cases hce : isCeHeader kv with
      | false =>
        rw [binaryStep_not_ce event kv hce] at hstep
        injection hstep with e1
        rw [← e1]; exact hinv
      | true =>
        have hp : HasPrefix (ToLower kv.1) (str "ce-") = true := hce
        unfold binaryStep at hstep
        simp only [hp, if_true] at hstep
        cases hv : kv.2 with
        | nil => rw [hv] at hstep; cases hstep
        | cons v0 vs =>
          rw [hv] at hstep
          injection hstep with e1
          intro e he
          rw [← e1] at he
          rcases binaryAssign_Extensions_key _ _ _ _ he with h1 | ⟨h1, h2⟩
          · exact hinv e h1
          · rw [h1]; exact h2

theorem named_eq_of_attribute (a b : Event) (h : ∀ n, a.attribute n = b.attribute n) :
    a.named = b.named := by
  obtain ⟨a1, a2, a3, a4, a5, a6, a7, a8⟩ := attribute_named a
  obtain ⟨b1, b2, b3, b4, b5, b6, b7, b8⟩ := attribute_named b
  have e1 := h (str "datacontenttype")
  have e2 := h (str "specversion")
  have e3 := h (str "type")
  have e4 := h (str "source")
  have e5 := h (str "subject")
  have e6 := h (str "id")
  have e7 := h (str "time")
  have e8 := h (str "schemaurl")
  rw [a1, b1] at e1
  rw [a2, b2] at e2
  rw [a3, b3] at e3
  rw [a4, b4] at e4
  rw [a5, b5] at e5
  rw [a6, b6] at e6
  rw [a7, b7] at e7
  rw [a8, b8] at e8
  unfold Event.named
  rw [Option.some.inj e1, Option.some.inj e2, Option.some.inj e3, Option.some.inj e4,
    Option.some.inj e5, Option.some.inj e6, Option.some.inj e7, Option.some.inj e8]

theorem ceNames_nodup (h : Header) (hnd : (h.map (fun kv => ToLower kv.1)).Nodup) :
    (ceNames h).Nodup := by
  unfold ceNames
  exact List.Nodup.sublist ((List.filter_sublist h).map _) hnd

theorem binaryFold_order (h1 h2 : Header) (hperm : h1.Perm h2)
    (hnd : (h1.map (fun kv => ToLower kv.1)).Nodup)
    (hne : ∀ kv ∈ h1, isCeHeader kv = true → kv.2 ≠ []) :
    ∃ ev1 ev2 : Event, h1.foldlM binaryStep {} = some ev1 ∧ h2.foldlM binaryStep {} = some ev2 ∧
      (∀ n, ev1.attribute n = ev2.attribute n) ∧ ev1.DataObject = ev2.DataObject ∧
      (∀ k, ev1.Extensions.lookup k = ev2.Extensions.lookup k) := by
  have hnd2 : (h2.map (fun kv => ToLower kv.1)).Nodup := (hperm.map _).nodup_iff.mp hnd
  have hne2 : ∀ kv ∈ h2, isCeHeader kv = true → kv.2 ≠ [] :=
    fun kv hm => hne kv (hperm.mem_iff.mpr hm)
  obtain ⟨ev1, hf1, hset1, hframe1, -, hdo1⟩ :=
    binaryFold_attribute h1 hne (ceNames_nodup h1 hnd) {}
  obtain ⟨ev2, hf2, hset2, hframe2, -, hdo2⟩ :=
    binaryFold_attribute h2 hne2 (ceNames_nodup h2 hnd2) {}
  have hattr : ∀ n, ev1.attribute n = ev2.attribute n := by
    intro n
    by_cases hex : ∃ kv ∈ h1, isCeHeader kv = true ∧ (ToLower kv.1).drop 3 = n
    · obtain ⟨⟨k, vs⟩, hm, hce, heq⟩ := hex
      cases vs with
      | nil => exact absurd rfl (hne _ hm hce)
      | cons v vs1 =>
        have e1 := hset1 k v vs1 hm hce
        have e2 := hset2 k v vs1 (hperm.mem_iff.mp hm) hce
        simp only at heq
        rw [heq] at e1 e2
        rw [e1, e2]
    · rw [hframe1 n (fun kv hm hc heq => hex ⟨kv, hm, hc, heq⟩),
        hframe2 n (fun kv hm hc heq => hex ⟨kv, hperm.mem_iff.mpr hm, hc, heq⟩)]
  refine ⟨ev1, ev2, hf1, hf2, hattr, by rw [hdo1, hdo2], ?_⟩
  intro k
  by_cases hk : k ∈ attributeNames
  · have i1 := binaryFold_Extensions_keys h1 {} ev1 (fun e he => by cases he) hf1
    have i2 := binaryFold_Extensions_keys h2 {} ev2 (fun e he => by cases he) hf2
    rw [lookup_none_of_not_mem _ k (fun e he heq => i1 e he (by rw [heq]; exact hk)),
      lookup_none_of_not_mem _ k (fun e he heq => i2 e he (by rw [heq]; exact hk))]
  · have e := hattr k
    rw [attribute_extension _ _ hk, attribute_extension _ _ hk] at e
    exact e

theorem binary_order_independent (h1 h2 : Header) (rc : Option ReadCloser)
    (hperm : h1.Perm h2) (hnd : (h1.map (fun kv => ToLower kv.1)).Nodup)
    (hct : HasPrefix (h1.Get (str "Content-Type")) (str "application/cloudevents+json")
      = false) :
    sameResult (FromHTTPRequest { Header := h1, Body := rc })
      (FromHTTPRequest { Header := h2, Body := rc }) := by
  have hk1 : (h1.map Prod.fst).Nodup := by
    have e : h1.map (fun kv => ToLower kv.1) = (h1.map Prod.fst).map ToLower := by
      rw [List.map_map]; rfl
    rw [e] at hnd
    exact List.Nodup.of_map _ hnd
  have hget : Header.Get h2 (str "Content-Type") = Header.Get h1 (str "Content-Type") := by
    unfold Header.Get
    rw [lookup_perm h1 h2 _ hk1 hperm]
  have hct2 : HasPrefix (Header.Get h2 (str "Content-Type"))
      (str "application/cloudevents+json") = false := by rw [hget]; exact hct
  cases hb : readBody rc with
  | error e =>
    unfold FromHTTPRequest
    simp only [hb]
    exact ⟨rfl, rfl, trivial⟩
  | ok body =>
    rw [FromHTTPRequest_binary { Header := h1, Body := rc } body hct hb,
      FromHTTPRequest_binary { Header := h2, Body := rc } body hct2 hb]
    by_cases hbad : ∃ kv ∈ h1, isCeHeader kv = true ∧ kv.2 = []
    · have hbad2 : ∃ kv ∈ h2, isCeHeader kv = true ∧ kv.2 = [] := by
        obtain ⟨kv, hm, hc⟩ := hbad
        exact ⟨kv, hperm.mem_iff.mp hm, hc⟩
      simp only [binaryFold_panics h1 hbad, binaryFold_panics h2 hbad2]
      trivial
    · have hne : ∀ kv ∈ h1, isCeHeader kv = true → kv.2 ≠ [] :=
        fun kv hm hc hv => hbad ⟨kv, hm, hc, hv⟩
      obtain ⟨ev1, ev2, hf1, hf2, hattr, hdo, hext⟩ := binaryFold_order h1 h2 hperm hnd hne
      simp only [hf1, hf2]
      exact ⟨rfl, rfl, named_eq_of_attribute _ _ hattr, rfl, hdo, hext⟩

/-! ## Lemmas: the loop of structured mode, and its order -/

theorem member_setSpecVersion_ne (event : Event) (n v : Bytes) (h : n ≠ str "specversion") :
    ({ event with SpecVersion := v } : Event).member n = event.member n := by
  unfold Event.member
  rw [if_neg h, if_neg h]

theorem member_setDataContentType_ne (event : Event) (n v : Bytes) (h : n ≠ str "datacontenttype") :
    ({ event with DataContentType := v } : Event).member n = event.member n := by
  unfold Event.member
  rw [if_neg h, if_neg h]

theorem member_setType_ne (event : Event) (n v : Bytes) (h : n ≠ str "type") :
    ({ event with Type_ := v } : Event).member n = event.member n := by
  unfold Event.member
  rw [if_neg h, if_neg h]

theorem member_setSource_ne (event : Event) (n v : Bytes) (h : n ≠ str "source") :
    ({ event with Source := v } : Event).member n = event.member n := by
  unfold Event.member
  rw [if_neg h, if_neg h]

theorem member_setSubject_ne (event : Event) (n v : Bytes) (h : n ≠ str "subject") :
    ({ event with Subject := v } : Event).member n = event.member n := by
  unfold Event.member
  rw [if_neg h, if_neg h]

theorem member_setID_ne (event : Event) (n v : Bytes) (h : n ≠ str "id") :
    ({ event with ID := v } : Event).member n = event.member n := by
  unfold Event.member
  rw [if_neg h, if_neg h]

theorem member_setTime_ne (event : Event) (n v : Bytes) (h : n ≠ str "time") :
    ({ event with Time := v } : Event).member n = event.member n := by
  unfold Event.member
  rw [if_neg h, if_neg h]

theorem member_setSchemaURL_ne (event : Event) (n v : Bytes) (h : n ≠ str "schemaurl") :
    ({ event with SchemaURL := v } : Event).member n = event.member n := by
  unfold Event.member
  rw [if_neg h, if_neg h]

theorem member_setData_ne (event : Event) (n : Bytes) (v : Option Bytes)
    (h : n ≠ str "data") :
    ({ event with Data := v } : Event).member n = event.member n := by
  unfold Event.member
  rw [if_neg h, if_neg h]

theorem member_setExtensions_ne (event : Event) (k n v : Bytes) (h : n ≠ k) :
    ({ event with Extensions := mapSet event.Extensions k v } : Event).member n =
      event.member n := by
  unfold Event.member
  have e : (mapSet event.Extensions k v).lookup n = event.Extensions.lookup n := by
    rw [lookup_mapSet, if_neg h]
  show
    (if n = str "specversion" then some event.SpecVersion
    else if n = str "datacontenttype" then some event.DataContentType
    else if n = str "type" then some event.Type_
    else if n = str "source" then some event.Source
    else if n = str "subject" then some event.Subject
    else if n = str "id" then some event.ID
    else if n = str "time" then some event.Time
    else if n = str "schemaurl" then some event.SchemaURL
    else if n = str "data" then event.Data
    else (mapSet event.Extensions k v).lookup n) = _
  rw [e]

theorem member_structuredStep_ne (event : Event) (k n : Bytes) (v : Option Bytes)
    (h : n ≠ k) : (structuredStep event (k, v)).member n = event.member n := by
  unfold structuredStep
  dsimp only
  by_cases k1 : k = str "specversion"
  · rw [if_pos k1]
    exact member_setSpecVersion_ne event n _ (fun e => h (e.trans k1.symm))
  rw [if_neg k1]
  by_cases k2 : k = str "datacontenttype"
  · rw [if_pos k2]
    exact member_setDataContentType_ne event n _ (fun e => h (e.trans k2.symm))
  rw [if_neg k2]
  by_cases k3 : k = str "type"
  · rw [if_pos k3]
    exact member_setType_ne event n _ (fun e => h (e.trans k3.symm))
  rw [if_neg k3]
  by_cases k4 : k = str "source"
  · rw [if_pos k4]
    exact member_setSource_ne event n _ (fun e => h (e.trans k4.symm))
  rw [if_neg k4]
  by_cases k5 : k = str "subject"
  · rw [if_pos k5]
    exact member_setSubject_ne event n _ (fun e => h (e.trans k5.symm))
  rw [if_neg k5]
  by_cases k6 : k = str "id"
  · rw [if_pos k6]
    exact member_setID_ne event n _ (fun e => h (e.trans k6.symm))
  rw [if_neg k6]
  by_cases k7 : k = str "time"
  · rw [if_pos k7]
    exact member_setTime_ne event n _ (fun e => h (e.trans k7.symm))
  rw [if_neg k7]
  by_cases k8 : k = str "schemaurl"
  · rw [if_pos k8]
    exact member_setSchemaURL_ne event n _ (fun e => h (e.trans k8.symm))
  rw [if_neg k8]
  by_cases k9 : k = str "data"
  · rw [if_pos k9]
    exact member_setData_ne event n _ (fun e => h (e.trans k9.symm))
  rw [if_neg k9]
  exact member_setExtensions_ne event k n _ h

theorem member_structuredStep_self (event : Event) (k : Bytes) (v : Option Bytes) :
    (structuredStep event (k, v)).member k = memberValue k v := by
  unfold structuredStep
  dsimp only
  by_cases k1 : k = str "specversion"
  · rw [if_pos k1]
    unfold Event.member memberValue
    rw [if_pos k1, if_pos k1]
  rw [if_neg k1]
  by_cases k2 : k = str "datacontenttype"
  · rw [if_pos k2]
    unfold Event.member memberValue
    rw [if_neg k1, if_pos k2, if_neg k1, if_pos k2]
  rw [if_neg k2]
  by_cases k3 : k = str "type"
  · rw [if_pos k3]
    unfold Event.member memberValue
    rw [if_neg k1, if_neg k2, if_pos k3, if_neg k1, if_neg k2, if_pos k3]
  rw [if_neg k3]
  by_cases k4 : k = str "source"
  · rw [if_pos k4]
    unfold Event.member memberValue
    rw [if_neg k1, if_neg k2, if_neg k3, if_pos k4, if_neg k1, if_neg k2, if_neg k3, if_pos k4]
  rw [if_neg k4]
  by_cases k5 : k = str "subject"
  · rw [if_pos k5]
    unfold Event.member memberValue
    rw [if_neg k1, if_neg k2, if_neg k3, if_neg k4, if_pos k5, if_neg k1, if_neg k2, if_neg k3, if_neg k4, if_pos k5]
  rw [if_neg k5]
  by_cases k6 : k = str "id"
  · rw [if_pos k6]
    unfold Event.member memberValue
    rw [if_neg k1, if_neg k2, if_neg k3, if_neg k4, if_neg k5, if_pos k6, if_neg k1, if_neg k2, if_neg k3, if_neg k4, if_neg k5, if_pos k6]
  rw [if_neg k6]
  by_cases k7 : k = str "time"
  · rw [if_pos k7]
    unfold Event.member memberValue
    rw [if_neg k1, if_neg k2, if_neg k3, if_neg k4, if_neg k5, if_neg k6, if_pos k7, if_neg k1, if_neg k2, if_neg k3, if_neg k4, if_neg k5, if_neg k6, if_pos k7]
  rw [if_neg k7]
  by_cases k8 : k = str "schemaurl"
  · rw [if_pos k8]
    unfold Event.member memberValue
    rw [if_neg k1, if_neg k2, if_neg k3, if_neg k4, if_neg k5, if_neg k6, if_neg k7, if_pos k8, if_neg k1, if_neg k2, if_neg k3, if_neg k4, if_neg k5, if_neg k6, if_neg k7, if_pos k8]
  rw [if_neg k8]
  by_cases k9 : k = str "data"
  · rw [if_pos k9]
    unfold Event.member memberValue
    rw [if_neg k1, if_neg k2, if_neg k3, if_neg k4, if_neg k5, if_neg k6, if_neg k7, if_neg k8, if_pos k9, if_neg k1, if_neg k2, if_neg k3, if_neg k4, if_neg k5, if_neg k6, if_neg k7, if_neg k8, if_pos k9]
  rw [if_neg k9]
  unfold Event.member memberValue
  rw [if_neg k1, if_neg k2, if_neg k3, if_neg k4, if_neg k5, if_neg k6, if_neg k7, if_neg k8, if_neg k9, if_neg k1, if_neg k2, if_neg k3, if_neg k4, if_neg k5, if_neg k6, if_neg k7, if_neg k8, if_neg k9]
  show (mapSet event.Extensions k (v.getD [])).lookup k = some (v.getD [])
  rw [lookup_mapSet, if_pos rfl]

theorem structuredStep_DataObject (event : Event) (k : Bytes) (v : Option Bytes) :
    (structuredStep event (k, v)).DataObject = event.DataObject := by
  unfold structuredStep
  dsimp only
  by_cases k1 : k = str "specversion"
  · rw [if_pos k1]
  rw [if_neg k1]
  by_cases k2 : k = str "datacontenttype"
  · rw [if_pos k2]
  rw [if_neg k2]
  by_cases k3 : k = str "type"
  · rw [if_pos k3]
  rw [if_neg k3]
  by_cases k4 : k = str "source"
  · rw [if_pos k4]
  rw [if_neg k4]
  by_cases k5 : k = str "subject"
  · rw [if_pos k5]
  rw [if_neg k5]
  by_cases k6 : k = str "id"
  · rw [if_pos k6]
  rw [if_neg k6]
  by_cases k7 : k = str "time"
  · rw [if_pos k7]
  rw [if_neg k7]
  by_cases k8 : k = str "schemaurl"
  · rw [if_pos k8]
  rw [if_neg k8]
  by_cases k9 : k = str "data"
  · rw [if_pos k9]
  rw [if_neg k9]

theorem structuredStep_Extensions_key (event : Event) (k : Bytes) (v : Option Bytes)
    (e : Bytes × Bytes) (he : e ∈ (structuredStep event (k, v)).Extensions) :
    e ∈ event.Extensions ∨ (e.1 = k ∧ k ∉ attributeNames ∧ k ≠ str "data") := by
  unfold structuredStep at he
  dsimp only at he
  by_cases k1 : k = str "specversion"
  · rw [if_pos k1] at he; exact Or.inl he
  rw [if_neg k1] at he
  by_cases k2 : k = str "datacontenttype"
  · rw [if_pos k2] at he; exact Or.inl he
  rw [if_neg k2] at he
  by_cases k3 : k = str "type"
  · rw [if_pos k3] at he; exact Or.inl he
  rw [if_neg k3] at he
  by_cases k4 : k = str "source"
  · rw [if_pos k4] at he; exact Or.inl he
  rw [if_neg k4] at he
  by_cases k5 : k = str "subject"
  · rw [if_pos k5] at he; exact Or.inl he
  rw [if_neg k5] at he
  by_cases k6 : k = str "id"
  · rw [if_pos k6] at he; exact Or.inl he
  rw [if_neg k6] at he
  by_cases k7 : k = str "time"
  · rw [if_pos k7] at he; exact Or.inl he
  rw [if_neg k7] at he
  by_cases k8 : k = str "schemaurl"
  · rw [if_pos k8] at he; exact Or.inl he
  rw [if_neg k8] at he
  by_cases k9 : k = str "data"
  · rw [if_pos k9] at he; exact Or.inl he
  rw [if_neg k9] at he
  rcases mem_mapSet _ _ _ _ he with h | h
  · exact Or.inl h
  · refine Or.inr ⟨by rw [h], ?_, k9⟩
    unfold attributeNames
    simp only [List.mem_cons, List.mem_singleton, List.not_mem_nil, or_false, not_or]
    exact ⟨k1, k3, k4, k5, k6, k7, k8, k2⟩

theorem member_named (event : Event) :
    event.member (str "specversion") = some event.SpecVersion ∧
    event.member (str "datacontenttype") = some event.DataContentType ∧
    event.member (str "type") = some event.Type_ ∧
    event.member (str "source") = some event.Source ∧
    event.member (str "subject") = some event.Subject ∧
    event.member (str "id") = some event.ID ∧
    event.member (str "time") = some event.Time ∧
    event.member (str "schemaurl") = some event.SchemaURL ∧
    event.member (str "data") = event.Data := by
  refine ⟨?_, ?_, ?_, ?_, ?_, ?_, ?_, ?_, ?_⟩ <;> unfold Event.member
  · rw [if_pos rfl]
  · rw [if_neg (by decide), if_pos rfl]
  · rw [if_neg (by decide), if_neg (by decide), if_pos rfl]
  · rw [if_neg (by decide), if_neg (by decide), if_neg (by decide), if_pos rfl]
  · rw [if_neg (by decide), if_neg (by decide), if_neg (by decide), if_neg (by decide), if_pos rfl]
  · rw [if_neg (by decide), if_neg (by decide), if_neg (by decide), if_neg (by decide), if_neg (by decide), if_pos rfl]
  · rw [if_neg (by decide), if_neg (by decide), if_neg (by decide), if_neg (by decide), if_neg (by decide), if_neg (by decide), if_pos rfl]
  · rw [if_neg (by decide), if_neg (by decide), if_neg (by decide), if_neg (by decide), if_neg (by decide), if_neg (by decide), if_neg (by decide), if_pos rfl]
  · rw [if_neg (by decide), if_neg (by decide), if_neg (by decide), if_neg (by decide), if_neg (by decide), if_neg (by decide), if_neg (by decide), if_neg (by decide), if_pos rfl]

theorem member_extension (event : Event) (n : Bytes) (h : n ∉ attributeNames)
    (hd : n ≠ str "data") : event.member n = event.Extensions.lookup n := by
  unfold attributeNames at h
  simp only [List.mem_cons, List.mem_singleton, List.not_mem_nil, not_or, or_false] at h
  obtain ⟨h1, h2, h3, h4, h5, h6, h7, h8⟩ := h
  unfold Event.member
  rw [if_neg h1, if_neg h8, if_neg h2, if_neg h3, if_neg h4, if_neg h5, if_neg h6, if_neg h7,
    if_neg hd]

theorem named_eq_of_member (a b : Event) (h : ∀ n, a.member n = b.member n) :
    a.named = b.named ∧ a.Data = b.Data := by
  obtain ⟨a1, a2, a3, a4, a5, a6, a7, a8, a9⟩ := member_named a
  obtain ⟨b1, b2, b3, b4, b5, b6, b7, b8, b9⟩ := member_named b
  have e1 := h (str "specversion")
  have e2 := h (str "datacontenttype")
  have e3 := h (str "type")
  have e4 := h (str "source")
  have e5 := h (str "subject")
  have e6 := h (str "id")
  have e7 := h (str "time")
  have e8 := h (str "schemaurl")
  have e9 := h (str "data")
  rw [a1, b1] at e1
  rw [a2, b2] at e2
  rw [a3, b3] at e3
  rw [a4, b4] at e4
  rw [a5, b5] at e5
  rw [a6, b6] at e6
  rw [a7, b7] at e7
  rw [a8, b8] at e8
  rw [a9, b9] at e9
  refine ⟨?_, e9⟩
  unfold Event.named
  rw [Option.some.inj e1, Option.some.inj e2, Option.some.inj e3, Option.some.inj e4,
    Option.some.inj e5, Option.some.inj e6, Option.some.inj e7, Option.some.inj e8]

theorem structuredFold_member (l : List (Bytes × Option Bytes))
    (hnd : (l.map Prod.fst).Nodup) :
    ∀ event : Event,
      (∀ k v, (k, v) ∈ l → (l.foldl structuredStep event).member k = memberValue k v) ∧
      (∀ n, n ∉ l.map Prod.fst → (l.foldl structuredStep event).member n = event.member n) ∧
      (l.foldl structuredStep event).DataObject = event.DataObject := by
  induction l with
  | nil =>
    intro event
    refine ⟨?_, ?_, ?_⟩
    · intro k v hm
      cases hm
    · intro n _
      rfl
    · rfl
  | cons e rest ih =>
    intro event
    obtain ⟨k0, v0⟩ := e
    rw [List.map_cons, List.nodup_cons] at hnd
    obtain ⟨hset, hframe, hdo⟩ := ih hnd.2 (structuredStep event (k0, v0))
    rw [List.foldl_cons]
    refine ⟨?_, ?_, ?_⟩
    · intro k v hm
      rcases List.mem_cons.mp hm with heq | hm1
      · injection heq with e1 e2
        subst e1; subst e2
        rw [hframe k hnd.1]
        exact member_structuredStep_self _ _ _
      · exact hset k v hm1
    · intro n hn
      rw [List.map_cons, List.mem_cons, not_or] at hn
      rw [hframe n hn.2]
      exact member_structuredStep_ne _ _ _ _ hn.1
    · rw [hdo]
      exact structuredStep_DataObject _ _ _

theorem structuredFold_Extensions_keys (l : List (Bytes × Option Bytes)) :
    ∀ event : Event,
      (∀ e ∈ event.Extensions, e.1 ∉ attributeNames ∧ e.1 ≠ str "data") →
      ∀ e ∈ (l.foldl structuredStep event).Extensions,
        e.1 ∉ attributeNames ∧ e.1 ≠ str "data" := by
  induction l with
  | nil => intro event hinv; exact hinv
  | cons x rest ih =>
    intro event hinv
    obtain ⟨k0, v0⟩ := x
    rw [List.foldl_cons]
    apply ih
    intro e he
    rcases structuredStep_Extensions_key _ _ _ _ he with h1 | ⟨h1, h2, h3⟩
    · exact hinv e h1
    · rw [h1]; exact ⟨h2, h3⟩

theorem structuredFold_order (l1 l2 : List (Bytes × Option Bytes)) (hperm : l1.Perm l2)
    (hnd : (l1.map Prod.fst).Nodup) :
    (l1.foldl structuredStep {}).same (l2.foldl structuredStep {}) := by
  have hnd2 : (l2.map Prod.fst).Nodup := (hperm.map Prod.fst).nodup_iff.mp hnd
  obtain ⟨hset1, hframe1, hdo1⟩ := structuredFold_member l1 hnd {}
  obtain ⟨hset2, hframe2, hdo2⟩ := structuredFold_member l2 hnd2 {}
  have hmem : ∀ n, (l1.foldl structuredStep {}).member n =
      (l2.foldl structuredStep {}).member n := by
    intro n
    by_cases hn : n ∈ l1.map Prod.fst
    · obtain ⟨⟨k, v⟩, hm, heq⟩ := List.mem_map.mp hn
      simp only at heq
      subst heq
      rw [hset1 k v hm, hset2 k v (hperm.mem_iff.mp hm)]
    · rw [hframe1 n hn, hframe2 n (fun h => hn ((hperm.map Prod.fst).mem_iff.mpr h))]
  obtain ⟨hnamed, hdata⟩ := named_eq_of_member _ _ hmem
  refine ⟨hnamed, hdata, by rw [hdo1, hdo2], ?_⟩
  intro k
  have i1 := structuredFold_Extensions_keys l1 {} (fun e he => by cases he)
  have i2 := structuredFold_Extensions_keys l2 {} (fun e he => by cases he)
  by_cases hk : k ∈ attributeNames ∨ k = str "data"
  · rw [lookup_none_of_not_mem _ k (fun e he heq => by
        rcases hk with h | h
        · exact (i1 e he).1 (by rw [heq]; exact h)
        · exact (i1 e he).2 (by rw [heq]; exact h)),
      lookup_none_of_not_mem _ k (fun e he heq => by
        rcases hk with h | h
        · exact (i2 e he).1 (by rw [heq]; exact h)
        · exact (i2 e he).2 (by rw [heq]; exact h))]
  · rw [not_or] at hk
    have e := hmem k
    rw [member_extension _ _ hk.1 hk.2, member_extension _ _ hk.1 hk.2] at e
    exact e

theorem mapSet_keys {β : Type} (m : List (Bytes × β)) (k : Bytes) (v : β) :
    (mapSet m k v).map Prod.fst =
      if k ∈ m.map Prod.fst then m.map Prod.fst else m.map Prod.fst ++ [k] := by
  induction m with
  | nil => simp [mapSet]
  | cons e rest ih =>
    obtain ⟨k1, v1⟩ := e
    unfold mapSet
    by_cases h1 : k1 = k
    · rw [if_pos h1]
      simp [h1]
    · rw [if_neg h1, List.map_cons, ih]
      have h2 : k ≠ k1 := fun e => h1 e.symm
      by_cases hm : k ∈ rest.map Prod.fst
      · simp [hm]
      · simp [hm, h2]

theorem mapSet_nodup {β : Type} (m : List (Bytes × β)) (k : Bytes) (v : β)
    (h : (m.map Prod.fst).Nodup) : ((mapSet m k v).map Prod.fst).Nodup := by
  rw [mapSet_keys]
  by_cases hm : k ∈ m.map Prod.fst
  · rw [if_pos hm]; exact h
  · rw [if_neg hm]
    exact List.Nodup.append h (List.nodup_singleton k)
      (by
        intro a ha hk
        rw [List.mem_singleton] at hk
        rw [hk] at ha
        exact hm ha)

theorem foldl_mapSet_nodup {α β : Type} (f : α → Bytes × β) (l : List α) :
    ∀ m : List (Bytes × β), (m.map Prod.fst).Nodup →
      ((l.foldl (fun acc a => mapSet acc (f a).1 (f a).2) m).map Prod.fst).Nodup := by
  induction l with
  | nil => intro m hm; exact hm
  | cons a rest ih =>
    intro m hm
    rw [List.foldl_cons]
    exact ih _ (mapSet_nodup m _ _ hm)

theorem unmarshalByteMap_nodup (data : Bytes) (ceMap : List (Bytes × Option Bytes))
    (h : unmarshalByteMap data = Except.ok ceMap) : (ceMap.map Prod.fst).Nodup := by
  unfold unmarshalByteMap at h
  split at h
  · split at h
    · dsimp only at h
      split at h
      · cases h
      · injection h with h1
        rw [← h1]
        exact foldl_mapSet_nodup (fun kv : Bytes × Option Bytes × Option GoError =>
          (kv.1, kv.2.1)) _ [] List.nodup_nil
    · injection h with h1
      rw [← h1]
      exact List.nodup_nil
    · cases h
  · cases h

/-! ## Lemmas: the scanner on the text that `json.Marshal` writes -/

theorem scanString_plain_cons (c : Nat) (X : Bytes) (h1 : 32 ≤ c) (h2 : c ≠ 34) (h3 : c ≠ 92) :
    scanString (c :: X) = scanString X := by
  rw [scanString.eq_def]
  split
  · rename_i h; cases h
  · rename_i h; injection h with h; exact absurd h h2
  · rename_i h; injection h with h; exact absurd h h3
  · rename_i h; injection h with h; exact absurd h h3
  · rename_i c1 rest _ _ _ h
    injection h with ha hb
    subst ha hb
    rw [if_neg (by omega)]

theorem scanString_quote (X : Bytes) : scanString (34 :: X) = some X := by
  rw [scanString.eq_def]

theorem scanString_escape (c : Nat) (X : Bytes)
    (h : [34, 92, 47, 98, 102, 110, 114, 116].contains c = true) :
    scanString (92 :: c :: X) = scanString X := by
  have hc : c ≠ 117 := by
    intro e; rw [e] at h; revert h; decide
  rw [scanString.eq_def]
  split
  · rename_i h; cases h
  · rename_i h; injection h with h; cases h
  · rename_i h
    injection h with _ h
    injection h with h _
    exact absurd h hc
  · rename_i c1 rest _ h1
    injection h1 with _ h1
    injection h1 with ha hb
    subst ha hb
    rw [if_pos h]
  · rename_i c1 rest _ _ h2 h1
    exfalso
    injection h1 with ha hb
    exact h2 c X ha.symm hb.symm

theorem scanString_hex (a b c d : Nat) (X : Bytes)
    (h : (isHex a && isHex b && isHex c && isHex d) = true) :
    scanString (92 :: 117 :: a :: b :: c :: d :: X) = scanString X := by
  rw [scanString.eq_def]
  simp only [h, if_true]


theorem scanString_plain (l X : Bytes) (h : ∀ c ∈ l, 32 ≤ c ∧ c ≠ 34 ∧ c ≠ 92) :
    scanString (l ++ X) = scanString X := by
  induction l with
  | nil => rfl
  | cons c rest ih =>
    have hc := h c (List.mem_cons_self _ _)
    rw [List.cons_append, scanString_plain_cons c _ hc.1 hc.2.1 hc.2.2]
    exact ih (fun c1 h1 => h c1 (List.mem_cons_of_mem _ h1))

theorem isHex_hexDigit (n : Nat) (h : n < 16) : isHex (hexDigit n) = true := by
  unfold isHex isDigit hexDigit
  by_cases h1 : n < 10
  · rw [if_pos h1]
    simp only [Bool.or_eq_true, Bool.and_eq_true, decide_eq_true_eq]
    omega
  · rw [if_neg h1]
    simp only [Bool.or_eq_true, Bool.and_eq_true, decide_eq_true_eq]
    omega

theorem decodeRune_wide (s : Bytes) (h : 2 ≤ (decodeRune s).2) :
    ∀ b ∈ s.take (decodeRune s).2, 0x80 ≤ b := by
  cases s with
  | nil => simp [decodeRune] at h
  | cons a s1 =>
    cases s1 with
    | nil =>
      simp only [decodeRune] at h
      split_ifs at h <;> simp at h
    | cons b s2 =>
      cases s2 with
      | nil =>
        simp only [decodeRune] at h ⊢
        split_ifs at h ⊢ <;> simp at h ⊢
        all_goals (simp only [isCont, Bool.and_eq_true, decide_eq_true_eq] at *; omega)
      | cons c s3 =>
        cases s3 with
        | nil =>
          simp only [decodeRune] at h ⊢
          split_ifs at h ⊢ <;> simp at h ⊢
          all_goals (simp only [isCont, Bool.and_eq_true, decide_eq_true_eq] at *; omega)
        | cons d s4 =>
          simp only [decodeRune] at h ⊢
          split_ifs at h ⊢ <;> simp at h ⊢
          all_goals (simp only [isCont, Bool.and_eq_true, decide_eq_true_eq] at *; omega)


theorem scanString_encodeString (n : Nat) :
    ∀ (fuel : Nat) (s X : Bytes), s.length ≤ n → s.length ≤ fuel →
      scanString (encodeString fuel s ++ 34 :: X) = some X := by
  induction n using Nat.strong_induction_on with
  | _ n ih =>
    intro fuel s X hn hf
    cases s with
    | nil =>
      cases fuel <;> exact scanString_quote X
    | cons c rest =>
      cases fuel with
      | zero => simp at hf
      | succ fuel =>
        simp only [List.length_cons] at hn hf
        have ihr : ∀ t : Bytes, t.length ≤ rest.length →
            scanString (encodeString fuel t ++ 34 :: X) = some X :=
          fun t ht => ih rest.length (by omega) fuel t X ht (by omega)
        unfold encodeString
        by_cases h1 : c < 0x80
        · rw [if_pos h1, List.append_assoc]
          by_cases h2 : c = 92 ∨ c = 34
          · rw [if_pos h2]
            have hc : [34, 92, 47, 98, 102, 110, 114, 116].contains c = true := by
              rcases h2 with e | e <;> rw [e] <;> decide
            show scanString (92 :: c :: _) = _
            rw [scanString_escape c _ hc]
            exact ihr rest (le_refl _)
          · rw [if_neg h2]
            by_cases h3 : c = 8
            · rw [if_pos h3]
              show scanString (92 :: 98 :: _) = _
              rw [scanString_escape 98 _ (by decide)]
              exact ihr rest (le_refl _)
            · rw [if_neg h3]
              by_cases h4 : c = 12
              · rw [if_pos h4]
                show scanString (92 :: 102 :: _) = _
                rw [scanString_escape 102 _ (by decide)]
                exact ihr rest (le_refl _)
              · rw [if_neg h4]
                by_cases h5 : c = 10
                · rw [if_pos h5]
                  show scanString (92 :: 110 :: _) = _
                  rw [scanString_escape 110 _ (by decide)]
                  exact ihr rest (le_refl _)
                · rw [if_neg h5]
                  by_cases h6 : c = 13
                  · rw [if_pos h6]
                    show scanString (92 :: 114 :: _) = _
                    rw [scanString_escape 114 _ (by decide)]
                    exact ihr rest (le_refl _)
                  · rw [if_neg h6]
                    by_cases h7 : c = 9
                    · rw [if_pos h7]
                      show scanString (92 :: 116 :: _) = _
                      rw [scanString_escape 116 _ (by decide)]
                      exact ihr rest (le_refl _)
                    · rw [if_neg h7]
                      by_cases h8 : c < 32 ∨ c = 60 ∨ c = 62 ∨ c = 38
                      · rw [if_pos h8]
                        unfold escapeByte
                        show scanString (92 :: 117 :: 48 :: 48 :: _ :: _ :: _) = _
                        rw [scanString_hex]
                        · exact ihr rest (le_refl _)
                        · rw [isHex_hexDigit _ (by omega), isHex_hexDigit _ (by omega)]
                          decide
                      · rw [if_neg h8]
                        show scanString (c :: _) = _
                        rw [scanString_plain_cons c _ (by omega) (by omega) (by omega)]
                        exact ihr rest (le_refl _)
        · rw [if_neg h1]
          simp only
          have hw := decodeRune_width_pos c rest
          have hl : ((c :: rest).drop (decodeRune (c :: rest)).2).length ≤ rest.length := by
            rw [List.length_drop, List.length_cons]; omega
          by_cases h2 : (decodeRune (c :: rest)).2 ≤ 1
          · rw [if_pos h2, List.append_assoc]
            have e : str "\\ufffd" = [92, 117, 102, 102, 102, 100] := by decide
            rw [e]
            show scanString (92 :: 117 :: 102 :: 102 :: 102 :: 100 :: _) = _
            rw [scanString_hex _ _ _ _ _ (by decide)]
            exact ihr rest (le_refl _)
          · rw [if_neg h2]
            by_cases h3 : (decodeRune (c :: rest)).1 = 0x2028 ∨ (decodeRune (c :: rest)).1 = 0x2029
            · rw [if_pos h3, List.append_assoc, List.append_assoc]
              have e : str "\\u202" = [92, 117, 50, 48, 50] := by decide
              rw [e]
              show scanString (92 :: 117 :: 50 :: 48 :: 50 :: _ :: _) = _
              rw [scanString_hex]
              · exact ihr _ hl
              · rw [isHex_hexDigit _ (Nat.mod_lt _ (by decide))]
                decide
            · rw [if_neg h3, List.append_assoc]
              rw [scanString_plain]
              · exact ihr _ hl
              · intro b hb
                have := decodeRune_wide (c :: rest) (by omega) b hb
                omega

theorem quote_append (s X : Bytes) :
    quote s ++ X = 34 :: (encodeString s.length s ++ 34 :: X) := by
  unfold quote
  simp only [List.singleton_append, List.cons_append, List.append_assoc, List.nil_append]

theorem base64Char_plain (n : Nat) :
    32 ≤ base64Char n ∧ base64Char n ≠ 34 ∧ base64Char n ≠ 92 := by
  unfold base64Char
  split_ifs <;> omega

theorem base64Encode_plain (n : Nat) :
    ∀ b : Bytes, b.length ≤ n → ∀ c ∈ base64Encode b, 32 ≤ c ∧ c ≠ 34 ∧ c ≠ 92 := by
  induction n using Nat.strong_induction_on with
  | _ n ih =>
    intro b hb c hc
    match b, hb, hc with
    | [], _, hc => simp [base64Encode] at hc
    | [a], _, hc =>
      simp only [base64Encode, List.mem_cons, List.mem_singleton, List.not_mem_nil, or_false] at hc
      rcases hc with e | e | e | e <;> rw [e] <;> first | exact base64Char_plain _ | decide
    | [a, b1], _, hc =>
      simp only [base64Encode, List.mem_cons, List.mem_singleton, List.not_mem_nil, or_false] at hc
      rcases hc with e | e | e | e <;> rw [e] <;> first | exact base64Char_plain _ | decide
    | a :: b1 :: c1 :: rest, hb, hc =>
      simp only [base64Encode, List.mem_append, List.mem_cons, List.mem_singleton,
        List.not_mem_nil, or_false] at hc
      simp only [List.length_cons] at hb
      rcases hc with (e | e | e | e) | e
      · rw [e]; exact base64Char_plain _
      · rw [e]; exact base64Char_plain _
      · rw [e]; exact base64Char_plain _
      · rw [e]; exact base64Char_plain _
      · exact ih rest.length (by omega) rest (le_refl _) c e


theorem skipSpace_cons (c : Nat) (X : Bytes) (h : isSpace c = false) :
    skipSpace (c :: X) = c :: X := by
  unfold skipSpace
  rw [h]
  rfl

theorem scanValue_quoted (fuel depth : Nat) (body Z : Bytes)
    (h : scanString (body ++ Z) = some Z) :
    scanValue (fuel + 1) depth (34 :: body ++ Z) = some Z := by
  rw [scanValue]
  rw [List.cons_append, skipSpace_cons 34 _ (by decide)]
  exact h

theorem scanValue_encoded (fuel depth : Nat) (jv : JSONValue) (v Z : Bytes)
    (hraw : ∀ d, jv ≠ JSONValue.rawMessage d) (hv : encodeValue jv = Except.ok v) :
    scanValue (fuel + 1) depth (v ++ Z) = some Z := by
  cases jv with
  | string s =>
    unfold encodeValue at hv
    injection hv with hv
    rw [← hv, quote_append]
    have := scanValue_quoted fuel depth (encodeString s.length s ++ [34]) Z (by
      rw [List.append_assoc]
      exact scanString_encodeString s.length s.length s Z (le_refl _) (le_refl _))
    simpa using this
  | rawMessage d => exact absurd rfl (hraw d)
  | byteSlice b =>
    unfold encodeValue at hv
    injection hv with hv
    rw [← hv]
    have := scanValue_quoted fuel depth (base64Encode b ++ [34]) Z (by
      rw [List.append_assoc, scanString_plain _ _ (base64Encode_plain b.length b (le_refl _))]
      exact scanString_quote Z)
    simpa using this

theorem scanMembers_encoded (l : List (Bytes × JSONValue)) :
    ∀ (t : Bytes) (fuel : Nat), l ≠ [] → (∀ kv ∈ l, ∀ d, kv.2 ≠ JSONValue.rawMessage d) →
      encodeMembers l = Except.ok t → l.length < fuel →
      scanMembers fuel 1 (t.drop 1 ++ [125]) = some [] := by
  induction l with
  | nil => intro t fuel h; exact absurd rfl h
  | cons kv rest ih =>
    intro t fuel _ hraw ht hfuel
    unfold encodeMembers at ht
    cases hv : encodeValue kv.2 with
    | error e => rw [hv] at ht; simp only at ht; cases ht
    | ok v =>
      cases hr : encodeMembers rest with
      | error e => rw [hv, hr] at ht; simp only at ht; cases ht
      | ok out =>
        rw [hv, hr] at ht
        simp only at ht
        injection ht with ht
        rw [← ht]
        cases fuel with
        | zero => simp at hfuel
        | succ fuel =>
          simp only [List.length_cons] at hfuel
          cases fuel with
          | zero => omega
          | succ fuel =>
            have e : ([44] ++ quote kv.1 ++ [58] ++ v ++ out).drop 1 ++ [125] =
                34 :: (encodeString kv.1.length kv.1 ++ 34 :: 58 :: (v ++ (out ++ [125]))) := by
              simp only [List.singleton_append, List.drop_succ_cons, List.drop_zero,
                List.append_assoc, List.cons_append, quote, List.nil_append]
            rw [e, scanMembers, skipSpace_cons 34 _ (by decide)]
            simp only
            rw [scanString_encodeString kv.1.length kv.1.length kv.1 _ (le_refl _) (le_refl _)]
            simp only
            rw [skipSpace_cons 58 _ (by decide)]
            simp only
            rw [scanValue_encoded fuel 1 kv.2 v _ (hraw kv (List.mem_cons_self _ _)) hv]
            simp only
            cases rest with
            | nil =>
              unfold encodeMembers at hr
              injection hr with hr
              rw [← hr]
              rfl
            | cons kv2 rest2 =>
              have ih1 := ih out (fuel + 1) (by simp)
                (fun kv1 h1 => hraw kv1 (List.mem_cons_of_mem _ h1)) hr (by
                  simp only [List.length_cons] at hfuel ⊢; omega)
              -- the text of the remaining members starts with a comma
              have hout : out = 44 :: out.drop 1 := by
                unfold encodeMembers at hr
                cases hv2 : encodeValue kv2.2 with
                | error e => rw [hv2] at hr; simp only at hr; cases hr
                | ok v2 =>
                  cases hr2 : encodeMembers rest2 with
                  | error e => rw [hv2, hr2] at hr; simp only at hr; cases hr
                  | ok out2 =>
                    rw [hv2, hr2] at hr
                    simp only at hr
                    injection hr with hr
                    rw [← hr]
                    rfl
              rw [hout, List.cons_append, skipSpace_cons 44 _ (by decide)]
              simp only
              exact ih1


theorem encodeMembers_length (l : List (Bytes × JSONValue)) :
    ∀ t, encodeMembers l = Except.ok t → l.length ≤ t.length := by
  induction l with
  | nil => intro t _; exact Nat.zero_le _
  | cons kv rest ih =>
    intro t ht
    unfold encodeMembers at ht
    cases hv : encodeValue kv.2 with
    | error e => rw [hv] at ht; simp only at ht; cases ht
    | ok v =>
      cases hr : encodeMembers rest with
      | error e => rw [hv, hr] at ht; simp only at ht; cases ht
      | ok out =>
        rw [hv, hr] at ht
        simp only at ht
        injection ht with ht
        rw [← ht]
        have := ih out hr
        simp only [List.length_append, List.length_cons, List.length_nil]
        omega

theorem encodeMembers_head (l : List (Bytes × JSONValue)) (t : Bytes) (hl : l ≠ [])
    (h : encodeMembers l = Except.ok t) : ∃ r, t.drop 1 = 34 :: r := by
  cases l with
  | nil => exact absurd rfl hl
  | cons kv rest =>
    unfold encodeMembers at h
    cases hv : encodeValue kv.2 with
    | error e => rw [hv] at h; simp only at h; cases h
    | ok v =>
      cases hr : encodeMembers rest with
      | error e => rw [hv, hr] at h; simp only at h; cases h
      | ok out =>
        rw [hv, hr] at h
        simp only at h
        injection h with h
        rw [← h]
        refine ⟨encodeString kv.1.length kv.1 ++ 34 :: 58 :: (v ++ out), ?_⟩
        simp only [quote, List.singleton_append, List.drop_succ_cons, List.drop_zero,
          List.cons_append, List.append_assoc, List.nil_append]

theorem checkValid_encoded (l : List (Bytes × JSONValue)) (t : Bytes)
    (hraw : ∀ kv ∈ l, ∀ d, kv.2 ≠ JSONValue.rawMessage d)
    (h : encodeMembers l = Except.ok t) :
    checkValid ([123] ++ t.drop 1 ++ [125]) = true := by
  unfold checkValid
  have e : [123] ++ t.drop 1 ++ [125] = 123 :: (t.drop 1 ++ [125]) := by simp
  rw [e, scanValue, skipSpace_cons 123 _ (by decide)]
  simp only
  rw [if_neg (by decide)]
  cases l with
  | nil =>
    unfold encodeMembers at h
    injection h with h
    rw [← h]
    rfl
  | cons kv rest =>
    obtain ⟨r, hr⟩ := encodeMembers_head _ t (by simp) h
    have hs := scanMembers_encoded (kv :: rest) t (123 :: (t.drop 1 ++ [125])).length (by simp)
      hraw h (by
        have := encodeMembers_length _ t h
        simp only [List.length_append, List.length_drop, List.length_cons, List.length_nil] at this ⊢
        omega)
    rw [hr] at hs ⊢
    rw [List.cons_append, skipSpace_cons 34 _ (by decide)]
    simp only [List.cons_append, Nat.zero_add] at hs ⊢
    rw [hs]
    rfl

theorem MarshalIndent_strings (m : List (Bytes × JSONValue))
    (hraw : ∀ kv ∈ m, ∀ d, kv.2 ≠ JSONValue.rawMessage d) :
    ∃ out, MarshalIndent m = Except.ok out := by
  unfold MarshalIndent
  cases hj : jsonMarshal m with
  | error e =>
    obtain ⟨k, d, hmem, -, -⟩ := jsonMarshal_error m e hj
    exact absurd rfl (hraw _ hmem d)
  | ok out =>
    simp only
    unfold jsonMarshal at hj
    cases hm : encodeMembers (sortedEntries m) with
    | error e => rw [hm] at hj; cases hj
    | ok t =>
      rw [hm] at hj
      simp only at hj
      injection hj with hj
      have hv := checkValid_encoded (sortedEntries m) t
        (fun kv hkv => hraw kv (mem_sortedEntries _ _ hkv)) hm
      rw [hj] at hv
      rw [if_pos hv]
      exact ⟨_, rfl⟩

theorem mem_insertSorted_of (kv e : Bytes × JSONValue) (l : List (Bytes × JSONValue))
    (h : e = kv ∨ e ∈ l) : e ∈ insertSorted kv l := by
  induction l with
  | nil =>
    rcases h with h | h
    · rw [h]; exact List.mem_singleton.mpr rfl
    · cases h
  | cons x rest ih =>
    unfold insertSorted
    by_cases hlt : bytesLt kv.1 x.1 = true
    · rw [if_pos hlt]
      rcases h with h | h
      · rw [h]; exact List.mem_cons_self _ _
      · exact List.mem_cons_of_mem _ h
    · rw [if_neg hlt]
      rcases h with h | h
      · exact List.mem_cons_of_mem _ (ih (Or.inl h))
      · rcases List.mem_cons.mp h with h1 | h1
        · rw [h1]; exact List.mem_cons_self _ _
        · exact List.mem_cons_of_mem _ (ih (Or.inr h1))

theorem mem_sortedEntries_of (m : List (Bytes × JSONValue)) (e : Bytes × JSONValue)
    (h : e ∈ m) : e ∈ sortedEntries m := by
  induction m with
  | nil => cases h
  | cons x rest ih =>
    unfold sortedEntries
    rw [List.foldr_cons]
    rcases List.mem_cons.mp h with h1 | h1
    · exact mem_insertSorted_of _ _ _ (Or.inl h1)
    · exact mem_insertSorted_of _ _ _ (Or.inr (ih h1))

theorem encodeMembers_fails (l : List (Bytes × JSONValue)) (kv : Bytes × JSONValue)
    (e : GoError) (hkv : kv ∈ l) (he : encodeValue kv.2 = Except.error e) :
    ∃ e1, encodeMembers l = Except.error e1 := by
  induction l with
  | nil => cases hkv
  | cons x rest ih =>
    unfold encodeMembers
    cases hv : encodeValue x.2 with
    | error e2 => cases encodeMembers rest <;> exact ⟨e2, rfl⟩
    | ok v =>
      rcases List.mem_cons.mp hkv with h1 | h1
      · rw [h1, hv] at he; cases he
      · obtain ⟨e1, h2⟩ := ih h1
        rw [h2]
        exact ⟨e1, rfl⟩

theorem MarshalIndent_invalid (m : List (Bytes × JSONValue)) (k d : Bytes)
    (hmem : (k, JSONValue.rawMessage d) ∈ m) (hd : checkValid d = false) :
    MarshalIndent m = Except.error GoError.jsonMarshaler := by
  have he : encodeValue (k, JSONValue.rawMessage d).2 = Except.error GoError.jsonMarshaler := by
    simp only [encodeValue, hd]
    rfl
  obtain ⟨e1, h1⟩ := encodeMembers_fails (sortedEntries m) _ _ (mem_sortedEntries_of m _ hmem) he
  have hj : jsonMarshal m = Except.error e1 := by
    unfold jsonMarshal
    rw [h1]
  obtain ⟨_, _, _, _, h2⟩ := jsonMarshal_error m e1 hj
  unfold MarshalIndent
  rw [hj, h2]

/-! ## Lemmas: the members of the text that `Marshal` writes -/

theorem lookup_cons_eq {β : Type} (k k0 : Bytes) (v : β) (l : List (Bytes × β)) :
    List.lookup k ((k0, v) :: l) = if k = k0 then some v else List.lookup k l := by
  by_cases h : k = k0
  · simp [List.lookup, h]
  · have : (k == k0) = false := by simpa using h
    simp [List.lookup, h, this]

theorem encodeMembers_members (l : List (Bytes × JSONValue)) :
    ∀ t, encodeMembers l = Except.ok t →
      ∃ ms : List (Bytes × Bytes), t = membersText ms ∧ ms.map Prod.fst = l.map Prod.fst ∧
        (∀ k, ms.lookup k = (l.lookup k).bind (fun jv => (encodeValue jv).toOption)) ∧
        ∀ mv ∈ ms, ∃ jv, (mv.1, jv) ∈ l ∧ encodeValue jv = Except.ok mv.2 := by
  induction l with
  | nil =>
    intro t ht
    unfold encodeMembers at ht
    injection ht with ht
    exact ⟨[], ht.symm, rfl, fun k => rfl, fun mv hmv => by cases hmv⟩
  | cons kv rest ih =>
    intro t ht
    unfold encodeMembers at ht
    cases hv : encodeValue kv.2 with
    | error e => rw [hv] at ht; simp only at ht; cases ht
    | ok v =>
      cases hr : encodeMembers rest with
      | error e => rw [hv, hr] at ht; simp only at ht; cases ht
      | ok out =>
        rw [hv, hr] at ht
        simp only at ht
        injection ht with ht
        obtain ⟨ms, h1, h2, h3, h4⟩ := ih out hr
        refine ⟨(kv.1, v) :: ms, ?_, ?_, ?_, ?_⟩
        · rw [← ht, h1]; rfl
        · rw [List.map_cons, List.map_cons, h2]
        · intro k
          obtain ⟨k0, jv⟩ := kv
          simp only
          rw [lookup_cons_eq, lookup_cons_eq]
          by_cases hk : k = k0
          · rw [if_pos hk, if_pos hk]
            simp only [Option.some_bind]
            rw [hv]
            rfl
          · rw [if_neg hk, if_neg hk]
            exact h3 k
        · intro mv hmv
          rcases List.mem_cons.mp hmv with e | e
          · rw [e]
            exact ⟨kv.2, List.mem_cons_self _ _, hv⟩
          · obtain ⟨jv, hj1, hj2⟩ := h4 mv e
            exact ⟨jv, List.mem_cons_of_mem _ hj1, hj2⟩

theorem lookup_insertSorted (kv : Bytes × JSONValue) (l : List (Bytes × JSONValue))
    (h : kv.1 ∉ l.map Prod.fst) (k : Bytes) :
    (insertSorted kv l).lookup k = if k = kv.1 then some kv.2 else l.lookup k := by
  induction l with
  | nil =>
    obtain ⟨k0, v0⟩ := kv
    unfold insertSorted
    rw [lookup_cons_eq]
  | cons x rest ih =>
    obtain ⟨k0, v0⟩ := kv
    obtain ⟨k1, v1⟩ := x
    simp only [List.map_cons, List.mem_cons, not_or] at h
    unfold insertSorted
    by_cases hlt : bytesLt k0 k1 = true
    · simp only [hlt, if_true]
      rw [lookup_cons_eq]
    · simp only [hlt, Bool.false_eq_true, if_false]
      rw [lookup_cons_eq, lookup_cons_eq, ih h.2]
      by_cases hk1 : k = k1
      · have hk0 : k ≠ k0 := fun e => h.1 (by rw [← e, hk1])
        rw [if_pos hk1, if_neg hk0, if_pos hk1]
      · rw [if_neg hk1, if_neg hk1]

theorem keys_sortedEntries (m : List (Bytes × JSONValue)) (k : Bytes)
    (h : k ∈ (sortedEntries m).map Prod.fst) : k ∈ m.map Prod.fst := by
  obtain ⟨e, he, hk⟩ := List.mem_map.mp h
  exact List.mem_map.mpr ⟨e, mem_sortedEntries m e he, hk⟩

theorem lookup_sortedEntries (m : List (Bytes × JSONValue)) (hnd : (m.map Prod.fst).Nodup)
    (k : Bytes) : (sortedEntries m).lookup k = m.lookup k := by
  induction m with
  | nil => rfl
  | cons x rest ih =>
    rw [List.map_cons, List.nodup_cons] at hnd
    have e : sortedEntries (x :: rest) = insertSorted x (sortedEntries rest) := rfl
    rw [e, lookup_insertSorted x _ (fun hx => hnd.1 (keys_sortedEntries rest _ hx)), ih hnd.2]
    obtain ⟨k0, v0⟩ := x
    rw [lookup_cons_eq]

theorem nodup_sortedEntries (m : List (Bytes × JSONValue)) (hnd : (m.map Prod.fst).Nodup) :
    ((sortedEntries m).map Prod.fst).Nodup := by
  induction m with
  | nil => exact List.nodup_nil
  | cons x rest ih =>
    rw [List.map_cons, List.nodup_cons] at hnd
    have e : sortedEntries (x :: rest) = insertSorted x (sortedEntries rest) := rfl
    rw [e]
    have hx : x.1 ∉ (sortedEntries rest).map Prod.fst :=
      fun hx => hnd.1 (keys_sortedEntries rest _ hx)
    have ihr := ih hnd.2
    generalize sortedEntries rest = l at hx ihr
    induction l with
    | nil => simp [insertSorted]
    | cons y l1 ih1 =>
      unfold insertSorted
      simp only [List.map_cons, List.mem_cons, not_or] at hx
      rw [List.map_cons, List.nodup_cons] at ihr
      by_cases hlt : bytesLt x.1 y.1 = true
      · rw [if_pos hlt]
        simp only [List.map_cons, List.nodup_cons, List.mem_cons, not_or]
        exact ⟨⟨hx.1, hx.2⟩, ihr.1, ihr.2⟩
      · rw [if_neg hlt]
        simp only [List.map_cons, List.nodup_cons]
        refine ⟨?_, ih1 hx.2 ihr.2⟩
        intro hy
        obtain ⟨e1, he1, hk1⟩ := List.mem_map.mp hy
        rcases mem_insertSorted _ _ _ he1 with h1 | h1
        · rw [h1] at hk1
          exact hx.1 hk1
        · exact ihr.1 (List.mem_map.mpr ⟨e1, h1, hk1⟩)

theorem setNonEmpty_nodup (m : List (Bytes × JSONValue)) (k s : Bytes)
    (h : (m.map Prod.fst).Nodup) : ((setNonEmpty m k s).map Prod.fst).Nodup := by
  unfold setNonEmpty
  by_cases hs : s ≠ []
  · rw [if_pos hs]; exact mapSet_nodup m _ _ h
  · rw [if_neg hs]; exact h

theorem resMap_nodup (event : Event) (m : List (Bytes × JSONValue))
    (h : event.resMap = Except.ok m) : (m.map Prod.fst).Nodup := by
  unfold Event.resMap at h
  have h8 := setNonEmpty_nodup _ (str "datacontenttype") event.DataContentType
    (setNonEmpty_nodup _ (str "schemaurl") event.SchemaURL
    (setNonEmpty_nodup _ (str "time") event.Time
    (setNonEmpty_nodup _ (str "id") event.ID
    (setNonEmpty_nodup _ (str "subject") event.Subject
    (setNonEmpty_nodup _ (str "source") event.Source
    (setNonEmpty_nodup _ (str "type") event.Type_
    (setNonEmpty_nodup [] (str "specversion") event.SpecVersion List.nodup_nil)))))))
  simp only at h
  cases hD : event.Data with
  | some d =>
    simp only [hD] at h
    injection h with h
    rw [← h]
    exact foldl_mapSet_nodup (fun kv : Bytes × Bytes => (ToLower kv.1, JSONValue.string kv.2))
      _ _ (mapSet_nodup _ _ _ h8)
  | none =>
    cases hO : event.DataObject with
    | none =>
      simp only [hD, hO] at h
      injection h with h
      rw [← h]
      exact foldl_mapSet_nodup (fun kv : Bytes × Bytes => (ToLower kv.1, JSONValue.string kv.2))
        _ _ h8
    | some o =>
      cases o with
      | encodes j =>
        simp only [hD, hO] at h
        injection h with h
        rw [← h]
        exact foldl_mapSet_nodup (fun kv : Bytes × Bytes => (ToLower kv.1, JSONValue.string kv.2))
          _ _ (mapSet_nodup _ _ _ h8)
      | unsupported e =>
        simp only [hD, hO] at h
        cases h

theorem MarshalIndent_members (m : List (Bytes × JSONValue)) (out : Bytes)
    (hnd : (m.map Prod.fst).Nodup) (h : MarshalIndent m = Except.ok out) :
    ∃ members : List (Bytes × Bytes),
      out = objectText members ∧ (members.map Prod.fst).Nodup ∧
      (∀ k, members.lookup k = (m.lookup k).bind (fun jv => (encodeValue jv).toOption)) ∧
      ∀ mv ∈ members, ∃ jv, (mv.1, jv) ∈ m ∧ encodeValue jv = Except.ok mv.2 := by
  unfold MarshalIndent jsonMarshal at h
  cases hm : encodeMembers (sortedEntries m) with
  | error e => rw [hm] at h; cases h
  | ok t =>
    rw [hm] at h
    simp only at h
    obtain ⟨ms, h1, h2, h3, h4⟩ := encodeMembers_members _ t hm
    refine ⟨ms, ?_, ?_, ?_, ?_⟩
    · split at h
      · injection h with h
        rw [← h, h1]
        rfl
      · cases h
    · rw [h2]; exact nodup_sortedEntries m hnd
    · intro k
      rw [h3 k, lookup_sortedEntries m hnd k]
    · intro mv hmv
      obtain ⟨jv, hj1, hj2⟩ := h4 mv hmv
      exact ⟨jv, mem_sortedEntries m _ hj1, hj2⟩

/-! ## Lemmas: the keys of structured mode, and values that do not decode -/

theorem structuredFold_Extensions_lookup (l : List (Bytes × Option Bytes))
    (hnd : (l.map Prod.fst).Nodup) (k : Bytes) :
    (l.foldl structuredStep {}).Extensions.lookup k =
      if k ∈ attributeNames ∨ k = str "data" then none
      else (l.lookup k).map (fun v => v.getD []) := by
  obtain ⟨hset, hframe, -⟩ := structuredFold_member l hnd {}
  by_cases hk : k ∈ attributeNames ∨ k = str "data"
  · rw [if_pos hk]
    have hkeys := structuredFold_Extensions_keys l {} (fun e he => by cases he)
    apply lookup_none_of_not_mem
    intro e he heq
    have := hkeys e he
    rw [heq] at this
    rcases hk with hk | hk
    · exact this.1 hk
    · exact this.2 hk
  · rw [if_neg hk]
    rw [not_or] at hk
    rw [← member_extension _ _ hk.1 hk.2]
    cases hl : l.lookup k with
    | none =>
      have hn : k ∉ l.map Prod.fst := by
        intro hm
        obtain ⟨e, he, hek⟩ := List.mem_map.mp hm
        have := lookup_of_mem_nodup l k e.2 hnd (by rw [← hek]; exact he)
        rw [hl] at this
        cases this
      rw [hframe k hn, member_extension _ _ hk.1 hk.2]
      rfl
    | some v =>
      rw [hset k v (lookup_mem l k v hl)]
      unfold attributeNames at hk
      simp only [List.mem_cons, List.mem_singleton, List.not_mem_nil, not_or, or_false] at hk
      obtain ⟨⟨h1, h2, h3, h4, h5, h6, h7, h8⟩, hd⟩ := hk
      unfold memberValue
      rw [if_neg h1, if_neg h8, if_neg h2, if_neg h3, if_neg h4, if_neg h5, if_neg h6, if_neg h7,
        if_neg hd]
      rfl

theorem unmarshalBytes_not_decoded (v : Bytes)
    (h : checkValid v = false ∨
      ((unmarshalBytes v).2 ≠ none ∧ (skipSpace v).head? ≠ some 91)) :
    (unmarshalBytes v).1 = some [] ∧ (unmarshalBytes v).2 ≠ none := by
  rcases h with h | ⟨herr, harr⟩
  · unfold unmarshalBytes
    rw [h]
    exact ⟨rfl, by simp⟩
  · exact ⟨unmarshalBytes_error_empty v herr harr, herr⟩

/-! ## The claims -/

/-- C1: for every header set and body, `FromHTTPRequest` returns the flag
`isBinary` true exactly when the value of the `Content-Type` header does not
start with `application/cloudevents+json`.  The only run that returns nothing is
the panic of binary mode on a `ce-` header without values. -/
theorem FromHTTPRequest_isBinary_iff (h : Header) (body : Option Bytes) :
    match FromHTTPRequest { Header := h, Body := body.map ReadCloser.reads } with
    | some res =>
      (res.isBinary = true ↔
        HasPrefix (h.Get (str "Content-Type")) (str "application/cloudevents+json") = false)
    | none =>
      HasPrefix (h.Get (str "Content-Type")) (str "application/cloudevents+json") = false ∧
        ∃ kv ∈ h, HasPrefix (ToLower kv.1) (str "ce-") = true ∧ kv.2 = [] := by
  have hbody : ∃ b, readBody (body.map ReadCloser.reads) = Except.ok b := by
    cases body <;> simp [readBody]
  obtain ⟨b, hb⟩ := hbody
  unfold FromHTTPRequest
  simp only [hb]
  by_cases hct : HasPrefix (h.Get (str "Content-Type")) (str "application/cloudevents+json") = true
  · simp only [hct, if_true]
    cases unmarshalByteMap b <;> simp
  · simp only [hct]
    cases hf : List.foldlM binaryStep ({} : Event) h with
    | none => simpa [hct] using binaryFold_none h _ hf
    | some ev => simp [hct]

/-- C2 (the code at the failing input): the body of the example is valid JSON,
but `ceMap` has the type `map[string][]byte`, so `json.Unmarshal` reads each
string as base64 and rejects every other value; `1.0` is not base64 and the
decoder returns the error.  The code decodes the example only when each value
is the base64 text of the intended JSON fragment. -/
theorem structured_example_rejected :
    checkValid structuredExampleBody = true ∧
    FromHTTPRequest (structuredRequest structuredExampleBody) =
      some { event := none, isBinary := false, err := some GoError.base64Corrupt } ∧
    FromHTTPRequest (structuredRequest structuredExampleBase64) =
      some { event := some { SpecVersion := str "1.0", Type_ := str "com.example.test",
                             Source := str "/test", Data := some (str "\x7b\"x\":1\x7d") },
             isBinary := false, err := none } := by
  decide

/-- C3 (amended): in binary mode, when the body is read without error, every
`ce-` header has a value and no two `ce-` headers have the same lower-cased
name, the request is decoded without error, `Data` is the body, and each `ce-`
header sets the field of its attribute, or the extension of its name, to its
first value. -/
theorem binary_headers_decoded (h : Header) (rc : Option ReadCloser) (body : Bytes)
    (hb : readBody rc = Except.ok body)
    (hct : HasPrefix (h.Get (str "Content-Type")) (str "application/cloudevents+json") = false)
    (hne : ∀ kv ∈ h, isCeHeader kv = true → kv.2 ≠ [])
    (hnd : (ceNames h).Nodup) :
    ∃ event : Event,
      FromHTTPRequest { Header := h, Body := rc } =
        some { event := some event, isBinary := true, err := none } ∧
      event.Data = some body ∧
      ∀ k v vs, (k, v :: vs) ∈ h → HasPrefix (ToLower k) (str "ce-") = true →
        (ToLower k = str "ce-specversion" → event.SpecVersion = v) ∧
        (ToLower k = str "ce-type" → event.Type_ = v) ∧
        (ToLower k = str "ce-source" → event.Source = v) ∧
        (ToLower k = str "ce-subject" → event.Subject = v) ∧
        (ToLower k = str "ce-id" → event.ID = v) ∧
        (ToLower k = str "ce-time" → event.Time = v) ∧
        (ToLower k = str "ce-schemaurl" → event.SchemaURL = v) ∧
        (ToLower k = str "ce-datacontenttype" → event.DataContentType = v) ∧
        ((ToLower k).drop 3 ∉ attributeNames →
          event.Extensions.lookup ((ToLower k).drop 3) = some v) := by
  obtain ⟨ev1, hf, hset, -, -, -⟩ := binaryFold_attribute h hne hnd {}
  refine ⟨{ ev1 with Data := some body }, ?_, rfl, ?_⟩
  · unfold FromHTTPRequest
    simp only [hb, hct, hf]
    rfl
  · intro k v vs hm hce
    have hattr : ({ ev1 with Data := some body } : Event).attribute ((ToLower k).drop 3) = some v :=
      hset k v vs hm hce
    obtain ⟨n1, n2, n3, n4, n5, n6, n7, n8⟩ :=
      attribute_named ({ ev1 with Data := some body } : Event)
    refine ⟨?_, ?_, ?_, ?_, ?_, ?_, ?_, ?_, ?_⟩
    · intro e
      have e3 : (ToLower k).drop 3 = str "specversion" := by rw [e]; decide
      rw [e3, n2] at hattr; exact Option.some.inj hattr
    · intro e
      have e3 : (ToLower k).drop 3 = str "type" := by rw [e]; decide
      rw [e3, n3] at hattr; exact Option.some.inj hattr
    · intro e
      have e3 : (ToLower k).drop 3 = str "source" := by rw [e]; decide
      rw [e3, n4] at hattr; exact Option.some.inj hattr
    · intro e
      have e3 : (ToLower k).drop 3 = str "subject" := by rw [e]; decide
      rw [e3, n5] at hattr; exact Option.some.inj hattr
    · intro e
      have e3 : (ToLower k).drop 3 = str "id" := by rw [e]; decide
      rw [e3, n6] at hattr; exact Option.some.inj hattr
    · intro e
      have e3 : (ToLower k).drop 3 = str "time" := by rw [e]; decide
      rw [e3, n7] at hattr; exact Option.some.inj hattr
    · intro e
      have e3 : (ToLower k).drop 3 = str "schemaurl" := by rw [e]; decide
      rw [e3, n8] at hattr; exact Option.some.inj hattr
    · intro e
      have e3 : (ToLower k).drop 3 = str "datacontenttype" := by rw [e]; decide
      rw [e3, n1] at hattr; exact Option.some.inj hattr
    · intro hx
      rw [attribute_extension _ _ hx] at hattr
      exact hattr

theorem binary_headers_decoded_witness :
    (∃ event : Event,
      FromHTTPRequest binaryExample =
        some { event := some event, isBinary := true, err := none } ∧
      event.Data = some (str "\x7b\"x\":1\x7d") ∧
      ∀ k v vs, (k, v :: vs) ∈ binaryExample.Header →
        HasPrefix (ToLower k) (str "ce-") = true →
        (ToLower k = str "ce-specversion" → event.SpecVersion = v) ∧
        (ToLower k = str "ce-type" → event.Type_ = v) ∧
        (ToLower k = str "ce-source" → event.Source = v) ∧
        (ToLower k = str "ce-subject" → event.Subject = v) ∧
        (ToLower k = str "ce-id" → event.ID = v) ∧
        (ToLower k = str "ce-time" → event.Time = v) ∧
        (ToLower k = str "ce-schemaurl" → event.SchemaURL = v) ∧
        (ToLower k = str "ce-datacontenttype" → event.DataContentType = v) ∧
        ((ToLower k).drop 3 ∉ attributeNames →
          event.Extensions.lookup ((ToLower k).drop 3) = some v)) ∧
    FromHTTPRequest binaryExample =
      some { event := some { SpecVersion := str "1.0", Type_ := str "com.example.test",
                             Source := str "/test", Data := some (str "\x7b\"x\":1\x7d") },
             isBinary := true, err := none } :=
  ⟨binary_headers_decoded binaryExample.Header binaryExample.Body (str "\x7b\"x\":1\x7d")
    rfl (by decide) (by decide) (by decide), by decide⟩

/-- C3 (counterexample): two headers whose names differ only in case both
lower-case to `ce-type`; whichever the map yields last wins, so the field is
not the first value of the other one.  The same holds for `ce-İd` and `ce-id`:
`strings.ToLower` maps U+0130 to `i`, both set the field `ID`, and no extension
is stored. -/
theorem binary_headers_collision :
    FromHTTPRequest { Header := [(str "ce-type", [str "a"]), (str "CE-TYPE", [str "b"])],
                      Body := none } =
      some { event := some { Type_ := str "b", Data := some [] },
             isBinary := true, err := none } ∧
    FromHTTPRequest { Header := [(str "CE-TYPE", [str "b"]), (str "ce-type", [str "a"])],
                      Body := none } =
      some { event := some { Type_ := str "a", Data := some [] },
             isBinary := true, err := none } ∧
    FromHTTPRequest { Header := [(str "ce-İd", [str "a"]), (str "ce-id", [str "b"])],
                      Body := none } =
      some { event := some { ID := str "b", Data := some [] },
             isBinary := true, err := none } ∧
    str "a" ≠ str "b" := by
  decide

/-- C4: `FromHTTPRequest` returns either an error with a nil event or an event
with no error, never both (the only run that returns nothing is the panic of
binary mode on a `ce-` header without values); and in structured mode a body
that is not valid JSON gives an error and a nil event. -/
theorem FromHTTPRequest_error_or_event (h : Header) (rc : Option ReadCloser) :
    (match FromHTTPRequest { Header := h, Body := rc } with
     | some res =>
       (res.event = none ∧ res.err ≠ none) ∨ (res.event ≠ none ∧ res.err = none)
     | none =>
       HasPrefix (h.Get (str "Content-Type")) (str "application/cloudevents+json") = false ∧
         ∃ kv ∈ h, HasPrefix (ToLower kv.1) (str "ce-") = true ∧ kv.2 = []) ∧
    (∀ body, readBody rc = Except.ok body →
      HasPrefix (h.Get (str "Content-Type")) (str "application/cloudevents+json") = true →
      checkValid body = false →
      FromHTTPRequest { Header := h, Body := rc } =
        some { event := none, isBinary := false, err := some GoError.jsonInvalid }) := by
  constructor
  · unfold FromHTTPRequest
    cases hb : readBody rc with
    | error e => simp
    | ok b =>
      simp only
      by_cases hct : HasPrefix (h.Get (str "Content-Type"))
          (str "application/cloudevents+json") = true
      · simp only [hct, if_true]
        cases unmarshalByteMap b <;> simp
      · simp only [hct]
        cases hf : List.foldlM binaryStep ({} : Event) h with
        | none => simpa [hct] using binaryFold_none h _ hf
        | some ev => simp
  · intro body hb hct hv
    unfold FromHTTPRequest
    simp [hb, hct, unmarshalByteMap, hv]

theorem FromHTTPRequest_error_or_event_witness :
    FromHTTPRequest truncatedRequest =
      some { event := none, isBinary := false, err := some GoError.jsonInvalid } :=
  (FromHTTPRequest_error_or_event truncatedRequest.Header truncatedRequest.Body).2
    (str "\x7b\"type\":") rfl (by decide) (by decide)

/-- C5 (the code at the failing input): with a number, an object or a boolean
as the value of `type` the body is valid JSON, but `json.Unmarshal` into
`map[string][]byte` fails and the decoder returns the error; `null` and an
array of small numbers are accepted and leave the field empty. -/
theorem structured_non_string_rejected :
    checkValid (str "\x7b\"type\":5\x7d") = true ∧
    FromHTTPRequest (structuredRequest (str "\x7b\"type\":5\x7d")) =
      some { event := none, isBinary := false, err := some GoError.jsonUnmarshalType } ∧
    FromHTTPRequest (structuredRequest (str "\x7b\"type\":\x7b\x7d\x7d")) =
      some { event := none, isBinary := false, err := some GoError.jsonUnmarshalType } ∧
    FromHTTPRequest (structuredRequest (str "\x7b\"type\":true\x7d")) =
      some { event := none, isBinary := false, err := some GoError.jsonUnmarshalType } ∧
    FromHTTPRequest (structuredRequest (str "\x7b\"type\":null\x7d")) =
      some { event := some {}, isBinary := false, err := none } ∧
    FromHTTPRequest (structuredRequest (str "\x7b\"type\":[1,2]\x7d")) =
      some { event := some {}, isBinary := false, err := none } := by
  decide

/-- C6 (amended): when the 8 named attributes are non-empty and trimmed, there
are no extensions, and `DataContentType` does not start with
`application/cloudevents+json`, decoding a request that carries exactly the
headers written by `ToHTTPHeaders` (in any order of the map, with any body)
gives an event with the same 8 named attributes. -/
theorem headers_roundtrip (event : Event) (h : Header) (body : Option Bytes)
    (hext : event.Extensions = [])
    (hnamed : ∀ nv ∈ event.named, nv.2 ≠ [] ∧ TrimSpace nv.2 = nv.2)
    (hct : HasPrefix event.DataContentType (str "application/cloudevents+json") = false)
    (hperm : h.Perm (event.ToHTTPHeaders [])) :
    ∃ decoded : Event,
      FromHTTPRequest { Header := h, Body := body.map ReadCloser.reads } =
        some { event := some decoded, isBinary := true, err := none } ∧
      decoded.named = event.named := by
  rw [ToHTTPHeaders_trimmed event hext hnamed] at hperm
  have hkeys : (h.map Prod.fst).Perm writtenKeys := by
    have := hperm.map Prod.fst
    simpa [writtenKeys] using this
  have hmem : ∀ kv, kv ∈ h ↔ kv ∈
      [(str "Ce-Specversion", [event.SpecVersion]), (str "Ce-Type", [event.Type_]),
       (str "Ce-Source", [event.Source]), (str "Ce-Subject", [event.Subject]),
       (str "Ce-Id", [event.ID]), (str "Ce-Time", [event.Time]),
       (str "Ce-Datacontenttype", [event.DataContentType]),
       (str "Ce-Schemaurl", [event.SchemaURL]),
       (str "Content-Type", [event.DataContentType])] := fun kv => hperm.mem_iff
  have hkn : (h.map Prod.fst).Nodup := hkeys.nodup_iff.mpr (by decide)
  have hget : h.Get (str "Content-Type") = event.DataContentType := by
    unfold Header.Get
    have hc : CanonicalMIMEHeaderKey (str "Content-Type") = str "Content-Type" := by decide
    rw [hc, lookup_of_mem_nodup h _ [event.DataContentType] hkn
      ((hmem _).mpr (by simp))]
  have hne : ∀ kv ∈ h, isCeHeader kv = true → kv.2 ≠ [] := by
    intro kv hm _
    have := (hmem kv).mp hm
    simp only [List.mem_cons, List.mem_singleton, List.not_mem_nil, or_false] at this
    rcases this with e | e | e | e | e | e | e | e | e <;> rw [e] <;> simp
  have hnd : (ceNames h).Nodup := by
    rw [ceNames_eq]
    have hp := (hkeys.filter (fun k => HasPrefix (ToLower k) (str "ce-"))).map ToLower
    exact hp.nodup_iff.mpr (by decide)
  obtain ⟨decoded, hdec, -, hattr⟩ :=
    binaryDecode_attribute h body (by rw [hget]; exact hct) hne hnd
  refine ⟨decoded, hdec, ?_⟩
  obtain ⟨n1, n2, n3, n4, n5, n6, n7, n8⟩ := attribute_named decoded
  have c1 : HasPrefix (ToLower (str "Ce-Specversion")) (str "ce-") = true := by decide
  have a1 := hattr (str "Ce-Specversion") event.SpecVersion [] ((hmem _).mpr (by simp)) c1
  have c2 : HasPrefix (ToLower (str "Ce-Type")) (str "ce-") = true := by decide
  have a2 := hattr (str "Ce-Type") event.Type_ [] ((hmem _).mpr (by simp)) c2
  have c3 : HasPrefix (ToLower (str "Ce-Source")) (str "ce-") = true := by decide
  have a3 := hattr (str "Ce-Source") event.Source [] ((hmem _).mpr (by simp)) c3
  have c4 : HasPrefix (ToLower (str "Ce-Subject")) (str "ce-") = true := by decide
  have a4 := hattr (str "Ce-Subject") event.Subject [] ((hmem _).mpr (by simp)) c4
  have c5 : HasPrefix (ToLower (str "Ce-Id")) (str "ce-") = true := by decide
  have a5 := hattr (str "Ce-Id") event.ID [] ((hmem _).mpr (by simp)) c5
  have c6 : HasPrefix (ToLower (str "Ce-Time")) (str "ce-") = true := by decide
  have a6 := hattr (str "Ce-Time") event.Time [] ((hmem _).mpr (by simp)) c6
  have c7 : HasPrefix (ToLower (str "Ce-Datacontenttype")) (str "ce-") = true := by decide
  have a7 := hattr (str "Ce-Datacontenttype") event.DataContentType [] ((hmem _).mpr (by simp)) c7
  have c8 : HasPrefix (ToLower (str "Ce-Schemaurl")) (str "ce-") = true := by decide
  have a8 := hattr (str "Ce-Schemaurl") event.SchemaURL [] ((hmem _).mpr (by simp)) c8
  have d1 : (ToLower (str "Ce-Specversion")).drop 3 = str "specversion" := by decide
  have d2 : (ToLower (str "Ce-Type")).drop 3 = str "type" := by decide
  have d3 : (ToLower (str "Ce-Source")).drop 3 = str "source" := by decide
  have d4 : (ToLower (str "Ce-Subject")).drop 3 = str "subject" := by decide
  have d5 : (ToLower (str "Ce-Id")).drop 3 = str "id" := by decide
  have d6 : (ToLower (str "Ce-Time")).drop 3 = str "time" := by decide
  have d7 : (ToLower (str "Ce-Datacontenttype")).drop 3 = str "datacontenttype" := by decide
  have d8 : (ToLower (str "Ce-Schemaurl")).drop 3 = str "schemaurl" := by decide
  rw [d1, n2] at a1
  rw [d2, n3] at a2
  rw [d3, n4] at a3
  rw [d4, n5] at a4
  rw [d5, n6] at a5
  rw [d6, n7] at a6
  rw [d7, n1] at a7
  rw [d8, n8] at a8
  unfold Event.named
  rw [Option.some.inj a1, Option.some.inj a2, Option.some.inj a3, Option.some.inj a4,
    Option.some.inj a5, Option.some.inj a6, Option.some.inj a7, Option.some.inj a8]

theorem headers_roundtrip_witness :
    ∃ decoded : Event,
      FromHTTPRequest { Header := jsonTypedEvent.ToHTTPHeaders [],
                        Body := (none : Option Bytes).map ReadCloser.reads } =
        some { event := some decoded, isBinary := true, err := none } ∧
      decoded.named = jsonTypedEvent.named :=
  headers_roundtrip jsonTypedEvent (jsonTypedEvent.ToHTTPHeaders []) none (by decide)
    (by decide) (by decide) (List.Perm.refl _)

/-- C6 (counterexample): the event's `DataContentType` is written to the
`Content-Type` header, so with `application/cloudevents+json` the request is
decoded in structured mode: with no body the decoder returns an error, with the
body `{}` it returns an event whose named attributes are all empty. -/
theorem headers_roundtrip_structured :
    FromHTTPRequest { Header := structuredTypedEvent.ToHTTPHeaders [], Body := none } =
      some { event := none, isBinary := false, err := some GoError.jsonInvalid } ∧
    FromHTTPRequest { Header := structuredTypedEvent.ToHTTPHeaders [],
                      Body := some (ReadCloser.reads (str "\x7b\x7d")) } =
      some { event := some {}, isBinary := false, err := none } ∧
    (∀ nv ∈ structuredTypedEvent.named, nv.2 ≠ [] ∧ TrimSpace nv.2 = nv.2) ∧
    structuredTypedEvent.Extensions = [] := by
  decide

/-- C7 (the code at the failing input): the body `{"type":"ImEi"}` decodes to
an event of type `a`; `Marshal` writes it as `"type": "a"`; decoding that
output fails, because `a` is not base64.  The example body of the
specification is rejected by the first decoding already. -/
theorem structured_roundtrip_fails :
    FromHTTPRequest (structuredRequest (str "\x7b\"type\":\"ImEi\"\x7d")) =
      some { event := some { Type_ := str "a" }, isBinary := false, err := none } ∧
    Event.Marshal { Type_ := str "a" } = Except.ok (str "\x7b\n  \"type\": \"a\"\n\x7d") ∧
    FromHTTPRequest (structuredRequest (str "\x7b\n  \"type\": \"a\"\n\x7d")) =
      some { event := none, isBinary := false, err := some GoError.base64Corrupt } := by
  refine ⟨by decide, by rfl, by decide⟩

/-- C8 (amended): in binary mode every key of the decoded `Extensions` is
lower-case (equal to its own lower-casing); in structured mode the keys of
`Extensions` are the keys of the decoded body other than the 8 attribute names
and `data`, each stored as it is written, with the text of its value. -/
theorem extension_keys_by_mode (r : Request) (res : Decoded) (event : Event)
    (hres : FromHTTPRequest r = some res) (hev : res.event = some event) :
    (HasPrefix (r.Header.Get (str "Content-Type")) (str "application/cloudevents+json") = false →
      ∀ kv ∈ event.Extensions, ToLower kv.1 = kv.1) ∧
    (HasPrefix (r.Header.Get (str "Content-Type")) (str "application/cloudevents+json") = true →
      ∃ body ceMap, readBody r.Body = Except.ok body ∧ unmarshalByteMap body = Except.ok ceMap ∧
        ∀ k, event.Extensions.lookup k =
          if k ∈ attributeNames ∨ k = str "data" then none
          else (ceMap.lookup k).map (fun v => v.getD [])) := by
  constructor
  · intro hct
    unfold FromHTTPRequest at hres
    cases hb : readBody r.Body with
    | error e =>
      simp only [hb, Option.some.injEq] at hres
      rw [← hres] at hev; cases hev
    | ok b =>
      simp only [hb, hct, Bool.false_eq_true, if_false] at hres
      cases hf : List.foldlM binaryStep ({} : Event) r.Header with
      | none => rw [hf] at hres; cases hres
      | some ev1 =>
        rw [hf] at hres
        simp only [Option.some.injEq] at hres
        rw [← hres] at hev
        simp only [Option.some.injEq] at hev
        rw [← hev]
        exact binaryFold_keys_lower r.Header {} ev1 (fun e he => by cases he) hf
  · intro hct
    unfold FromHTTPRequest at hres
    cases hb : readBody r.Body with
    | error e =>
      simp only [hb, Option.some.injEq] at hres
      rw [← hres] at hev; cases hev
    | ok b =>
      simp only [hb, hct, if_true] at hres
      cases hm : unmarshalByteMap b with
      | error e =>
        rw [hm] at hres
        simp only [Option.some.injEq] at hres
        rw [← hres] at hev; cases hev
      | ok ceMap =>
        rw [hm] at hres
        simp only [Option.some.injEq] at hres
        rw [← hres] at hev
        simp only [Option.some.injEq] at hev
        refine ⟨b, ceMap, rfl, hm, ?_⟩
        intro k
        rw [← hev]
        exact structuredFold_Extensions_lookup ceMap (unmarshalByteMap_nodup b ceMap hm) k

theorem extension_keys_by_mode_witness :
    (∀ kv ∈ ({ Extensions := [(str "foo", str "x")], Data := some [] } : Event).Extensions,
      ToLower kv.1 = kv.1) ∧
    (∃ body ceMap,
      readBody (structuredRequest (str "\x7b\"MyExt\":\"aGk=\"\x7d")).Body = Except.ok body ∧
      unmarshalByteMap body = Except.ok ceMap ∧
      ∀ k, ({ Extensions := [(str "MyExt", str "hi")] } : Event).Extensions.lookup k =
        if k ∈ attributeNames ∨ k = str "data" then none
        else (ceMap.lookup k).map (fun v => v.getD [])) :=
  ⟨(extension_keys_by_mode
      { Header := [(str "CE-Foo", [str "x"])], Body := none }
      { event := some { Extensions := [(str "foo", str "x")], Data := some [] },
        isBinary := true, err := none }
      { Extensions := [(str "foo", str "x")], Data := some [] }
      (by decide) rfl).1 (by decide),
   (extension_keys_by_mode
      (structuredRequest (str "\x7b\"MyExt\":\"aGk=\"\x7d"))
      { event := some { Extensions := [(str "MyExt", str "hi")] }, isBinary := false,
        err := none }
      { Extensions := [(str "MyExt", str "hi")] }
      (by decide) rfl).2 (by decide)⟩

/-- C8 (counterexample): in structured mode the key of an extension is stored
as it is written in the body (the lower-casing of `k` is commented out), here
`MyExt`. -/
theorem structured_extension_key_case :
    FromHTTPRequest (structuredRequest (str "\x7b\"MyExt\":\"aGk=\"\x7d")) =
      some { event := some { Extensions := [(str "MyExt", str "hi")] },
             isBinary := false, err := none } ∧
    ToLower (str "MyExt") ≠ str "MyExt" := by
  decide

/-- C9 (amended): `Marshal` returns an error only if `Data` is set, or `Data` is
unset and serializing `DataObject` fails; when `Data` is set, is not valid JSON
and no extension replaces the member `data`, `Marshal` returns the error of
`json.MarshalIndent` on the raw message; and when `Data` is unset and
`DataObject` is nil, `Marshal` returns no error, whatever the named attributes
and extensions. -/
theorem Marshal_error_cases (event : Event) :
    (∀ err, event.Marshal = Except.error err →
      (event.Data = none ∧ event.DataObject = some (DataValue.unsupported err)) ∨
      (∃ d, event.Data = some d)) ∧
    (∀ d, event.Data = some d → checkValid d = false →
      (∀ kv ∈ event.Extensions, ToLower kv.1 ≠ str "data") →
      event.Marshal = Except.error GoError.jsonMarshaler) ∧
    (event.Data = none → event.DataObject = none → ∃ out, event.Marshal = Except.ok out) := by
  have key : ∀ err, event.Marshal = Except.error err →
      (event.Data = none ∧ event.DataObject = some (DataValue.unsupported err)) ∨
      (∃ d, event.Data = some d) := by
    intro err h
    cases hD : event.Data with
    | some d => exact Or.inr ⟨d, rfl⟩
    | none =>
      left
      unfold Event.Marshal at h
      cases hr : event.resMap with
      | error e =>
        rw [hr] at h
        simp only at h
        injection h with h1
        rw [← h1]
        exact ⟨rfl, (resMap_error event e hr).2⟩
      | ok m =>
        exfalso
        rw [hr] at h
        simp only at h
        have hraw : ∀ kv ∈ m, ∀ d, kv.2 ≠ JSONValue.rawMessage d := by
          intro kv hkv d hd
          have := resMap_rawFromData event m hr kv hkv d hd
          rw [hD] at this
          cases this
        obtain ⟨out, hout⟩ := MarshalIndent_strings m hraw
        rw [hout] at h
        cases h
  refine ⟨key, ?_, ?_⟩
  · intro d hD hv hext
    unfold Event.Marshal
    cases hr : event.resMap with
    | error e =>
      have := (resMap_error event e hr).1
      rw [hD] at this
      cases this
    | ok m =>
      simp only
      have hl := (resMap_data event m hr hext).1 d hD
      exact MarshalIndent_invalid m (str "data") d (lookup_mem m _ _ hl) hv
  · intro hD hO
    cases hm : event.Marshal with
    | ok out => exact ⟨out, rfl⟩
    | error err =>
      rcases key err hm with ⟨-, h2⟩ | ⟨d, h1⟩
      · rw [hO] at h2; cases h2
      · rw [hD] at h1; cases h1

theorem Marshal_error_cases_witness :
    (∃ out, Event.Marshal { Type_ := str "t", Extensions := [(str "Ext", str "x")] } =
      Except.ok out) ∧
    Event.Marshal { Data := some (str "hello") } = Except.error GoError.jsonMarshaler :=
  ⟨(Marshal_error_cases { Type_ := str "t", Extensions := [(str "Ext", str "x")] }).2.2 rfl rfl,
    (Marshal_error_cases { Data := some (str "hello") }).2.1 (str "hello") rfl (by decide)
      (fun kv hkv => by cases hkv)⟩

/-- C9 (counterexample): an event with a nil `DataObject` whose `Data` is not
JSON, as binary mode produces it from the body `hello`: `Marshal` returns the
error of `json.MarshalIndent` on the raw message. -/
theorem Marshal_fails_on_raw_data :
    FromHTTPRequest { Header := [], Body := some (ReadCloser.reads (str "hello")) } =
      some { event := some { Data := some (str "hello") }, isBinary := true, err := none } ∧
    ({ Data := some (str "hello") } : Event).DataObject = none ∧
    Event.Marshal { Data := some (str "hello") } = Except.error GoError.jsonMarshaler := by
  refine ⟨by decide, rfl, by rfl⟩

/-- C10 (amended): when `Marshal` succeeds, its output is the indented text of a
JSON object whose members have distinct names and whose values are JSON strings
or the compacted raw message `Data`; for each of the 8 attribute names that no
extension key lower-cases to, there is a member with that name exactly when the
field is non-empty, its value being the JSON string that `json.Marshal` writes
for the field; and there is a member named by the lower-cased key of every
extension. -/
theorem Marshal_members (event : Event) (out : Bytes)
    (h : event.Marshal = Except.ok out) :
    ∃ members : List (Bytes × Bytes),
      out = objectText members ∧ (members.map Prod.fst).Nodup ∧
      (∀ mv ∈ members,
        (∃ s, mv.2 = quote s) ∨ (∃ b, mv.2 = [34] ++ base64Encode b ++ [34]) ∨
        (∃ d, event.Data = some d ∧ checkValid d = true ∧ mv.2 = compact false false d)) ∧
      (∀ nv ∈ event.named, (∀ kv ∈ event.Extensions, ToLower kv.1 ≠ nv.1) →
        members.lookup nv.1 = if nv.2 = [] then none else some (quote nv.2)) ∧
      (∀ kv ∈ event.Extensions, ∃ v, members.lookup (ToLower kv.1) = some (quote v)) := by
  unfold Event.Marshal at h
  cases hr : event.resMap with
  | error e => rw [hr] at h; cases h
  | ok m =>
    rw [hr] at h
    simp only at h
    obtain ⟨m1, hm, hnamed⟩ := resMap_named event m hr
    obtain ⟨members, h1, h2, h3, h4⟩ := MarshalIndent_members m out (resMap_nodup event m hr) h
    refine ⟨members, h1, h2, ?_, ?_, ?_⟩
    · intro mv hmv
      obtain ⟨jv, hj1, hj2⟩ := h4 mv hmv
      cases jv with
      | string s =>
        left
        unfold encodeValue at hj2
        injection hj2 with hj2
        exact ⟨s, hj2.symm⟩
      | byteSlice b =>
        right; left
        unfold encodeValue at hj2
        injection hj2 with hj2
        exact ⟨b, hj2.symm⟩
      | rawMessage d =>
        right; right
        have hD := resMap_rawFromData event m hr _ hj1 d rfl
        unfold encodeValue at hj2
        simp only at hj2
        by_cases hv : checkValid d = true
        · rw [if_pos hv] at hj2
          injection hj2 with hj2
          exact ⟨d, hD, hv, hj2.symm⟩
        · rw [if_neg hv] at hj2
          cases hj2
    · intro nv hnv hfree
      rw [h3, hm, lookup_extensions_ne _ _ hfree, hnamed nv hnv]
      by_cases hv : nv.2 = []
      · rw [if_pos hv, if_pos hv]; rfl
      · rw [if_neg hv, if_neg hv]; rfl
    · intro kv hkv
      obtain ⟨v, hv⟩ := lookup_extensions_mem _ m1 kv hkv
      rw [← hm] at hv
      exact ⟨v, by rw [h3, hv]; rfl⟩

theorem Marshal_members_witness :
    ∃ members : List (Bytes × Bytes),
      str "\x7b\n  \"type\": \"a\\ufffdb\"\n\x7d" = objectText members ∧
      (members.map Prod.fst).Nodup ∧
      (∀ mv ∈ members,
        (∃ s, mv.2 = quote s) ∨ (∃ b, mv.2 = [34] ++ base64Encode b ++ [34]) ∨
        (∃ d, ({ Type_ := [97, 255, 98] } : Event).Data = some d ∧ checkValid d = true ∧
          mv.2 = compact false false d)) ∧
      (∀ nv ∈ Event.named { Type_ := [97, 255, 98] },
        (∀ kv ∈ ({ Type_ := [97, 255, 98] } : Event).Extensions, ToLower kv.1 ≠ nv.1) →
        members.lookup nv.1 = if nv.2 = [] then none else some (quote nv.2)) ∧
      (∀ kv ∈ ({ Type_ := [97, 255, 98] } : Event).Extensions,
        ∃ v, members.lookup (ToLower kv.1) = some (quote v)) :=
  Marshal_members { Type_ := [97, 255, 98] } (str "\x7b\n  \"type\": \"a\\ufffdb\"\n\x7d") rfl

/-- C10 (counterexample): an extension whose key lower-cases to `type` replaces
the member of the field `Type`: the output has `"type": "b"`, not the field's
value `a`; likewise the extension `İd`, whose key lower-cases to `id`, replaces
the member of the field `ID`. -/
theorem Marshal_extension_overrides :
    Event.Marshal { Type_ := str "a", Extensions := [(str "TYPE", str "b")] } =
      Except.ok (str "\x7b\n  \"type\": \"b\"\n\x7d") ∧
    Event.Marshal { ID := str "a", Extensions := [(str "İd", str "b")] } =
      Except.ok (str "\x7b\n  \"id\": \"b\"\n\x7d") ∧
    str "a" ≠ str "b" := by
  refine ⟨by rfl, by rfl, by decide⟩

/-- C11 (amended): when `Marshal` succeeds on an event with no extension whose
lower-cased key is `data`, the map it encodes holds, under `data`, the raw
message `Data` if `Data` is set, whatever `DataObject` is, and no entry if both
are unset. -/
theorem Marshal_data_member (event : Event) (out : Bytes)
    (h : event.Marshal = Except.ok out)
    (hext : ∀ kv ∈ event.Extensions, ToLower kv.1 ≠ str "data") :
    ∃ resMap : List (Bytes × JSONValue),
      event.resMap = Except.ok resMap ∧ MarshalIndent resMap = Except.ok out ∧
      (∀ d, event.Data = some d →
        resMap.lookup (str "data") = some (JSONValue.rawMessage d)) ∧
      (event.Data = none → event.DataObject = none → resMap.lookup (str "data") = none) := by
  unfold Event.Marshal at h
  cases hr : event.resMap with
  | error e => rw [hr] at h; cases h
  | ok m =>
    rw [hr] at h
    simp only at h
    exact ⟨m, rfl, h, resMap_data event m hr hext⟩

theorem Marshal_data_member_witness :
    ∃ resMap : List (Bytes × JSONValue),
      Event.resMap { Data := some (str "1"), DataObject := some (DataValue.encodes (str "2")) } =
        Except.ok resMap ∧
      MarshalIndent resMap = Except.ok (str "\x7b\n  \"data\": 1\n\x7d") ∧
      (∀ d, ({ Data := some (str "1"),
               DataObject := some (DataValue.encodes (str "2")) } : Event).Data = some d →
        resMap.lookup (str "data") = some (JSONValue.rawMessage d)) ∧
      (({ Data := some (str "1"),
          DataObject := some (DataValue.encodes (str "2")) } : Event).Data = none →
        ({ Data := some (str "1"),
           DataObject := some (DataValue.encodes (str "2")) } : Event).DataObject = none →
        resMap.lookup (str "data") = none) :=
  Marshal_data_member
    { Data := some (str "1"), DataObject := some (DataValue.encodes (str "2")) }
    (str "\x7b\n  \"data\": 1\n\x7d") rfl (fun kv hkv => by cases hkv)

/-- C11 (counterexample): an extension named `DATA` is not named `data` but is
merged under the key `data` and replaces the member of `Data`; the raw message
`{"x":1}` is written re-indented; and the JSON text `{"x":1}` of a `DataObject`
is stored as a byte slice, which `json.MarshalIndent` writes as the base64
string `"eyJ4IjoxfQ=="`. -/
theorem Marshal_data_cases :
    Event.Marshal { Data := some (str "1"), Extensions := [(str "DATA", str "x")] } =
      Except.ok (str "\x7b\n  \"data\": \"x\"\n\x7d") ∧
    Event.Marshal { Data := some (str "\x7b\"x\":1\x7d") } =
      Except.ok (str "\x7b\n  \"data\": \x7b\n    \"x\": 1\n  \x7d\n\x7d") ∧
    Event.Marshal { DataObject := some (DataValue.encodes (str "\x7b\"x\":1\x7d")) } =
      Except.ok (str "\x7b\n  \"data\": \"eyJ4IjoxfQ==\"\n\x7d") := by
  refine ⟨by rfl, by rfl, by rfl⟩

/-- C12: for an event with no extensions and an empty header map, after
`ToHTTPHeaders` the header `ce-<attr>` (stored under its canonical name, as
`Header.Add` does) exists, for each of the 8 named attributes, exactly when the
trimmed value of the field is non-empty, and then holds exactly that trimmed
value; and the same for `Content-Type` and `DataContentType`. -/
theorem ToHTTPHeaders_named (event : Event) (hext : event.Extensions = []) :
    (∀ nv ∈ event.named,
      (event.ToHTTPHeaders []).lookup (CanonicalMIMEHeaderKey (str "ce-" ++ nv.1)) =
        if TrimSpace nv.2 = [] then none else some [TrimSpace nv.2]) ∧
    (event.ToHTTPHeaders []).lookup (CanonicalMIMEHeaderKey (str "Content-Type")) =
      if TrimSpace event.DataContentType = [] then none
      else some [TrimSpace event.DataContentType] := by
  unfold Event.ToHTTPHeaders
  rw [hext]
  simp only [List.foldl_nil]
  constructor
  · intro nv hnv
    unfold Event.named at hnv
    simp only [List.mem_cons, List.mem_singleton, List.not_mem_nil, or_false] at hnv
    rcases hnv with e | e | e | e | e | e | e | e <;> rw [e] <;> dsimp only
    · have e : CanonicalMIMEHeaderKey (str "ce-" ++ str "specversion") =
          CanonicalMIMEHeaderKey (TrimSpace (str "ce-specversion")) := by decide
      rw [e]
      rw [lookup_AddHeader_ne _ _ _ _ (by decide), lookup_AddHeader_ne _ _ _ _ (by decide),
        lookup_AddHeader_ne _ _ _ _ (by decide), lookup_AddHeader_ne _ _ _ _ (by decide),
        lookup_AddHeader_ne _ _ _ _ (by decide), lookup_AddHeader_ne _ _ _ _ (by decide),
        lookup_AddHeader_ne _ _ _ _ (by decide), lookup_AddHeader_ne _ _ _ _ (by decide),
        lookup_AddHeader_self]
      rfl
    · have e : CanonicalMIMEHeaderKey (str "ce-" ++ str "type") =
          CanonicalMIMEHeaderKey (TrimSpace (str "ce-type")) := by decide
      rw [e]
      rw [lookup_AddHeader_ne _ _ _ _ (by decide), lookup_AddHeader_ne _ _ _ _ (by decide),
        lookup_AddHeader_ne _ _ _ _ (by decide), lookup_AddHeader_ne _ _ _ _ (by decide),
        lookup_AddHeader_ne _ _ _ _ (by decide), lookup_AddHeader_ne _ _ _ _ (by decide),
        lookup_AddHeader_ne _ _ _ _ (by decide), lookup_AddHeader_self,
        lookup_AddHeader_ne _ _ _ _ (by decide)]
      rfl
    · have e : CanonicalMIMEHeaderKey (str "ce-" ++ str "source") =
          CanonicalMIMEHeaderKey (TrimSpace (str "ce-source")) := by decide
      rw [e]
      rw [lookup_AddHeader_ne _ _ _ _ (by decide), lookup_AddHeader_ne _ _ _ _ (by decide),
        lookup_AddHeader_ne _ _ _ _ (by decide), lookup_AddHeader_ne _ _ _ _ (by decide),
        lookup_AddHeader_ne _ _ _ _ (by decide), lookup_AddHeader_ne _ _ _ _ (by decide),
        lookup_AddHeader_self, lookup_AddHeader_ne _ _ _ _ (by decide),
        lookup_AddHeader_ne _ _ _ _ (by decide)]
      rfl
    · have e : CanonicalMIMEHeaderKey (str "ce-" ++ str "subject") =
          CanonicalMIMEHeaderKey (TrimSpace (str "ce-subject")) := by decide
      rw [e]
      rw [lookup_AddHeader_ne _ _ _ _ (by decide), lookup_AddHeader_ne _ _ _ _ (by decide),
        lookup_AddHeader_ne _ _ _ _ (by decide), lookup_AddHeader_ne _ _ _ _ (by decide),
        lookup_AddHeader_ne _ _ _ _ (by decide), lookup_AddHeader_self,
        lookup_AddHeader_ne _ _ _ _ (by decide), lookup_AddHeader_ne _ _ _ _ (by decide),
        lookup_AddHeader_ne _ _ _ _ (by decide)]
      rfl
    · have e : CanonicalMIMEHeaderKey (str "ce-" ++ str "id") =
          CanonicalMIMEHeaderKey (TrimSpace (str "ce-id")) := by decide
      rw [e]
      rw [lookup_AddHeader_ne _ _ _ _ (by decide), lookup_AddHeader_ne _ _ _ _ (by decide),
        lookup_AddHeader_ne _ _ _ _ (by decide), lookup_AddHeader_ne _ _ _ _ (by decide),
        lookup_AddHeader_self, lookup_AddHeader_ne _ _ _ _ (by decide),
        lookup_AddHeader_ne _ _ _ _ (by decide), lookup_AddHeader_ne _ _ _ _ (by decide),
        lookup_AddHeader_ne _ _ _ _ (by decide)]
      rfl
    · have e : CanonicalMIMEHeaderKey (str "ce-" ++ str "time") =
          CanonicalMIMEHeaderKey (TrimSpace (str "ce-time")) := by decide
      rw [e]
      rw [lookup_AddHeader_ne _ _ _ _ (by decide), lookup_AddHeader_ne _ _ _ _ (by decide),
        lookup_AddHeader_ne _ _ _ _ (by decide), lookup_AddHeader_self,
        lookup_AddHeader_ne _ _ _ _ (by decide), lookup_AddHeader_ne _ _ _ _ (by decide),
        lookup_AddHeader_ne _ _ _ _ (by decide), lookup_AddHeader_ne _ _ _ _ (by decide),
        lookup_AddHeader_ne _ _ _ _ (by decide)]
      rfl
    · have e : CanonicalMIMEHeaderKey (str "ce-" ++ str "schemaurl") =
          CanonicalMIMEHeaderKey (TrimSpace (str "ce-schemaurl")) := by decide
      rw [e]
      rw [lookup_AddHeader_ne _ _ _ _ (by decide), lookup_AddHeader_self,
        lookup_AddHeader_ne _ _ _ _ (by decide), lookup_AddHeader_ne _ _ _ _ (by decide),
        lookup_AddHeader_ne _ _ _ _ (by decide), lookup_AddHeader_ne _ _ _ _ (by decide),
        lookup_AddHeader_ne _ _ _ _ (by decide), lookup_AddHeader_ne _ _ _ _ (by decide),
        lookup_AddHeader_ne _ _ _ _ (by decide)]
      rfl
    · have e : CanonicalMIMEHeaderKey (str "ce-" ++ str "datacontenttype") =
          CanonicalMIMEHeaderKey (TrimSpace (str "ce-datacontenttype")) := by decide
      rw [e]
      rw [lookup_AddHeader_ne _ _ _ _ (by decide), lookup_AddHeader_ne _ _ _ _ (by decide),
        lookup_AddHeader_self, lookup_AddHeader_ne _ _ _ _ (by decide),
        lookup_AddHeader_ne _ _ _ _ (by decide), lookup_AddHeader_ne _ _ _ _ (by decide),
        lookup_AddHeader_ne _ _ _ _ (by decide), lookup_AddHeader_ne _ _ _ _ (by decide),
        lookup_AddHeader_ne _ _ _ _ (by decide)]
      rfl
  · have e : CanonicalMIMEHeaderKey (str "Content-Type") =
        CanonicalMIMEHeaderKey (TrimSpace (str "Content-Type")) := by decide
    rw [e]
    rw [lookup_AddHeader_self, lookup_AddHeader_ne _ _ _ _ (by decide),
      lookup_AddHeader_ne _ _ _ _ (by decide), lookup_AddHeader_ne _ _ _ _ (by decide),
      lookup_AddHeader_ne _ _ _ _ (by decide), lookup_AddHeader_ne _ _ _ _ (by decide),
      lookup_AddHeader_ne _ _ _ _ (by decide), lookup_AddHeader_ne _ _ _ _ (by decide),
      lookup_AddHeader_ne _ _ _ _ (by decide)]
    rfl

theorem ToHTTPHeaders_named_witness :
    (∀ nv ∈ Event.named { Type_ := str " a ", DataContentType := str "text/plain" },
      (Event.ToHTTPHeaders { Type_ := str " a ", DataContentType := str "text/plain" } []).lookup
          (CanonicalMIMEHeaderKey (str "ce-" ++ nv.1)) =
        if TrimSpace nv.2 = [] then none else some [TrimSpace nv.2]) ∧
    (Event.ToHTTPHeaders { Type_ := str " a ", DataContentType := str "text/plain" } []).lookup
        (CanonicalMIMEHeaderKey (str "Content-Type")) = some [str "text/plain"] ∧
    Event.ToHTTPHeaders { Type_ := str " a ", DataContentType := str "text/plain" } [] =
      [(str "Ce-Type", [str "a"]), (str "Ce-Datacontenttype", [str "text/plain"]),
       (str "Content-Type", [str "text/plain"])] :=
  ⟨(ToHTTPHeaders_named { Type_ := str " a ", DataContentType := str "text/plain" } rfl).1,
   (ToHTTPHeaders_named { Type_ := str " a ", DataContentType := str "text/plain" } rfl).2,
   by decide⟩

/-- C13: for an event whose 8 named attributes are empty and which has no
extensions, `ToHTTPHeaders` leaves every header map as it is. -/
theorem ToHTTPHeaders_empty (event : Event) (h : Header)
    (hnamed : ∀ nv ∈ event.named, nv.2 = []) (hext : event.Extensions = []) :
    event.ToHTTPHeaders h = h := by
  have h1 := hnamed (str "specversion", event.SpecVersion) (by simp [Event.named])
  have h2 := hnamed (str "type", event.Type_) (by simp [Event.named])
  have h3 := hnamed (str "source", event.Source) (by simp [Event.named])
  have h4 := hnamed (str "subject", event.Subject) (by simp [Event.named])
  have h5 := hnamed (str "id", event.ID) (by simp [Event.named])
  have h6 := hnamed (str "time", event.Time) (by simp [Event.named])
  have h7 := hnamed (str "schemaurl", event.SchemaURL) (by simp [Event.named])
  have h8 := hnamed (str "datacontenttype", event.DataContentType) (by simp [Event.named])
  simp only at h1 h2 h3 h4 h5 h6 h7 h8
  unfold Event.ToHTTPHeaders
  rw [hext, h1, h2, h3, h4, h5, h6, h7, h8]
  simp only [List.foldl_nil, AddHeader_empty]

theorem ToHTTPHeaders_empty_witness :
    Event.ToHTTPHeaders { Data := some (str "x") } [(str "Accept", [str "a"])] =
      [(str "Accept", [str "a"])] :=
  ToHTTPHeaders_empty { Data := some (str "x") } [(str "Accept", [str "a"])]
    (by decide) rfl

/-- C14: `ToHTTPHeaders` only appends: under every header name, the values the
map held before the call are a prefix of the values it holds after the call. -/
theorem ToHTTPHeaders_appends (event : Event) (h : Header) (name : Bytes) :
    (h.lookup name).getD [] <+: ((event.ToHTTPHeaders h).lookup name).getD [] := by
  unfold Event.ToHTTPHeaders
  exact (AddHeader_values_grow _ _ _ name).trans
    ((AddHeader_values_grow _ _ _ name).trans
    ((AddHeader_values_grow _ _ _ name).trans
    ((AddHeader_values_grow _ _ _ name).trans
    ((AddHeader_values_grow _ _ _ name).trans
    ((AddHeader_values_grow _ _ _ name).trans
    ((AddHeader_values_grow _ _ _ name).trans
    ((AddHeader_values_grow _ _ _ name).trans
    ((extensions_values_grow _ name _).trans
    (AddHeader_values_grow _ _ _ name)))))))))

/-- C15 (amended): an extension whose value is not JSON, or is JSON that fails
to decode and is not an array, decodes with an error to the empty byte
sequence, and `ToHTTPHeaders` writes no header for it: the headers are those of
the event without that extension. -/
theorem extension_not_decoded (event : Event) (h : Header) (k v : Bytes)
    (hv : checkValid v = false ∨
      ((unmarshalBytes v).2 ≠ none ∧ (skipSpace v).head? ≠ some 91)) :
    (unmarshalBytes v).2 ≠ none ∧ (unmarshalBytes v).1 = some [] ∧
    event.ToHTTPHeaders h =
      Event.ToHTTPHeaders
        { event with Extensions := event.Extensions.filter (fun e => e ≠ (k, v)) } h := by
  obtain ⟨hempty, herr⟩ := unmarshalBytes_not_decoded v hv
  refine ⟨herr, hempty, ?_⟩
  unfold Event.ToHTTPHeaders
  simp only
  rw [foldl_filter_of_id
    (fun acc kv => AddHeader acc (str "ce-" ++ kv.1) ((unmarshalBytes kv.2).1.getD []))
    (fun e => decide (e ≠ (k, v)))]
  intro acc a ha
  have ha1 : a = (k, v) := by simpa using ha
  rw [ha1]
  simp only [hempty, Option.getD_some]
  exact AddHeader_empty _ _

theorem extension_not_decoded_witness :
    FromHTTPRequest { Header := [(str "ce-foo", [str "[::1]:8080"])], Body := none } =
      some { event := some { Extensions := [(str "foo", str "[::1]:8080")], Data := some [] },
             isBinary := true, err := none } ∧
    ((unmarshalBytes (str "[::1]:8080")).2 ≠ none ∧
      (unmarshalBytes (str "[::1]:8080")).1 = some [] ∧
      Event.ToHTTPHeaders { Extensions := [(str "foo", str "[::1]:8080")], Data := some [] } [] =
        Event.ToHTTPHeaders
          { ({ Extensions := [(str "foo", str "[::1]:8080")], Data := some [] } : Event) with
            Extensions :=
              ({ Extensions := [(str "foo", str "[::1]:8080")], Data := some [] } :
                Event).Extensions.filter (fun e => e ≠ (str "foo", str "[::1]:8080")) } []) ∧
    Event.ToHTTPHeaders { Extensions := [(str "foo", str "[::1]:8080")], Data := some [] } [] =
      [] :=
  ⟨by decide,
   extension_not_decoded { Extensions := [(str "foo", str "[::1]:8080")], Data := some [] }
     [] (str "foo") (str "[::1]:8080") (Or.inl (by decide)),
   by decide⟩

/-- C15 (counterexample): an array with an element that cannot be decoded fails
to decode but leaves the elements decoded so far, so a header is written; and a
header value that is a JSON string of base64 text, stored as an extension by
binary mode, is decoded and written back. -/
theorem extension_partly_decoded :
    (unmarshalBytes (str "[65,\"x\"]")).2 = some GoError.jsonUnmarshalType ∧
    (unmarshalBytes (str "[65,\"x\"]")).1 = some [65, 0] ∧
    Event.ToHTTPHeaders { Extensions := [(str "x", str "[65,\"x\"]")] } [] =
      [(str "Ce-X", [[65, 0]])] ∧
    FromHTTPRequest { Header := [(str "ce-foo", [str "\"aGk=\""])], Body := none } =
      some { event := some { Extensions := [(str "foo", str "\"aGk=\"")], Data := some [] },
             isBinary := true, err := none } ∧
    Event.ToHTTPHeaders { Extensions := [(str "foo", str "\"aGk=\"")], Data := some [] } [] =
      [(str "Ce-Foo", [str "hi"])] := by
  decide

/-- C16 (amended): in binary mode the decoded `Data` is the body as it was
read; two requests with the same body and the same `ce-` headers, no two of
which have the same lower-cased name, give the same result whatever their other
headers are and in whatever order the headers are visited; and without a header
`ce-datacontenttype` the field `DataContentType` stays empty, whatever
`Content-Type` is. -/
theorem binary_depends_on_ce_headers (r1 r2 : Request)
    (h1 : HasPrefix (r1.Header.Get (str "Content-Type")) (str "application/cloudevents+json")
      = false)
    (h2 : HasPrefix (r2.Header.Get (str "Content-Type")) (str "application/cloudevents+json")
      = false)
    (hbody : r1.Body = r2.Body)
    (hce : (r1.Header.filter isCeHeader).Perm (r2.Header.filter isCeHeader))
    (hnd : (ceNames r1.Header).Nodup) :
    sameResult (FromHTTPRequest r1) (FromHTTPRequest r2) ∧
    (∀ body res event, readBody r1.Body = Except.ok body → FromHTTPRequest r1 = some res →
      res.event = some event → event.Data = some body) ∧
    ((∀ kv ∈ r1.Header, ToLower kv.1 ≠ str "ce-datacontenttype") →
      ∀ res event, FromHTTPRequest r1 = some res → res.event = some event →
        event.DataContentType = []) := by
  refine ⟨?_, ?_, ?_⟩
  · cases hb : readBody r1.Body with
    | error e =>
      have hb2 : readBody r2.Body = Except.error e := by rw [← hbody]; exact hb
      unfold FromHTTPRequest
      simp only [hb, hb2]
      exact ⟨rfl, rfl, trivial⟩
    | ok body =>
      have hb2 : readBody r2.Body = Except.ok body := by rw [← hbody]; exact hb
      rw [FromHTTPRequest_binary r1 body h1 hb, FromHTTPRequest_binary r2 body h2 hb2,
        binaryFold_filter r1.Header, binaryFold_filter r2.Header]
      by_cases hbad : ∃ kv ∈ r1.Header.filter isCeHeader, isCeHeader kv = true ∧ kv.2 = []
      · have hbad2 : ∃ kv ∈ r2.Header.filter isCeHeader, isCeHeader kv = true ∧ kv.2 = [] := by
          obtain ⟨kv, hm, hc⟩ := hbad
          exact ⟨kv, hce.mem_iff.mp hm, hc⟩
        simp only [binaryFold_panics _ hbad, binaryFold_panics _ hbad2]
        trivial
      · have hne : ∀ kv ∈ r1.Header.filter isCeHeader, isCeHeader kv = true → kv.2 ≠ [] :=
          fun kv hm hc hv => hbad ⟨kv, hm, hc, hv⟩
        obtain ⟨ev1, ev2, hf1, hf2, hattr, hdo, hext⟩ :=
          binaryFold_order _ _ hce hnd hne
        simp only [hf1, hf2]
        exact ⟨rfl, rfl, named_eq_of_attribute _ _ hattr, rfl, hdo, hext⟩
  · intro body res event hb hres hev
    rw [FromHTTPRequest_binary r1 body h1 hb] at hres
    cases hf : List.foldlM binaryStep ({} : Event) r1.Header with
    | none => rw [hf] at hres; cases hres
    | some ev1 =>
      rw [hf] at hres
      simp only [Option.some.injEq] at hres
      rw [← hres] at hev
      simp only [Option.some.injEq] at hev
      rw [← hev]
  · intro hno res event hres hev
    cases hb : readBody r1.Body with
    | error e =>
      unfold FromHTTPRequest at hres
      simp only [hb, Option.some.injEq] at hres
      rw [← hres] at hev
      cases hev
    | ok body =>
      rw [FromHTTPRequest_binary r1 body h1 hb] at hres
      cases hf : List.foldlM binaryStep ({} : Event) r1.Header with
      | none => rw [hf] at hres; cases hres
      | some ev1 =>
        rw [hf] at hres
        simp only [Option.some.injEq] at hres
        rw [← hres] at hev
        simp only [Option.some.injEq] at hev
        rw [← hev]
        have hframe := binaryFold_frame r1.Header (str "datacontenttype")
          (fun kv hm hc heq => hno kv hm (by
            have e := HasPrefix_eq_append (ToLower kv.1) (str "ce-") hc
            have hl : (str "ce-").length = 3 := by decide
            rw [hl, heq] at e
            rw [e]
            decide)) {} ev1 hf
        have hnamed := (attribute_named ev1).1
        rw [hnamed] at hframe
        exact Option.some.inj hframe

theorem binary_depends_on_ce_headers_witness :
    sameResult
      (FromHTTPRequest
        { Header := [(str "Content-Type", [str "application/json"]),
                     (str "ce-type", [str "a"]), (str "Accept", [str "x"]),
                     (str "ce-foo", [str "y"])],
          Body := some (ReadCloser.reads (str "payload")) })
      (FromHTTPRequest
        { Header := [(str "ce-foo", [str "y"]), (str "ce-type", [str "a"]),
                     (str "Content-Type", [str "text/plain"])],
          Body := some (ReadCloser.reads (str "payload")) }) ∧
    FromHTTPRequest
        { Header := [(str "Content-Type", [str "application/json"]),
                     (str "ce-type", [str "a"]), (str "Accept", [str "x"]),
                     (str "ce-foo", [str "y"])],
          Body := some (ReadCloser.reads (str "payload")) } =
      some { event := some { Type_ := str "a", Extensions := [(str "foo", str "y")],
                             Data := some (str "payload") },
             isBinary := true, err := none } :=
  ⟨(binary_depends_on_ce_headers
      { Header := [(str "Content-Type", [str "application/json"]),
                   (str "ce-type", [str "a"]), (str "Accept", [str "x"]),
                   (str "ce-foo", [str "y"])],
        Body := some (ReadCloser.reads (str "payload")) }
      { Header := [(str "ce-foo", [str "y"]), (str "ce-type", [str "a"]),
                   (str "Content-Type", [str "text/plain"])],
        Body := some (ReadCloser.reads (str "payload")) }
      (by decide) (by decide) rfl
      (by
        have e1 : List.filter isCeHeader
            [(str "Content-Type", [str "application/json"]),
             (str "ce-type", [str "a"]), (str "Accept", [str "x"]),
             (str "ce-foo", [str "y"])] =
            [(str "ce-type", [str "a"]), (str "ce-foo", [str "y"])] := by decide
        have e2 : List.filter isCeHeader
            [(str "ce-foo", [str "y"]), (str "ce-type", [str "a"]),
             (str "Content-Type", [str "text/plain"])] =
            [(str "ce-foo", [str "y"]), (str "ce-type", [str "a"])] := by decide
        show (List.filter isCeHeader _).Perm (List.filter isCeHeader _)
        rw [e1, e2]
        exact List.Perm.swap _ _ _)
      (by decide)).1,
   by decide⟩

/-- C16 (counterexample): two requests with the same body and the same two
`ce-` headers, `ce-id` and `CE-ID`, visited in different orders: both headers
set the field `ID` and the one visited last wins, so the events differ. -/
theorem binary_same_headers_differ :
    (List.filter isCeHeader [(str "ce-id", [str "a"]), (str "CE-ID", [str "b"])]).Perm
      (List.filter isCeHeader [(str "CE-ID", [str "b"]), (str "ce-id", [str "a"])]) ∧
    FromHTTPRequest { Header := [(str "ce-id", [str "a"]), (str "CE-ID", [str "b"])],
                      Body := some (ReadCloser.reads (str "x")) } =
      some { event := some { ID := str "b", Data := some (str "x") },
             isBinary := true, err := none } ∧
    FromHTTPRequest { Header := [(str "CE-ID", [str "b"]), (str "ce-id", [str "a"])],
                      Body := some (ReadCloser.reads (str "x")) } =
      some { event := some { ID := str "a", Data := some (str "x") },
             isBinary := true, err := none } ∧
    str "a" ≠ str "b" := by
  refine ⟨?_, by decide, by decide, by decide⟩
  have e1 : List.filter isCeHeader [(str "ce-id", [str "a"]), (str "CE-ID", [str "b"])] =
      [(str "ce-id", [str "a"]), (str "CE-ID", [str "b"])] := by decide
  have e2 : List.filter isCeHeader [(str "CE-ID", [str "b"]), (str "ce-id", [str "a"])] =
      [(str "CE-ID", [str "b"]), (str "ce-id", [str "a"])] := by decide
  rw [e1, e2]
  exact List.Perm.swap _ _ _

/-- C17 (the code at the failing input): a call prints exactly when its level is
at most `verbose`; but the time stamp is added when `verbose` is positive, not
when the level is: with the default `verbose` of 2 a message of level 0 is
printed with the prefix and the line feed, and with a `verbose` of 0 or less no
message has a prefix. -/
theorem Debug_level_zero_prefixed :
    (∀ (v : Int) (t : Bytes) (level : Int) (format : Bytes),
      (Debug v t level format).isSome = true ↔ level ≤ v) ∧
    (∀ t format : Bytes,
      Debug verbose t 0 format = some (t ++ str ": " ++ format ++ str "\n")) ∧
    (∀ (v : Int) (t : Bytes) (level : Int) (format : Bytes),
      v ≤ 0 → level ≤ v → Debug v t level format = some format) := by
  refine ⟨?_, ?_, ?_⟩
  · intro v t level format
    unfold Debug
    by_cases h : v ≥ level
    · simp [h]
    · simp [h]
  · intro t format
    rfl
  · intro v t level format hv hl
    unfold Debug
    rw [if_pos (ge_iff_le.mpr hl), if_neg (not_lt.mpr hv)]

/-- C18: in binary mode, when every header whose lower-cased name starts with
`ce-` has at least one value, no access `v[0]` fails and `FromHTTPRequest`
returns an event with no error. -/
theorem binary_no_panic (h : Header) (body : Option Bytes)
    (hct : HasPrefix (h.Get (str "Content-Type")) (str "application/cloudevents+json") = false)
    (hne : ∀ kv ∈ h, HasPrefix (ToLower kv.1) (str "ce-") = true → kv.2 ≠ []) :
    ∃ event : Event,
      FromHTTPRequest { Header := h, Body := body.map ReadCloser.reads } =
        some { event := some event, isBinary := true, err := none } := by
  have hb : readBody (body.map ReadCloser.reads) = Except.ok (body.getD []) := by
    cases body <;> rfl
  cases hf : List.foldlM binaryStep ({} : Event) h with
  | none =>
    obtain ⟨kv, hm, hce, hv⟩ := binaryFold_none h _ hf
    exact absurd hv (hne kv hm hce)
  | some ev1 =>
    refine ⟨{ ev1 with Data := some (body.getD []) }, ?_⟩
    unfold FromHTTPRequest
    simp only [hb, hct, hf]
    rfl

theorem binary_no_panic_witness :
    ∃ event : Event,
      FromHTTPRequest
          { Header := [(str "ce-type", [str "a"]), (str "CE-TYPE", [str "b"]),
                       (str "Accept", [])],
            Body := (none : Option Bytes).map ReadCloser.reads } =
        some { event := some event, isBinary := true, err := none } :=
  binary_no_panic [(str "ce-type", [str "a"]), (str "CE-TYPE", [str "b"]), (str "Accept", [])]
    none (by decide) (by decide)

/-- C19: in binary mode, when the header names are pairwise distinct after
lower-casing, every order of iteration over the header map gives the same
result; in structured mode every order of iteration over the decoded map
`ceMap` gives the same result. -/
theorem iteration_order_independent :
    (∀ (h1 h2 : Header) (rc : Option ReadCloser), h1.Perm h2 →
      (h1.map (fun kv => ToLower kv.1)).Nodup →
      HasPrefix (h1.Get (str "Content-Type")) (str "application/cloudevents+json") = false →
      sameResult (FromHTTPRequest { Header := h1, Body := rc })
        (FromHTTPRequest { Header := h2, Body := rc })) ∧
    (∀ (r : Request) (body : Bytes) (ceMap ceMap1 : List (Bytes × Option Bytes)),
      HasPrefix (r.Header.Get (str "Content-Type")) (str "application/cloudevents+json")
        = true →
      readBody r.Body = Except.ok body → unmarshalByteMap body = Except.ok ceMap →
      ceMap1.Perm ceMap →
      sameResult (FromHTTPRequest r)
        (some { event := some (ceMap1.foldl structuredStep {}), isBinary := false,
                err := none })) := by
  constructor
  · intro h1 h2 rc hperm hnd hct
    exact binary_order_independent h1 h2 rc hperm hnd hct
  · intro r body ceMap ceMap1 hct hb hmap hperm
    unfold FromHTTPRequest
    simp only [hb, hct, hmap, if_true]
    exact ⟨rfl, rfl, structuredFold_order ceMap ceMap1 hperm.symm
      (unmarshalByteMap_nodup body ceMap hmap)⟩

theorem iteration_order_independent_witness :
    sameResult
      (FromHTTPRequest
        { Header := [(str "ce-type", [str "a"]), (str "ce-foo", [str "x"]),
                     (str "ce-bar", [str "y"])],
          Body := none })
      (FromHTTPRequest
        { Header := [(str "ce-bar", [str "y"]), (str "ce-type", [str "a"]),
                     (str "ce-foo", [str "x"])],
          Body := none }) ∧
    sameResult
      (FromHTTPRequest (structuredRequest (str "\x7b\"a\":\"aGk=\",\"type\":null\x7d")))
      (some { event := some ([(str "type", none), (str "a", some (str "hi"))].foldl
                structuredStep {}),
              isBinary := false, err := none }) :=
  ⟨iteration_order_independent.1 _ _ none (by decide) (by decide) (by decide),
   iteration_order_independent.2 _ (str "\x7b\"a\":\"aGk=\",\"type\":null\x7d")
     [(str "a", some (str "hi")), (str "type", none)] _ (by decide) rfl rfl
     (List.Perm.swap _ _ _)⟩

/-- C20: two structured-mode requests with the same body give the same result,
whatever their headers are. -/
theorem structured_depends_on_body (r1 r2 : Request)
    (h1 : HasPrefix (r1.Header.Get (str "Content-Type")) (str "application/cloudevents+json")
      = true)
    (h2 : HasPrefix (r2.Header.Get (str "Content-Type")) (str "application/cloudevents+json")
      = true)
    (hbody : r1.Body = r2.Body) :
    FromHTTPRequest r1 = FromHTTPRequest r2 := by
  unfold FromHTTPRequest
  rw [hbody]
  simp only [h1, h2, if_true]

theorem structured_depends_on_body_witness :
    FromHTTPRequest
        { Header := [(str "Content-Type", [str "application/cloudevents+json"]),
                     (str "ce-type", [str "ignored"])],
          Body := some (ReadCloser.reads (str "\x7b\"type\":\"ImEi\"\x7d")) } =
      FromHTTPRequest
        { Header := [(str "Content-Type", [str "application/cloudevents+json; charset=utf-8"])],
          Body := some (ReadCloser.reads (str "\x7b\"type\":\"ImEi\"\x7d")) } :=
  structured_depends_on_body _ _ (by decide) (by decide) rfl

end CloudEvents
